import Mathlib

/-!
# Warth-HugDB: the points ledger and its rules engine

A shallow embedding of the account model (`models/User.js`), the daily-point
record (`models/DailyPoint.js`) and the handlers of `controller/*.js`.

Conventions of the embedding

* A JavaScript `Date` is its `getTime()` value: an `Int` of milliseconds.
  A field that may be absent (`null` / `undefined`) is an `Option`.
* A Mongo `ObjectId` is a `Nat`.
* Counters that the program only ever sets to integer literals, increments or
  resets (streaks, referral counters, claim amounts) are `Int`.
* Point balances and amounts are `ℚ`, each standing for the Number (binary64
  value) stored.  Where a handler credits an earned, claimed or awarded amount
  to a balance, the one sum is taken exactly.  The staking methods multiply an
  amount by the rates 0.03, 0.10 and 0.35, none of them a binary64 value, and
  add and subtract the results: there every arithmetic operation, and each
  rate literal, is rounded to the nearest Number (`toNumber`).
* Where the source takes `Math.floor` or `Math.ceil` of a quotient or product
  that is not representable (`calculateEarnings`, the referral bonuses, the
  promo-code cooldown), the double-precision operations are modelled with
  IEEE-754 binary64 round-to-nearest-even (`Double.round`), because the floor
  turns a rounding error of one unit in the last place into a whole point.
* The Task model is not among the sources; a Task is its id, its `points` and
  its `isActive` flag, as the handlers read them.
* `new Date()` is a parameter `now`; the local midnight computed by
  `setHours(0, 0, 0, 0)` is a parameter `today`.
* `save()` is taken to succeed, with one exception: it validates the path
  `role` against the `enum` of `UserSchema`, so `updateUserClassification`,
  which assigns roles outside that `enum`, gets a `ValidationError` from it and
  stores nothing.  A handler returns its response together with the documents
  as they are stored once the request is over.
-/

set_option maxRecDepth 100000

namespace Warthug

/-! ## Data model -/

/-- An entry of `usedPromoCodes` in `UserSchema`. -/
structure PromoUse where
  promoCode : Nat
  usedAt : Int
  deriving DecidableEq, Repr

/-- The document described by `UserSchema`; `id` is the Mongo `_id`. -/
structure User where
  id : Nat
  telegramUserId : String
  username : String
  walletAddress : Option String := none
  role : String := "User"
  balance : ℚ := 0
  lastClaimTime : Option Int := none
  lastStartTime : Option Int := none
  roleExpiryDate : Option Int := none
  isEarning : Bool := false
  referredBy : Option Nat := none
  referrals : List Nat := []
  joinBonus : ℚ := 0
  totalEarnings : ℚ := 0
  gameScore : ℚ := 0
  tasksCompleted : List Nat := []
  stakes : List Nat := []
  lastActive : Int
  usedPromoCodes : List PromoUse := []
  deriving DecidableEq, Repr

/-- The document described by `dailyPointSchema`. -/
structure DailyPoint where
  user : Nat
  currentStreak : Int := 0
  lastClaimDate : Option Int := none
  nextClaimAmount : Int := 1000
  dailyReferrals : Int := 0
  lastReferralReset : Int
  deriving DecidableEq, Repr

/-- The value of `new DailyPoint({ user: user._id })`: the schema defaults, with
`lastReferralReset` defaulting to `Date.now`. -/
def DailyPoint.create (userId : Nat) (now : Int) : DailyPoint :=
  { user := userId, lastReferralReset := now }

/-- The method `UserSchema.methods.addEarnings`. -/
def User.addEarnings (u : User) (amount : ℚ) : User :=
  { u with balance := u.balance + amount, totalEarnings := u.totalEarnings + amount }

/-! ## Double-precision arithmetic

`calculateEarnings` divides a millisecond count by 3 600 000 and multiplies the
quotient by 10800 before `Math.floor`; the referral cascade floors
`30000 * 0.0125` and its siblings.  These operations are modelled on finite
binary64 values with round-to-nearest, ties-to-even.  The exponent range is
not bounded: every value formed here lies far inside the normal range. -/

/-- The integer nearest to `n / d`, ties to the even one (`0 < d`). -/
def roundHalfEven (n d : Nat) : Nat :=
  if 2 * (n % d) < d then n / d
  else if d < 2 * (n % d) then n / d + 1
  else if (n / d) % 2 = 0 then n / d else n / d + 1

/-- The position of the leading binary digit of `n`, found by halving;
`log2Floor n n` is `⌊log₂ n⌋` for `0 < n`. -/
def log2Floor : Nat → Nat → Nat
  | 0, _ => 0
  | fuel + 1, n => if n < 2 then 0 else log2Floor fuel (n / 2) + 1

/-- The binary exponent of the positive rational `n / d`: the `E` with
`2 ^ E ≤ n / d < 2 ^ (E + 1)`. -/
def binaryExponent (n d : Nat) : Int :=
  let k : Int := (log2Floor n n : Int) - (log2Floor d d : Int)
  if (if 0 ≤ k then d * 2 ^ k.toNat ≤ n else d ≤ n * 2 ^ (-k).toNat) then k else k - 1

/-- A finite double: the number `man * 2 ^ exp`. -/
structure Double where
  man : Int
  exp : Int
  deriving DecidableEq, Repr

namespace Double

/-- The rational number a double stands for. -/
def toRat (a : Double) : ℚ := a.man * (2 : ℚ) ^ a.exp

/-- The double nearest to `(n / d) * 2 ^ x`: the quotient is scaled to 53
significant bits and rounded half to even. -/
def round (n : Int) (d : Nat) (x : Int) : Double :=
  if n = 0 then ⟨0, 0⟩
  else
    let s : Int := 52 - binaryExponent n.natAbs d
    let m : Nat :=
      if 0 ≤ s then roundHalfEven (n.natAbs * 2 ^ s.toNat) d
      else roundHalfEven n.natAbs (d * 2 ^ (-s).toNat)
    ⟨n.sign * m, x - s⟩

/-- An integer as a Number (exact below `2 ^ 53`). -/
def ofInt (n : Int) : Double := round n 1 0

/-- The decimal literal `n / d`, such as `0.0125`. -/
def ofDecimal (n d : Nat) : Double := round n d 0

/-- JavaScript `a / b` for `b ≠ 0`. -/
def div (a b : Double) : Double :=
  round (a.man * b.man.sign) b.man.natAbs (a.exp - b.exp)

/-- JavaScript `a * b`. -/
def mul (a b : Double) : Double := round (a.man * b.man) 1 (a.exp + b.exp)

/-- The function `Math.floor`. -/
def floor (a : Double) : Int :=
  if 0 ≤ a.exp then a.man * 2 ^ a.exp.toNat else a.man / 2 ^ (-a.exp).toNat

end Double

/-- The Number nearest to the rational `q`, ties to even: the binary64 value
that an arithmetic operation with exact result `q` returns, and the value of a
decimal literal `q`.  As for `Double`, the exponent range is not bounded. -/
def toNumber (q : ℚ) : ℚ := (Double.round q.num q.den 0).toRat

/-! ## Earning session (`models/User.js`) -/

/-- The method `UserSchema.methods.stopEarning`: the account afterwards (the returned flag
is `u.isEarning`). -/
def User.stopEarning (u : User) : User :=
  if u.isEarning then { u with isEarning := false } else u

/-- The local `baseEarnings` of `calculateEarnings`:
`10800 * ((now - lastStartTime) / (1000 * 60 * 60))`. -/
def baseEarnings (elapsedMs : Int) : Double :=
  let hoursSinceStart := Double.div (Double.ofInt elapsedMs) (Double.ofInt (1000 * 60 * 60))
  Double.mul (Double.ofInt 10800) hoursSinceStart

/-- The method `UserSchema.methods.calculateEarnings`, with `new Date()` as `now`. -/
def User.calculateEarnings (u : User) (now : Int) : Int :=
  match u.lastStartTime with
  | none => 0
  | some lastStartTime =>
    if !u.isEarning then 0
    else
      let baseEarnings := baseEarnings (now - lastStartTime)
      if u.role = "MonthlyBooster" ∨ u.role = "LifeTimeBooster" then
        Double.floor baseEarnings
      else if u.role = "Monthly3xBooster" then
        Double.floor (Double.mul baseEarnings (Double.ofInt 3))
      else if u.role = "LifeTime6xBooster" then
        Double.floor (Double.mul baseEarnings (Double.ofInt 6))
      else if u.role = "User" then
        min (Double.floor baseEarnings) 3600
      else 0

/-- The method `UserSchema.methods.claim`: the returned amount and the account afterwards. -/
def User.claim (u : User) (now : Int) : Int × User :=
  let earnings := u.calculateEarnings now
  if earnings > 0 then
    let u := u.addEarnings earnings
    let u := { u with lastClaimTime := some now }
    let u := u.stopEarning
    let u := { u with lastStartTime := none }
    (earnings, u)
  else (0, u)

/-! ## Referral classification (`controller/leaderboardController.js`) -/

/-- The constant `CLASSIFICATION_THRESHOLDS.PROMOTER`. -/
def THRESHOLD_PROMOTER : Nat := 1001
/-- The constant `CLASSIFICATION_THRESHOLDS.INFLUENCER`. -/
def THRESHOLD_INFLUENCER : Nat := 5001
/-- The constant `CLASSIFICATION_THRESHOLDS.AMBASSADOR`. -/
def THRESHOLD_AMBASSADOR : Nat := 10001
/-- The constant `CLASSIFICATION_AWARDS.PROMOTER`. -/
def AWARD_PROMOTER : Int := 159000
/-- The constant `CLASSIFICATION_AWARDS.INFLUENCER`. -/
def AWARD_INFLUENCER : Int := 500000
/-- The constant `CLASSIFICATION_AWARDS.AMBASSADOR`. -/
def AWARD_AMBASSADOR : Int := 1200000

/-- The object returned by `updateUserClassification`. -/
structure Classification where
  newClassification : String
  pointsAwarded : Int
  deriving DecidableEq, Repr

/-- The `enum` of the path `role` in `UserSchema`. -/
def roleEnum : List String :=
  ["User", "MonthlyBooster", "LifeTimeBooster", "Monthly3xBooster", "LifeTime6xBooster"]

/-- The function `updateUserClassification`: the returned object, or the error
thrown, and the account as stored afterwards.  `user.save()` validates the
modified path `role` against `roleEnum`; when the new role is not in it,
`save()` throws a Mongoose `ValidationError` (only its name is kept here),
nothing is written and the function rejects. -/
def updateUserClassification (user : User) : Except String Classification × User :=
  let referralCount := user.referrals.length
  let (newClassification, pointsAwarded) : String × Int :=
    if referralCount ≥ THRESHOLD_AMBASSADOR then
      ("Ambassador", if user.role ≠ "Ambassador" then AWARD_AMBASSADOR else 0)
    else if referralCount ≥ THRESHOLD_INFLUENCER then
      ("Influencer",
        if user.role ≠ "Influencer" ∧ user.role ≠ "Ambassador" then AWARD_INFLUENCER else 0)
    else if referralCount ≥ THRESHOLD_PROMOTER then
      ("Promoter",
        if user.role ≠ "Promoter" ∧ user.role ≠ "Influencer" ∧ user.role ≠ "Ambassador"
        then AWARD_PROMOTER else 0)
    else ("User", 0)
  if newClassification ≠ user.role then
    if newClassification ∈ roleEnum then
      (.ok { newClassification := newClassification, pointsAwarded := pointsAwarded },
       { user with
          role := newClassification,
          balance := user.balance + pointsAwarded,
          totalEarnings := user.totalEarnings + pointsAwarded })
    else (.error "ValidationError", user)
  else (.ok { newClassification := user.role, pointsAwarded := 0 }, user)

/-! ## Staking (`models/User.js`) -/

/-- The document described by `StakeSchema`; `id` is the Mongo `_id`. -/
structure Stake where
  id : Nat
  user : Nat
  amount : ℚ
  period : Int
  interestRate : ℚ
  startDate : Int
  endDate : Int
  status : String := "active"
  appliedPromoCodes : List String := []
  deriving DecidableEq, Repr

/-- The object returned by `claimStake` and `unstake`. -/
structure StakePayout where
  principal : ℚ
  interest : ℚ
  totalAmount : ℚ
  deriving DecidableEq, Repr

/-- What a staking method leaves behind: the returned object or the thrown
error message, and the account and stake documents afterwards. -/
structure StakeOutcome where
  result : Except String StakePayout
  user : User
  stake : Option Stake

/-- The method `UserSchema.methods.claimStake`; `stake` is the result of
`Stake.findById(stakeId)`.  The product `amount * interestRate`, the sum
`amount + interest` and the sum `balance += totalAmount` are operations on
Numbers, each rounded by `toNumber`. -/
def User.claimStake (u : User) (stake : Option Stake) (stakeId : Nat) (now : Int) :
    StakeOutcome :=
  match stake with
  | none =>
    { result := .error "Stake not found or does not belong to this user",
      user := u, stake := none }
  | some st =>
    if ¬ stakeId ∈ u.stakes then
      { result := .error "Stake not found or does not belong to this user",
        user := u, stake := some st }
    else if st.status ≠ "active" then
      { result := .error "Stake is not active", user := u, stake := some st }
    else if now < st.endDate then
      { result := .error "Staking period has not ended yet", user := u, stake := some st }
    else
      let interest := toNumber (st.amount * st.interestRate)
      let totalAmount := toNumber (st.amount + interest)
      { result := .ok { principal := st.amount, interest := interest,
                        totalAmount := totalAmount },
        user := { u with
          balance := toNumber (u.balance + totalAmount),
          stakes := u.stakes.filter (fun id => id ≠ stakeId) },
        stake := some { st with status := "claimed" } }

/-! ## Daily claim handlers -/

/-- The JSON body and status of a `claimDailyPoints` response. -/
structure DailyClaimResponse where
  status : Nat
  message : String
  claimedAmount : Option Int := none
  currentStreak : Option Int := none
  nextClaimAmount : Option Int := none
  newBalance : Option ℚ := none
  bonusApplied : Option Bool := none
  deriving DecidableEq, Repr

/-- What a `claimDailyPoints` request leaves behind: the response, and the
account and daily-point documents as stored afterwards (`none`: no such
document). -/
structure DailyClaimOutcome where
  response : DailyClaimResponse
  user : Option User
  dailyPoint : Option DailyPoint
  deriving DecidableEq, Repr

namespace dailyPointController

/-- The local `claimAmount` of `claimDailyPoints`:
`Math.min(dailyPoint.currentStreak * 1000, 30000)`. -/
def claimAmount (currentStreak : Int) : Int := min (currentStreak * 1000) 30000

/-- The handler `exports.claimDailyPoints` of `controller/dailyPointController.js`, the
handler routed at `POST /claim-daily-points/:telegramUserId`.  `user` and
`dailyPoint` are the results of the two `findOne` calls. -/
def claimDailyPoints (user : Option User) (dailyPoint : Option DailyPoint)
    (now today : Int) : DailyClaimOutcome :=
  match user with
  | none =>
    { response := { status := 404, message := "User not found" },
      user := none, dailyPoint := dailyPoint }
  | some user =>
    let dp := match dailyPoint with
      | some d => d
      | none => DailyPoint.create user.id now
    if dp.lastClaimDate = some today then
      { response := { status := 400, message := "Daily points already claimed today" },
        user := some user, dailyPoint := dailyPoint }
    else
      let dp := match dp.lastClaimDate with
        | none => { dp with currentStreak := 0 }
        | some d => if d < today - 86400000 then { dp with currentStreak := 0 } else dp
      let dp := { dp with currentStreak := dp.currentStreak + 1 }
      let claimAmount := claimAmount dp.currentStreak
      let bonusMultiplier : Int := if dp.dailyReferrals > (2 : Int) then 2 else 1
      let claimedAmount := claimAmount * bonusMultiplier
      let user := user.addEarnings claimedAmount
      let dp := { dp with
        lastClaimDate := some today,
        nextClaimAmount := min ((dp.currentStreak + 1) * 1000) 30000,
        dailyReferrals := 0,
        lastReferralReset := today }
      { response :=
          { status := 200, message := "Daily points claimed successfully",
            claimedAmount := some claimedAmount,
            currentStreak := some dp.currentStreak,
            nextClaimAmount := some dp.nextClaimAmount,
            newBalance := some user.balance,
            bonusApplied := some (decide (bonusMultiplier > (1 : Int))) },
        user := some user, dailyPoint := some dp }

end dailyPointController

namespace userController

/-- The handler `exports.claimDailyPoints` of `controller/userController.js` (not routed):
it pays the stored `nextClaimAmount` and increments the streak afterwards. -/
def claimDailyPoints (user : Option User) (dailyPoint : Option DailyPoint)
    (now today : Int) : DailyClaimOutcome :=
  match user with
  | none =>
    { response := { status := 404, message := "User not found" },
      user := none, dailyPoint := dailyPoint }
  | some user =>
    let dp := match dailyPoint with
      | some d => d
      | none => DailyPoint.create user.id now
    if dp.lastClaimDate = some today then
      { response := { status := 400, message := "Daily points already claimed today" },
        user := some user, dailyPoint := dailyPoint }
    else
      let dp := match dp.lastClaimDate with
        | none => { dp with currentStreak := 0, nextClaimAmount := 1000 }
        | some d =>
          if d < today - 86400000 then { dp with currentStreak := 0, nextClaimAmount := 1000 }
          else dp
      let bonusMultiplier : Int := if dp.dailyReferrals > (2 : Int) then 2 else 1
      let claimedAmount := dp.nextClaimAmount * bonusMultiplier
      let user := user.addEarnings claimedAmount
      let dp := { dp with currentStreak := dp.currentStreak + 1 }
      let dp := { dp with
        lastClaimDate := some today,
        nextClaimAmount := min (dp.currentStreak * 1000) 30000,
        dailyReferrals := 0,
        lastReferralReset := today }
      { response :=
          { status := 200, message := "Daily points claimed successfully",
            claimedAmount := some claimedAmount,
            currentStreak := some dp.currentStreak,
            nextClaimAmount := some dp.nextClaimAmount,
            newBalance := some user.balance,
            bonusApplied := some (decide (bonusMultiplier > (1 : Int))) },
        user := some user, dailyPoint := some dp }

end userController

/-! ## Registration and the referral cascade (`controller/userController.js`)

The users collection is a list of documents, the daily-point collection
likewise; a fresh `ObjectId` for the new account is the parameter
`newUserId`. -/

/-- The query `User.findById(id)`; a `null` or `undefined` id finds nothing. -/
def findById (users : List User) (id : Option Nat) : Option User :=
  match id with
  | none => none
  | some i => users.find? (fun u => u.id = i)

/-- The query `User.findOne({ username })`. -/
def findOneByUsername (users : List User) (username : String) : Option User :=
  users.find? (fun u => u.username = username)

/-- The call `doc.save()` on the users collection: the stored document with this `_id`
is replaced, or the document is inserted. -/
def saveUser (users : List User) (doc : User) : List User :=
  if users.any (fun u => u.id = doc.id) then
    users.map (fun u => if u.id = doc.id then doc else u)
  else users ++ [doc]

/-- The `referralBonuses` array of `processReferral`:
`[0.20, 0.10, 0.05, 0.025, 0.0125]`. -/
def referralBonuses : List Double :=
  [Double.ofDecimal 20 100, Double.ofDecimal 10 100, Double.ofDecimal 5 100,
   Double.ofDecimal 25 1000, Double.ofDecimal 125 10000]

/-- The local `bonusAmount` of `processReferral`: `Math.floor(30000 * bonus)`. -/
def bonusAmount (bonus : Double) : Int :=
  Double.floor (Double.mul (Double.ofInt 30000) bonus)

/-- The `for (const bonus of referralBonuses)` loop of `processReferral`, from
the remaining bonuses and the value of `currentReferrer`. -/
def referralLoop : List Double → Option User → List User → List User
  | [], _, users => users
  | _ :: _, none, users => users
  | bonus :: rest, some currentReferrer, users =>
    let currentReferrer := currentReferrer.addEarnings (bonusAmount bonus)
    let users := saveUser users currentReferrer
    referralLoop rest (findById users currentReferrer.referredBy) users

/-- The helper `processReferral(referrer, newUser)`: the users collection afterwards. -/
def processReferral (users : List User) (referrer newUser : User) : List User :=
  let referrer := { referrer with referrals := referrer.referrals ++ [newUser.id] }
  let referrer := referrer.addEarnings 15000
  let users := saveUser users referrer
  referralLoop referralBonuses (some referrer) users

/-- Replace the first element satisfying `p`: `save()` of the document that
`findOne` returned. -/
def replaceFirst {α : Type} (p : α → Bool) (new : α) : List α → List α
  | [] => []
  | x :: xs => if p x then new :: xs else x :: replaceFirst p new xs

/-- The helper `addReferral(userId)` of `userController.js`: the daily-point
collection afterwards. -/
def addReferral (dailyPoints : List DailyPoint) (userId : Nat) (today : Int) :
    List DailyPoint :=
  match dailyPoints.find? (fun d => d.user = userId) with
  | none => dailyPoints
  | some dailyPoint =>
    let dailyPoint :=
      if dailyPoint.lastReferralReset < today then
        { dailyPoint with dailyReferrals := 1, lastReferralReset := today }
      else { dailyPoint with dailyReferrals := dailyPoint.dailyReferrals + 1 }
    replaceFirst (fun d => d.user = userId) dailyPoint dailyPoints

/-- The two collections `registerUser` touches. -/
structure Db where
  users : List User
  dailyPoints : List DailyPoint

/-- The status and body of a `registerUser` response. -/
structure RegisterResponse where
  status : Nat
  message : Option String := none
  user : Option User := none
  deriving DecidableEq, Repr

/-- The handler `exports.registerUser`.  A missing body field is the empty string.  The
first `save()` of the new account fails on the unique indexes of
`telegramUserId` and `username`; the error is answered with status 400. -/
def registerUser (db : Db) (telegramUserId username referralCode : String)
    (newUserId : Nat) (now today : Int) : RegisterResponse × Db :=
  if telegramUserId = "" ∨ username = "" then
    ({ status := 400, message := some "Telegram User ID and username are required" }, db)
  else
    let referredBy : Option User :=
      if referralCode ≠ "" then findOneByUsername db.users referralCode else none
    if referralCode ≠ "" ∧ referredBy = none then
      ({ status := 400, message := some "Invalid referral code" }, db)
    else if db.users.any
        (fun u => u.telegramUserId = telegramUserId ∨ u.username = username) then
      ({ status := 400, message := some "E11000 duplicate key error" }, db)
    else
      let user : User :=
        { id := newUserId, telegramUserId := telegramUserId, username := username,
          referredBy := referredBy.map User.id, lastActive := now }
      let users := saveUser db.users user
      let (users, dailyPoints) :=
        match referredBy with
        | some referrer =>
          (processReferral users referrer user, addReferral db.dailyPoints referrer.id today)
        | none => (users, db.dailyPoints)
      let user := user.addEarnings 30000
      let users := saveUser users user
      let dailyPoints := dailyPoints ++ [DailyPoint.create user.id now]
      ({ status := 201, user := some user }, { users := users, dailyPoints := dailyPoints })

/-- The accounts reached from `start` by following `referredBy`, `start`
first, at most `n` of them. -/
def referralChain (users : List User) : Nat → Option User → List User
  | 0, _ => []
  | _ + 1, none => []
  | n + 1, some u => u :: referralChain users n (findById users u.referredBy)

/-! ## Unstaking and stake creation (`models/User.js`) -/

/-- The method `UserSchema.methods.unstake`; `stake` is the result of
`Stake.findById(stakeId)`.  The product `amount * interestRate`, the sum
`principal + interest` and the sum `balance += totalAmount` are operations on
Numbers, each rounded by `toNumber`. -/
def User.unstake (u : User) (stake : Option Stake) (stakeId : Nat) (now : Int) :
    StakeOutcome :=
  match stake with
  | none =>
    { result := .error "Stake not found or does not belong to this user",
      user := u, stake := none }
  | some st =>
    if ¬ stakeId ∈ u.stakes then
      { result := .error "Stake not found or does not belong to this user",
        user := u, stake := some st }
    else if st.status ≠ "active" then
      { result := .error "Stake is not active", user := u, stake := some st }
    else
      let principal := st.amount
      let interest : ℚ :=
        if now ≥ st.endDate then toNumber (st.amount * st.interestRate) else 0
      let totalAmount := toNumber (principal + interest)
      { result := .ok { principal := principal, interest := interest,
                        totalAmount := totalAmount },
        user := { u with
          balance := toNumber (u.balance + totalAmount),
          stakes := u.stakes.filter (fun id => id ≠ stakeId) },
        stake := some { st with status := "unstaked" } }

/-- What `stake` leaves behind: the returned Stake or the thrown error message,
the account afterwards, and the Stake document saved, if any. -/
structure StakeCreation where
  result : Except String Stake
  user : User
  created : Option Stake

/-- The method `UserSchema.methods.stake`; the `_id` of the new Stake is the
parameter `newStakeId`.  The rate literals `0.03`, `0.10` and `0.35` are the
Numbers nearest to them, and `balance -= amount` is a subtraction of Numbers,
rounded by `toNumber`. -/
def User.stake (u : User) (amount : ℚ) (period : Int) (newStakeId : Nat) (now : Int) :
    StakeCreation :=
  if u.balance < amount then
    { result := .error "Insufficient balance for staking", user := u, created := none }
  else
    let interestRate : Option ℚ :=
      if period = 3 then some (toNumber (3 / 100))
      else if period = 15 then some (toNumber (10 / 100))
      else if period = 45 then some (toNumber (35 / 100))
      else none
    match interestRate with
    | none => { result := .error "Invalid staking period", user := u, created := none }
    | some interestRate =>
      let startDate := now
      let endDate := startDate + period * 24 * 60 * 60 * 1000
      let stake : Stake :=
        { id := newStakeId, user := u.id, amount := amount, period := period,
          interestRate := interestRate, startDate := startDate, endDate := endDate,
          status := "active" }
      { result := .ok stake,
        user := { u with
          stakes := u.stakes ++ [stake.id], balance := toNumber (u.balance - amount) },
        created := some stake }

/-! ## Role and earning-session methods (`models/User.js`) -/

/-- The method `UserSchema.methods.startEarning`: the returned flag and the
account afterwards. -/
def User.startEarning (u : User) (now : Int) : Bool × User :=
  if !u.isEarning then (true, { u with isEarning := true, lastStartTime := some now })
  else (false, u)

/-- The method `UserSchema.methods.canStartEarning`. -/
def User.canStartEarning (u : User) : Bool := !u.isEarning

/-- The method `UserSchema.methods.setRole`; a missing or zero `durationInDays`
is `none`, and `role.includes(LifeTime)` is the test that the characters of
`LifeTime` occur in `role` as a block. -/
def User.setRole (u : User) (role : String) (durationInDays : Option Int) (now : Int) : User :=
  let u := { u with role := role }
  match durationInDays with
  | some days => { u with roleExpiryDate := some (now + days * 24 * 60 * 60 * 1000) }
  | none =>
    if "LifeTime".data <:+: role.data then { u with roleExpiryDate := none } else u

/-- The method `UserSchema.methods.checkAndUpdateRole`. -/
def User.checkAndUpdateRole (u : User) (now : Int) : User :=
  match u.roleExpiryDate with
  | none => u
  | some roleExpiryDate =>
    if roleExpiryDate ≤ now then
      User.stopEarning { u with role := "User", roleExpiryDate := none }
    else u

/-! ## Promo codes (`models/User.js`, `controller/userController.js`) -/

/-- The function `Math.ceil`. -/
def Double.ceil (a : Double) : Int :=
  if 0 ≤ a.exp then a.man * 2 ^ a.exp.toNat else -((-a.man) / 2 ^ (-a.exp).toNat)

/-- The document described by `PromoCodeSchema`; `id` is the Mongo `_id`. -/
structure PromoCode where
  id : Nat
  code : String
  pointsBoost : ℚ
  isActive : Bool := true
  expirationDate : Option Int := none
  deriving DecidableEq, Repr

/-- The `recentUse` of `applyPromoCode`: the first usage of this code with
`usedAt > Date.now() - 24 * 60 * 60 * 1000`. -/
def recentUse (u : User) (promoCodeId : Nat) (now : Int) : Option PromoUse :=
  u.usedPromoCodes.find?
    (fun usage => usage.promoCode = promoCodeId ∧ usage.usedAt > now - 24 * 60 * 60 * 1000)

/-- The local `hoursLeft` of `applyPromoCode`:
`Math.ceil(timeLeft / (1000 * 60 * 60))` with
`timeLeft = usedAt + 24 * 60 * 60 * 1000 - now`. -/
def hoursLeft (usedAt now : Int) : Int :=
  let timeLeft := usedAt + 24 * 60 * 60 * 1000 - now
  Double.ceil (Double.div (Double.ofInt timeLeft) (Double.ofInt (1000 * 60 * 60)))

/-- The message of the cooldown rejection. -/
def cooldownMessage (hoursLeft : Int) : String :=
  "You can use this promo code again in " ++ toString hoursLeft ++ " hours"

/-- What the method `applyPromoCode` leaves behind: the returned boost or the
thrown error message, and the account afterwards. -/
structure PromoOutcome where
  result : Except String ℚ
  user : User

/-- The method `UserSchema.methods.applyPromoCode`.  `activeTasks` is the length
of `Task.find({ isActive: true })` and `promoCodeDoc` the result of
`PromoCode.findOne({ code: promoCode })`, which the method filters by
`isActive: true`. -/
def User.applyPromoCode (u : User) (activeTasks : Nat) (promoCodeDoc : Option PromoCode)
    (now : Int) : PromoOutcome :=
  if u.tasksCompleted.length < activeTasks then
    { result := .error "You must complete all available tasks before using a promo code",
      user := u }
  else
    match promoCodeDoc.filter (fun p => p.isActive) with
    | none => { result := .error "Invalid or inactive promo code", user := u }
    | some promoCodeDoc =>
      if (match promoCodeDoc.expirationDate with
          | some expirationDate => decide (expirationDate < now)
          | none => false) then
        { result := .error "Promo code has expired", user := u }
      else
        match recentUse u promoCodeDoc.id now with
        | some use =>
          { result := .error (cooldownMessage (hoursLeft use.usedAt now)), user := u }
        | none =>
          { result := .ok promoCodeDoc.pointsBoost,
            user := { u with
              balance := u.balance + promoCodeDoc.pointsBoost,
              usedPromoCodes :=
                u.usedPromoCodes ++ [{ promoCode := promoCodeDoc.id, usedAt := now }] } }

/-- The status and body of a response of `applyPromoCode`, `playGame` or
`completeTask`. -/
structure PointsResponse where
  status : Nat
  message : String
  pointsAdded : Option ℚ := none
  newBalance : Option ℚ := none
  deriving DecidableEq, Repr

namespace userController

/-- The handler `exports.applyPromoCode`: the response and the account as stored
afterwards.  A missing body field is the empty string; `user` and
`promoCodeDoc` are the results of the two `findOne` calls. -/
def applyPromoCode (telegramUserId promoCode : String) (user : Option User)
    (promoCodeDoc : Option PromoCode) (now : Int) : PointsResponse × Option User :=
  if telegramUserId = "" ∨ promoCode = "" then
    ({ status := 400, message := "Telegram User ID and promo code are required" }, user)
  else
    match user with
    | none => ({ status := 404, message := "User not found" }, none)
    | some user =>
      match promoCodeDoc with
      | none => ({ status := 404, message := "Promo code not found" }, some user)
      | some promoCodeDoc =>
        if !promoCodeDoc.isActive then
          ({ status := 400, message := "Promo code is not active" }, some user)
        else if (match promoCodeDoc.expirationDate with
            | some expirationDate => decide (expirationDate < now)
            | none => false) then
          ({ status := 400, message := "Promo code has expired" }, some user)
        else
          match recentUse user promoCodeDoc.id now with
          | some use =>
            ({ status := 400, message := cooldownMessage (hoursLeft use.usedAt now) },
             some user)
          | none =>
            let pointsAdded := promoCodeDoc.pointsBoost
            let user := { user with
              balance := user.balance + pointsAdded,
              usedPromoCodes :=
                user.usedPromoCodes ++ [{ promoCode := promoCodeDoc.id, usedAt := now }] }
            ({ status := 200, message := "Promo code applied successfully",
               pointsAdded := some pointsAdded, newBalance := some user.balance },
             some user)

/-- The handler `exports.playGame`: the response and the account as stored
afterwards.  A `score` that is not a number is `none`. -/
def playGame (username : String) (score : Option ℚ) (user : Option User) (now : Int) :
    PointsResponse × Option User :=
  match score with
  | none => ({ status := 400, message := "Invalid input" }, user)
  | some score =>
    if username = "" then ({ status := 400, message := "Invalid input" }, user)
    else
      match user with
      | none => ({ status := 404, message := "User not found" }, none)
      | some user =>
        let user := { user with
          balance := user.balance + score,
          totalEarnings := user.totalEarnings + score,
          lastActive := now }
        ({ status := 200, message := "Game score added to balance successfully",
           pointsAdded := some score, newBalance := some user.balance },
         some user)

end userController

/-- Modelled from the spec: the Task document, whose model file
`models/Task.js` is not among the sources; the handlers read its identity,
`points` (the reward) and `isActive`. -/
structure Task where
  id : Nat
  points : ℚ
  isActive : Bool := true
  deriving DecidableEq, Repr

namespace userController

/-- The handler `exports.completeTask`: the response and the account as stored
afterwards.  A missing `taskId` is `none`; `user` and `task` are the results
of `User.findOne` and `Task.findById(taskId)`. -/
def completeTask (username : String) (taskId : Option Nat) (user : Option User)
    (task : Option Task) : PointsResponse × Option User :=
  match taskId with
  | none => ({ status := 400, message := "Username and taskId are required" }, user)
  | some taskId =>
    if username = "" then
      ({ status := 400, message := "Username and taskId are required" }, user)
    else
      match user with
      | none => ({ status := 404, message := "User not found" }, none)
      | some user =>
        match task with
        | none => ({ status := 404, message := "Task not found" }, some user)
        | some task =>
          if taskId ∈ user.tasksCompleted then
            ({ status := 400, message := "Task already completed" }, some user)
          else
            let user := { user with tasksCompleted := user.tasksCompleted ++ [taskId] }
            let user := user.addEarnings task.points
            ({ status := 200, message := "Task completed successfully" }, some user)

end userController

/-! ## Claim handlers (`controller/userController.js`,
`controller/leaderboardController.js`) -/

/-- The status and body of a response of `claimPoints` or `claimHourlyPoints`. -/
structure ClaimResponse where
  status : Nat
  message : String
  claimedAmount : Option Int := none
  newBalance : Option ℚ := none
  totalEarnings : Option ℚ := none
  isEarning : Option Bool := none
  secondsToNextClaim : Option Int := none
  deriving DecidableEq, Repr

namespace userController

/-- The handler `exports.claimPoints`: the response and the account as stored
afterwards (`save()` is called on the success branch only). -/
def claimPoints (user : Option User) (now : Int) : ClaimResponse × Option User :=
  match user with
  | none => ({ status := 404, message := "User not found" }, none)
  | some stored =>
    let user := stored.checkAndUpdateRole now
    let (claimedAmount, user) := user.claim now
    if claimedAmount > 0 then
      let user := { user with lastActive := now }
      ({ status := 200, message := "Points claimed successfully",
         claimedAmount := some claimedAmount, newBalance := some user.balance,
         isEarning := some user.isEarning },
       some user)
    else ({ status := 400, message := "No points available to claim" }, some stored)

end userController

namespace leaderboardController

/-- The handler `exports.claimHourlyPoints`: the response and the account as
stored afterwards (`save()` is called whatever `claim()` returned). -/
def claimHourlyPoints (user : Option User) (now : Int) : ClaimResponse × Option User :=
  match user with
  | none => ({ status := 404, message := "User not found" }, none)
  | some user =>
    if !user.canStartEarning then
      ({ status := 400, message := "You can\x27t claim yet", secondsToNextClaim := some 0 },
       some user)
    else
      let user := (user.startEarning now).2
      let (claimedAmount, user) := user.claim now
      ({ status := 200, message := "Points claimed successfully",
         claimedAmount := some claimedAmount, newBalance := some user.balance,
         totalEarnings := some user.totalEarnings, secondsToNextClaim := some 0 },
       some user)

end leaderboardController

/-! ## Traces of earning-session calls -/

/-- A call of one of the account methods that touch the earning session. -/
inductive EarningCall where
  | startEarning
  | stopEarning
  | claim
  | checkAndUpdateRole
  | setRole (role : String) (durationInDays : Option Int)
  deriving Repr

/-- The account after one call made at time `now`. -/
def EarningCall.run (now : Int) : EarningCall → User → User
  | .startEarning, u => (u.startEarning now).2
  | .stopEarning, u => u.stopEarning
  | .claim, u => (u.claim now).2
  | .checkAndUpdateRole, u => u.checkAndUpdateRole now
  | .setRole role durationInDays, u => u.setRole role durationInDays now

/-- The account after a sequence of timed calls, first call first. -/
def runCalls : List (Int × EarningCall) → User → User
  | [], u => u
  | (now, call) :: rest, u => runCalls rest (call.run now u)

/-- A newly created account: the schema defaults of `new User`. -/
def newAccount (id : Nat) (telegramUserId username : String) (now : Int) : User :=
  { id := id, telegramUserId := telegramUserId, username := username, lastActive := now }

/-! ## Theorems -/

/-- The record a claim works on: the stored one, or a new one with the schema
defaults when none is stored. -/
def loadedDailyPoint (user : User) (dailyPoint : Option DailyPoint) (now : Int) : DailyPoint :=
  match dailyPoint with
  | some d => d
  | none => DailyPoint.create user.id now

/-- An account used in the concrete examples. -/
def alice : User :=
  { id := 1, telegramUserId := "1001", username := "alice", balance := 30000,
    totalEarnings := 30000, lastActive := 0 }

/-- An account in an earning session started at time 0. -/
def earner (role : String) : User :=
  { id := 2, telegramUserId := "1002", username := "earner", role := role,
    isEarning := true, lastStartTime := some 0, lastActive := 0 }

/-- A matured 15-day stake of 1000 points, owned by alice. -/
def stake15 : Stake :=
  { id := 9, user := 1, amount := 1000, period := 15, interestRate := toNumber (1 / 10),
    startDate := 0, endDate := 1296000000 }

/-- A matured 15-day stake of 3 points, owned by alice. -/
def stake3 : Stake :=
  { id := 9, user := 1, amount := 3, period := 15, interestRate := toNumber (1 / 10),
    startDate := 0, endDate := 1296000000 }

/-- A matured 45-day stake of 180 points, owned by alice. -/
def stake180 : Stake :=
  { id := 9, user := 1, amount := 180, period := 45, interestRate := toNumber (35 / 100),
    startDate := 0, endDate := 3888000000 }

/-- A database holding alice alone. -/
def aliceDb : Db := { users := [alice], dailyPoints := [] }

/-- An active promo code without expiry, worth 500 points. -/
def welcome : PromoCode := { id := 7, code := "WELCOME", pointsBoost := 500 }

/-- An account that used the promo code `welcome` at time 0. -/
def carol : User :=
  { id := 3, telegramUserId := "1003", username := "carol", balance := 30000,
    totalEarnings := 30000, lastActive := 0,
    usedPromoCodes := [{ promoCode := 7, usedAt := 0 }] }

/-! ## Traces of payout calls on one stake -/

/-- A payout call on a stake: `claimStake(stakeId)` or `unstake(stakeId)`. -/
inductive StakeCall where
  | claimStake
  | unstake
  deriving DecidableEq, Repr

/-- One call made at time `now` on the account and on the stake document that
`Stake.findById(stakeId)` returns. -/
def StakeCall.run (stakeId : Nat) (now : Int) (call : StakeCall) (u : User)
    (stake : Option Stake) : StakeOutcome :=
  match call with
  | .claimStake => u.claimStake stake stakeId now
  | .unstake => u.unstake stake stakeId now

/-- Whether a payout call returned rather than threw. -/
def StakeOutcome.succeeded (o : StakeOutcome) : Bool :=
  match o.result with
  | .ok _ => true
  | .error _ => false

/-- The outcomes of a sequence of timed payout calls on one stake id, first call
first; each call works on the account and the stake as the call before left
them. -/
def stakeTrace (stakeId : Nat) : List (Int × StakeCall) → User → Option Stake →
    List StakeOutcome
  | [], _, _ => []
  | (now, call) :: rest, u, stake =>
    call.run stakeId now u stake ::
      stakeTrace stakeId rest (call.run stakeId now u stake).user
        (call.run stakeId now u stake).stake

/-- The account `alice` holding the stake `stake15`. -/
def aliceStaked : User := { alice with stakes := [9] }

/-- An account holding 0.11 points. -/
def dime : User :=
  { id := 4, telegramUserId := "1004", username := "dime", balance := toNumber (11 / 100),
    totalEarnings := toNumber (11 / 100), lastActive := 0 }

/-- A sequence of payout calls from the maturity of `stake15` on. -/
def payoutCalls : List (Int × StakeCall) :=
  [(1296000000, StakeCall.claimStake), (1296000001, StakeCall.unstake),
    (1296000002, StakeCall.claimStake)]

/-- The account `carol` after a second use of `welcome`, 24 hours after the
first. -/
def carolAgain : User :=
  { carol with usedPromoCodes := [{ promoCode := 7, usedAt := 0 },
                                  { promoCode := 7, usedAt := 86400000 }] }

/-- An account with role `User` and 1001 referrals. -/
def promoterCandidate : User := { alice with referrals := List.replicate 1001 2 }

/-- An account with role `User` and 5001 referrals. -/
def influencerCandidate : User := { alice with referrals := List.replicate 5001 2 }

/-- An account with role `User` and 10001 referrals. -/
def ambassadorCandidate : User := { alice with referrals := List.replicate 10001 2 }

/-- A `LifeTime6xBooster` with 1001 referrals, earning since time 0. -/
def boostedPromoter : User :=
  { earner "LifeTime6xBooster" with referrals := List.replicate 1001 1 }

/-- A `LifeTime6xBooster` with 1000 referrals, earning since time 0. -/
def boostedUser : User :=
  { earner "LifeTime6xBooster" with referrals := List.replicate 1000 1 }

/-- C1: whenever the routed `claimDailyPoints` succeeds, balance and
totalEarnings both rise by `min(s * 1000, 30000) * m`, with `s` the stored
(just incremented) streak and `m = 2` when `dailyReferrals > 2` at claim time,
else 1; the base amount is monotone in `s` and at most 30000. -/
theorem claimDailyPoints_credits_streak_amount (user : User) (dailyPoint : Option DailyPoint)
    (now today : Int)
    (hok : (dailyPointController.claimDailyPoints (some user) dailyPoint now today).response.status
      = 200) :
    (∃ user' dp',
      (dailyPointController.claimDailyPoints (some user) dailyPoint now today).user = some user' ∧
      (dailyPointController.claimDailyPoints (some user) dailyPoint now today).dailyPoint
        = some dp' ∧
      user'.balance = user.balance +
        ((min (dp'.currentStreak * 1000) 30000 *
          (if (loadedDailyPoint user dailyPoint now).dailyReferrals > (2 : Int) then 2 else 1)
          : Int) : ℚ) ∧
      user'.totalEarnings = user.totalEarnings +
        ((min (dp'.currentStreak * 1000) 30000 *
          (if (loadedDailyPoint user dailyPoint now).dailyReferrals > (2 : Int) then 2 else 1)
          : Int) : ℚ) ∧
      (dailyPointController.claimDailyPoints (some user) dailyPoint now today).response.claimedAmount
        = some (min (dp'.currentStreak * 1000) 30000 *
          (if (loadedDailyPoint user dailyPoint now).dailyReferrals > (2 : Int) then 2 else 1))) ∧
    (∀ s t : Int, s ≤ t →
      dailyPointController.claimAmount s ≤ dailyPointController.claimAmount t) ∧
    (∀ s : Int, dailyPointController.claimAmount s = min (s * 1000) 30000 ∧
      dailyPointController.claimAmount s ≤ 30000) := by
  refine ⟨?_, ?_, ?_⟩
  · unfold loadedDailyPoint
    cases dailyPoint with
    | none =>
      simp [dailyPointController.claimDailyPoints, DailyPoint.create, User.addEarnings,
        dailyPointController.claimAmount]
      norm_num
    | some d =>
      by_cases h : d.lastClaimDate = some today
      · simp [dailyPointController.claimDailyPoints, h] at hok
      · cases hd : d.lastClaimDate with
        | none =>
          simp [dailyPointController.claimDailyPoints, hd, User.addEarnings,
            dailyPointController.claimAmount]
          split_ifs <;> norm_num
        | some t =>
          have ht : t ≠ today := by
            intro e; exact h (by rw [hd, e])
          by_cases hr : t < today - 86400000
          · simp [dailyPointController.claimDailyPoints, hd, ht, hr, User.addEarnings,
              dailyPointController.claimAmount]
            split_ifs <;> norm_num
          · simp [dailyPointController.claimDailyPoints, hd, ht, hr, User.addEarnings,
              dailyPointController.claimAmount]
  · intro s t hst
    unfold dailyPointController.claimAmount
    exact min_le_min (by omega) le_rfl
  · intro s
    exact ⟨rfl, min_le_right _ _⟩

/-- C1 at a concrete input: the first claim of alice (no record stored yet). -/
theorem claimDailyPoints_credits_streak_amount_witness :
    (dailyPointController.claimDailyPoints (some alice) none 0 0).response.status = 200 ∧
    (dailyPointController.claimDailyPoints (some alice) none 0 0).response.claimedAmount
      = some 1000 ∧
    dailyPointController.claimAmount 31 ≤ 30000 := by
  have h := claimDailyPoints_credits_streak_amount alice none 0 0 (by decide)
  refine ⟨by decide, by decide, (h.2.2 31).2⟩

/-! ### Streak reset (C2) -/

/-- A successful claim of either handler stores a record dated `today`. -/
theorem claimDailyPoints_success_dated (user : Option User) (dailyPoint : Option DailyPoint)
    (now today : Int) :
    ((dailyPointController.claimDailyPoints user dailyPoint now today).response.status = 200 →
      ∃ user' dp',
        (dailyPointController.claimDailyPoints user dailyPoint now today).user = some user' ∧
        (dailyPointController.claimDailyPoints user dailyPoint now today).dailyPoint = some dp' ∧
        dp'.lastClaimDate = some today) ∧
    ((userController.claimDailyPoints user dailyPoint now today).response.status = 200 →
      ∃ user' dp',
        (userController.claimDailyPoints user dailyPoint now today).user = some user' ∧
        (userController.claimDailyPoints user dailyPoint now today).dailyPoint = some dp' ∧
        dp'.lastClaimDate = some today) := by
  constructor <;> intro hok
  · cases user with
    | none => simp [dailyPointController.claimDailyPoints] at hok
    | some u =>
      by_cases h : (loadedDailyPoint u dailyPoint now).lastClaimDate = some today
      · simp [dailyPointController.claimDailyPoints, loadedDailyPoint] at h hok
        simp [h] at hok
      · simp only [dailyPointController.claimDailyPoints, loadedDailyPoint] at h ⊢
        simp only [h, if_false]
        exact ⟨_, _, rfl, rfl, rfl⟩
  · cases user with
    | none => simp [userController.claimDailyPoints] at hok
    | some u =>
      by_cases h : (loadedDailyPoint u dailyPoint now).lastClaimDate = some today
      · simp [userController.claimDailyPoints, loadedDailyPoint] at h hok
        simp [h] at hok
      · simp only [userController.claimDailyPoints, loadedDailyPoint] at h ⊢
        simp only [h, if_false]
        exact ⟨_, _, rfl, rfl, rfl⟩

/-- Both handlers reject a claim on a record already dated `today`, and store
nothing. -/
theorem claimDailyPoints_rejects_dated (user : User) (dp : DailyPoint) (now today : Int)
    (h : dp.lastClaimDate = some today) :
    dailyPointController.claimDailyPoints (some user) (some dp) now today =
      { response := { status := 400, message := "Daily points already claimed today" },
        user := some user, dailyPoint := some dp } ∧
    userController.claimDailyPoints (some user) (some dp) now today =
      { response := { status := 400, message := "Daily points already claimed today" },
        user := some user, dailyPoint := some dp } := by
  simp [dailyPointController.claimDailyPoints, userController.claimDailyPoints, h]

/-- C2 as stated fails: with `lastClaimDate` the midnight two days before
`today` (one day missed) and a stored streak of 5, both handlers reset the
streak, which ends at 1 and not at 6. -/
theorem claimDailyPoints_one_missed_day_resets :
    (dailyPointController.claimDailyPoints (some alice)
        (some { user := 1, currentStreak := 5, lastClaimDate := some 0, lastReferralReset := 0 })
        172800000 172800000).dailyPoint.map DailyPoint.currentStreak = some 1 ∧
    (userController.claimDailyPoints (some alice)
        (some { user := 1, currentStreak := 5, lastClaimDate := some 0, lastReferralReset := 0 })
        172800000 172800000).dailyPoint.map DailyPoint.currentStreak = some 1 ∧
    (172800000 : Int) - 2 * 86400000 = 0 ∧ (1 : Int) ≠ 5 + 1 := by
  decide

/-- C2, amended: in both handlers a claim whose `lastClaimDate` is not `today`
and not earlier than `today - 86400000` (the midnight one day before: no day
missed) leaves the streak at the old value plus 1; a `lastClaimDate` earlier
than `today - 86400000` (one or more days missed), an absent `lastClaimDate`
or an absent record reset it, so it ends at 1. -/
theorem claimDailyPoints_streak_after_gap (user : User) (d : DailyPoint) (now today : Int) :
    (∀ t, d.lastClaimDate = some t → t ≠ today → today - 86400000 ≤ t →
      (dailyPointController.claimDailyPoints (some user) (some d) now today).dailyPoint.map
        DailyPoint.currentStreak = some (d.currentStreak + 1) ∧
      (userController.claimDailyPoints (some user) (some d) now today).dailyPoint.map
        DailyPoint.currentStreak = some (d.currentStreak + 1)) ∧
    (∀ t, d.lastClaimDate = some t → t < today - 86400000 →
      (dailyPointController.claimDailyPoints (some user) (some d) now today).dailyPoint.map
        DailyPoint.currentStreak = some 1 ∧
      (userController.claimDailyPoints (some user) (some d) now today).dailyPoint.map
        DailyPoint.currentStreak = some 1) ∧
    (d.lastClaimDate = none →
      (dailyPointController.claimDailyPoints (some user) (some d) now today).dailyPoint.map
        DailyPoint.currentStreak = some 1 ∧
      (userController.claimDailyPoints (some user) (some d) now today).dailyPoint.map
        DailyPoint.currentStreak = some 1) ∧
    (dailyPointController.claimDailyPoints (some user) none now today).dailyPoint.map
        DailyPoint.currentStreak = some 1 ∧
    (userController.claimDailyPoints (some user) none now today).dailyPoint.map
        DailyPoint.currentStreak = some 1 := by
  refine ⟨?_, ?_, ?_, ?_, ?_⟩
  · intro t hd ht hge
    have hr : ¬ t < today - 86400000 := by omega
    simp [dailyPointController.claimDailyPoints, userController.claimDailyPoints, hd, ht, hr]
  · intro t hd hlt
    have ht : t ≠ today := by omega
    simp [dailyPointController.claimDailyPoints, userController.claimDailyPoints, hd, ht, hlt]
  · intro hd
    simp [dailyPointController.claimDailyPoints, userController.claimDailyPoints, hd]
  · simp [dailyPointController.claimDailyPoints, DailyPoint.create]
  · simp [userController.claimDailyPoints, DailyPoint.create]

/-- C2, amended, at concrete inputs: a streak of 5 claimed the next day becomes
6; claimed two days later it becomes 1. -/
theorem claimDailyPoints_streak_after_gap_witness :
    (dailyPointController.claimDailyPoints (some alice)
        (some { user := 1, currentStreak := 5, lastClaimDate := some 86400000,
                lastReferralReset := 0 })
        172800000 172800000).dailyPoint.map DailyPoint.currentStreak = some (5 + 1) ∧
    (userController.claimDailyPoints (some alice)
        (some { user := 1, currentStreak := 5, lastClaimDate := some 0, lastReferralReset := 0 })
        172800000 172800000).dailyPoint.map DailyPoint.currentStreak = some 1 :=
  ⟨((claimDailyPoints_streak_after_gap alice
      { user := 1, currentStreak := 5, lastClaimDate := some 86400000, lastReferralReset := 0 }
      172800000 172800000).1 86400000 rfl (by decide) (by decide)).1,
   ((claimDailyPoints_streak_after_gap alice
      { user := 1, currentStreak := 5, lastClaimDate := some 0, lastReferralReset := 0 }
      172800000 172800000).2.1 0 rfl (by decide)).2⟩

/-! ### Double claim (C3) -/

/-- C3: in both handlers, after a successful claim a second claim with the same
`today` is answered 400 `Daily points already claimed today` and stores the
account and the daily-point record exactly as the first claim left them. -/
theorem claimDailyPoints_twice_same_day_rejected (user : Option User)
    (dailyPoint : Option DailyPoint) (now now' today : Int) :
    ((dailyPointController.claimDailyPoints user dailyPoint now today).response.status = 200 →
      dailyPointController.claimDailyPoints
          (dailyPointController.claimDailyPoints user dailyPoint now today).user
          (dailyPointController.claimDailyPoints user dailyPoint now today).dailyPoint
          now' today =
        { response := { status := 400, message := "Daily points already claimed today" },
          user := (dailyPointController.claimDailyPoints user dailyPoint now today).user,
          dailyPoint :=
            (dailyPointController.claimDailyPoints user dailyPoint now today).dailyPoint }) ∧
    ((userController.claimDailyPoints user dailyPoint now today).response.status = 200 →
      userController.claimDailyPoints
          (userController.claimDailyPoints user dailyPoint now today).user
          (userController.claimDailyPoints user dailyPoint now today).dailyPoint
          now' today =
        { response := { status := 400, message := "Daily points already claimed today" },
          user := (userController.claimDailyPoints user dailyPoint now today).user,
          dailyPoint :=
            (userController.claimDailyPoints user dailyPoint now today).dailyPoint }) := by
  constructor <;> intro hok
  · obtain ⟨u', dp', hu, hd, hdate⟩ :=
      (claimDailyPoints_success_dated user dailyPoint now today).1 hok
    rw [hu, hd]
    exact (claimDailyPoints_rejects_dated u' dp' now' today hdate).1
  · obtain ⟨u', dp', hu, hd, hdate⟩ :=
      (claimDailyPoints_success_dated user dailyPoint now today).2 hok
    rw [hu, hd]
    exact (claimDailyPoints_rejects_dated u' dp' now' today hdate).2

/-- C3 at a concrete input: alice claims at 09:00 and again at 18:00 of the
same day. -/
theorem claimDailyPoints_twice_same_day_rejected_witness :
    (dailyPointController.claimDailyPoints (some alice) none 32400000 0).response.status = 200 ∧
    (dailyPointController.claimDailyPoints
        (dailyPointController.claimDailyPoints (some alice) none 32400000 0).user
        (dailyPointController.claimDailyPoints (some alice) none 32400000 0).dailyPoint
        64800000 0).response.message = "Daily points already claimed today" ∧
    (userController.claimDailyPoints (some alice) none 32400000 0).response.status = 200 ∧
    (userController.claimDailyPoints
        (userController.claimDailyPoints (some alice) none 32400000 0).user
        (userController.claimDailyPoints (some alice) none 32400000 0).dailyPoint
        64800000 0).response.message = "Daily points already claimed today" := by
  have h := claimDailyPoints_twice_same_day_rejected (some alice) none 32400000 64800000 0
  refine ⟨by decide, ?_, by decide, ?_⟩
  · rw [h.1 (by decide)]
  · rw [h.2 (by decide)]

/-! ### The stored preview (C4) -/

/-- C4 as stated fails: after the first claim of alice through the routed handler the
stored streak is 1 and the stored `nextClaimAmount` is 2000, not
`min(1 * 1000, 30000) = 1000`. -/
theorem claimDailyPoints_nextClaimAmount_not_streak_amount :
    (dailyPointController.claimDailyPoints (some alice) none 0 0).response.status = 200 ∧
    (dailyPointController.claimDailyPoints (some alice) none 0 0).dailyPoint.map
      DailyPoint.currentStreak = some 1 ∧
    (dailyPointController.claimDailyPoints (some alice) none 0 0).dailyPoint.map
      DailyPoint.nextClaimAmount = some 2000 ∧
    (2000 : Int) ≠ min (1 * 1000) 30000 := by
  decide

/-- C4, amended: after every successful claim through the routed handler the
stored record satisfies `nextClaimAmount = min((currentStreak + 1) * 1000,
30000)`, the amount of the following day; this equals
`min(currentStreak * 1000, 30000)` exactly when the streak is at least 30. -/
theorem claimDailyPoints_nextClaimAmount_previews (user : Option User)
    (dailyPoint : Option DailyPoint) (now today : Int)
    (hok : (dailyPointController.claimDailyPoints user dailyPoint now today).response.status
      = 200) :
    ∃ dp', (dailyPointController.claimDailyPoints user dailyPoint now today).dailyPoint
        = some dp' ∧
      dp'.nextClaimAmount = min ((dp'.currentStreak + 1) * 1000) 30000 ∧
      (dp'.nextClaimAmount = min (dp'.currentStreak * 1000) 30000 ↔ 30 ≤ dp'.currentStreak) := by
  have key : ∀ s : Int, (min ((s + 1) * 1000) 30000 = min (s * 1000) 30000 ↔ 30 ≤ s) := by
    intro s
    constructor
    · intro h
      by_contra hlt
      have h1 : min (s * 1000) 30000 = s * 1000 := min_eq_left (by omega)
      rw [h1] at h
      have h2 : min ((s + 1) * 1000) 30000 ≤ (s + 1) * 1000 := min_le_left _ _
      rcases min_choice ((s + 1) * 1000) 30000 with h3 | h3 <;> omega
    · intro h
      rw [min_eq_right (by omega), min_eq_right (by omega)]
  cases user with
  | none => simp [dailyPointController.claimDailyPoints] at hok
  | some u =>
    by_cases h : (loadedDailyPoint u dailyPoint now).lastClaimDate = some today
    · simp [dailyPointController.claimDailyPoints, loadedDailyPoint] at h hok
      simp [h] at hok
    · simp only [dailyPointController.claimDailyPoints, loadedDailyPoint] at h ⊢
      simp only [h, if_false]
      exact ⟨_, rfl, rfl, key _⟩

/-- C4, amended, at a concrete input: the first claim of alice. -/
theorem claimDailyPoints_nextClaimAmount_previews_witness :
    (dailyPointController.claimDailyPoints (some alice) none 0 0).response.status = 200 ∧
    ∃ dp', (dailyPointController.claimDailyPoints (some alice) none 0 0).dailyPoint = some dp' ∧
      dp'.nextClaimAmount = min ((dp'.currentStreak + 1) * 1000) 30000 ∧
      (dp'.nextClaimAmount = min (dp'.currentStreak * 1000) 30000 ↔ 30 ≤ dp'.currentStreak) :=
  ⟨by decide, claimDailyPoints_nextClaimAmount_previews (some alice) none 0 0 (by decide)⟩

/-! ### Earning accrual (C5, C6) -/

/-- C5 as stated fails: 65 seconds into a session a MonthlyBooster is paid 194
points, while `floor(10800 * 65000 / 3600000) = 195`; the quotient
`65000 / 3600000` is rounded down to the double `0x1.27d27d27d27d2p-6`, and
its product with 10800 rounds to `0x1.85fffffffffffp+7`, just below 195. -/
theorem calculateEarnings_below_exact_floor :
    (earner "MonthlyBooster").calculateEarnings 65000 = 194 ∧
    baseEarnings 65000 = ⟨6860952557322239, -45⟩ ∧
    ⌊(10800 * 65000 / 3600000 : ℚ)⌋ = 195 := by
  refine ⟨by decide, by decide, ?_⟩
  norm_num

/-! #### Double-precision error bounds -/

/-- The value `roundHalfEven n d` is within one half of `n / d`. -/
theorem roundHalfEven_err (n d : Nat) (hd : 0 < d) :
    |((roundHalfEven n d : ℕ) : ℚ) - (n : ℚ) / d| ≤ 1 / 2 := by
  have hdq : (0 : ℚ) < d := by exact_mod_cast hd
  have hsplit : (n : ℚ) / d = (n / d : ℕ) + ((n % d : ℕ) : ℚ) / d := by
    have h := Nat.div_add_mod n d
    have h' : ((d * (n / d) + n % d : ℕ) : ℚ) = n := by exact_mod_cast h
    field_simp
    push_cast at h'
    linarith
  have hr : n % d < d := Nat.mod_lt _ hd
  have hrq : ((n % d : ℕ) : ℚ) < d := by exact_mod_cast hr
  have hr0 : (0 : ℚ) ≤ ((n % d : ℕ) : ℚ) := by positivity
  unfold roundHalfEven
  rw [hsplit]
  have key1 : ((n % d : ℕ) : ℚ) / d ≤ 1 / 2 ↔ 2 * ((n % d : ℕ) : ℚ) ≤ d := by
    rw [div_le_iff₀ hdq]; constructor <;> intro h <;> linarith
  have key2 : 1 / 2 ≤ ((n % d : ℕ) : ℚ) / d ↔ (d : ℚ) ≤ 2 * ((n % d : ℕ) : ℚ) := by
    rw [le_div_iff₀ hdq]; constructor <;> intro h <;> linarith
  have hfrac0 : (0 : ℚ) ≤ ((n % d : ℕ) : ℚ) / d := by positivity
  have hfrac1 : ((n % d : ℕ) : ℚ) / d < 1 := by rw [div_lt_one hdq]; exact hrq
  by_cases h1 : 2 * (n % d) < d
  · simp only [h1, if_true]
    have : 2 * ((n % d : ℕ) : ℚ) ≤ d := by exact_mod_cast h1.le
    rw [abs_le]
    constructor <;> linarith [key1.2 this]
  · simp only [h1, if_false]
    by_cases h2 : d < 2 * (n % d)
    · simp only [h2, if_true]
      have : (d : ℚ) ≤ 2 * ((n % d : ℕ) : ℚ) := by exact_mod_cast h2.le
      rw [abs_le]
      push_cast
      constructor <;> linarith [key2.2 this]
    · simp only [h2, if_false]
      have e : 2 * (n % d) = d := by omega
      have eq : 2 * ((n % d : ℕ) : ℚ) = d := by exact_mod_cast e
      have hhalf : ((n % d : ℕ) : ℚ) / d = 1 / 2 := by
        rw [div_eq_iff hdq.ne']; linarith
      rw [hhalf]
      split_ifs
      · rw [abs_le]; constructor <;> linarith
      · rw [abs_le]; push_cast; constructor <;> linarith

/-- The function `log2Floor` brackets its argument between consecutive powers of two. -/
theorem log2Floor_spec : ∀ (fuel n : Nat), 0 < n → n ≤ fuel →
    2 ^ log2Floor fuel n ≤ n ∧ n < 2 ^ (log2Floor fuel n + 1) := by
  intro fuel
  induction fuel with
  | zero => intro n h0 h; omega
  | succ fuel ih =>
    intro n h0 h
    unfold log2Floor
    by_cases h2 : n < 2
    · simp only [h2, if_true]
      constructor <;> simp <;> omega
    · simp only [h2, if_false]
      have := ih (n / 2) (by omega) (by omega)
      rw [pow_succ, pow_succ]
      rw [pow_succ] at this
      omega


/-- A natural power of two as an integer power. -/
theorem two_zpow_toNat (k : Int) (hk : 0 ≤ k) : ((2 ^ k.toNat : ℕ) : ℚ) = (2 : ℚ) ^ k := by
  conv_rhs => rw [← Int.toNat_of_nonneg hk]
  rw [zpow_natCast]
  push_cast
  rfl

/-- The value `binaryExponent n d` is the binary exponent of `n / d`. -/
theorem binaryExponent_spec (n d : Nat) (hn : 0 < n) (hd : 0 < d) :
    (2 : ℚ) ^ binaryExponent n d ≤ (n : ℚ) / d ∧
    (n : ℚ) / d < (2 : ℚ) ^ (binaryExponent n d + 1) := by
  have hnq : (0 : ℚ) < n := by exact_mod_cast hn
  have hdq : (0 : ℚ) < d := by exact_mod_cast hd
  obtain ⟨ha1, ha2⟩ := log2Floor_spec n n hn le_rfl
  obtain ⟨hb1, hb2⟩ := log2Floor_spec d d hd le_rfl
  have ha1q : (2 : ℚ) ^ (log2Floor n n : ℤ) ≤ n := by
    rw [zpow_natCast]; exact_mod_cast ha1
  have ha2q : (n : ℚ) < (2 : ℚ) ^ ((log2Floor n n : ℤ) + 1) := by
    have : (n : ℚ) < (2 : ℚ) ^ (log2Floor n n + 1) := by exact_mod_cast ha2
    rwa [← zpow_natCast, Nat.cast_add, Nat.cast_one] at this
  have hb1q : (2 : ℚ) ^ (log2Floor d d : ℤ) ≤ d := by
    rw [zpow_natCast]; exact_mod_cast hb1
  have hb2q : (d : ℚ) < (2 : ℚ) ^ ((log2Floor d d : ℤ) + 1) := by
    have : (d : ℚ) < (2 : ℚ) ^ (log2Floor d d + 1) := by exact_mod_cast hb2
    rwa [← zpow_natCast, Nat.cast_add, Nat.cast_one] at this
  have h2 : (0 : ℚ) < 2 := by norm_num
  have h2ne : (2 : ℚ) ≠ 0 := by norm_num
  -- the quotient lies strictly between 2 ^ (k - 1) and 2 ^ (k + 1)
  have hlow : (2 : ℚ) ^ ((log2Floor n n : ℤ) - (log2Floor d d : ℤ) - 1) ≤ (n : ℚ) / d := by
    rw [le_div_iff₀ hdq]
    have e : (2 : ℚ) ^ ((log2Floor n n : ℤ) - (log2Floor d d : ℤ) - 1) *
        (2 : ℚ) ^ ((log2Floor d d : ℤ) + 1) = (2 : ℚ) ^ (log2Floor n n : ℤ) := by
      rw [← zpow_add₀ h2ne]; congr 1; ring
    have hpos : (0 : ℚ) < (2 : ℚ) ^ ((log2Floor n n : ℤ) - (log2Floor d d : ℤ) - 1) :=
      zpow_pos h2 _
    calc (2 : ℚ) ^ ((log2Floor n n : ℤ) - (log2Floor d d : ℤ) - 1) * d
        ≤ (2 : ℚ) ^ ((log2Floor n n : ℤ) - (log2Floor d d : ℤ) - 1) *
            (2 : ℚ) ^ ((log2Floor d d : ℤ) + 1) :=
          mul_le_mul_of_nonneg_left hb2q.le hpos.le
      _ = (2 : ℚ) ^ (log2Floor n n : ℤ) := e
      _ ≤ n := ha1q
  have hhigh : (n : ℚ) / d < (2 : ℚ) ^ ((log2Floor n n : ℤ) - (log2Floor d d : ℤ) + 1) := by
    rw [div_lt_iff₀ hdq]
    have e : (2 : ℚ) ^ ((log2Floor n n : ℤ) - (log2Floor d d : ℤ) + 1) *
        (2 : ℚ) ^ (log2Floor d d : ℤ) = (2 : ℚ) ^ ((log2Floor n n : ℤ) + 1) := by
      rw [← zpow_add₀ h2ne]; congr 1; ring
    have hpos : (0 : ℚ) < (2 : ℚ) ^ ((log2Floor n n : ℤ) - (log2Floor d d : ℤ) + 1) :=
      zpow_pos h2 _
    calc (n : ℚ) < (2 : ℚ) ^ ((log2Floor n n : ℤ) + 1) := ha2q
      _ = (2 : ℚ) ^ ((log2Floor n n : ℤ) - (log2Floor d d : ℤ) + 1) *
            (2 : ℚ) ^ (log2Floor d d : ℤ) := e.symm
      _ ≤ (2 : ℚ) ^ ((log2Floor n n : ℤ) - (log2Floor d d : ℤ) + 1) * d :=
          mul_le_mul_of_nonneg_left hb1q hpos.le
  -- the test of `binaryExponent` compares the quotient with 2 ^ k
  have htest : (if (0 : ℤ) ≤ (log2Floor n n : ℤ) - (log2Floor d d : ℤ) then
        d * 2 ^ ((log2Floor n n : ℤ) - (log2Floor d d : ℤ)).toNat ≤ n
      else d ≤ n * 2 ^ (-((log2Floor n n : ℤ) - (log2Floor d d : ℤ))).toNat) ↔
      (2 : ℚ) ^ ((log2Floor n n : ℤ) - (log2Floor d d : ℤ)) ≤ (n : ℚ) / d := by
    rw [le_div_iff₀ hdq]
    by_cases hk : (0 : ℤ) ≤ (log2Floor n n : ℤ) - (log2Floor d d : ℤ)
    · rw [if_pos hk, ← two_zpow_toNat _ hk]
      constructor
      · intro h
        have : ((d * 2 ^ ((log2Floor n n : ℤ) - (log2Floor d d : ℤ)).toNat : ℕ) : ℚ) ≤ n := by
          exact_mod_cast h
        push_cast at this ⊢
        linarith
      · intro h
        have : ((d * 2 ^ ((log2Floor n n : ℤ) - (log2Floor d d : ℤ)).toNat : ℕ) : ℚ) ≤ n := by
          push_cast at h ⊢
          linarith
        exact_mod_cast this
    · rw [if_neg hk]
      have hk' : (0 : ℤ) ≤ -((log2Floor n n : ℤ) - (log2Floor d d : ℤ)) := by omega
      have e : (2 : ℚ) ^ ((log2Floor n n : ℤ) - (log2Floor d d : ℤ)) *
          ((2 ^ (-((log2Floor n n : ℤ) - (log2Floor d d : ℤ))).toNat : ℕ) : ℚ) = 1 := by
        rw [two_zpow_toNat _ hk', ← zpow_add₀ h2ne]
        simp
      have hpos : (0 : ℚ) < (2 : ℚ) ^ ((log2Floor n n : ℤ) - (log2Floor d d : ℤ)) :=
        zpow_pos h2 _
      have hpos' : (0 : ℚ) <
          ((2 ^ (-((log2Floor n n : ℤ) - (log2Floor d d : ℤ))).toNat : ℕ) : ℚ) := by positivity
      constructor
      · intro h
        have h' : (d : ℚ) ≤
            n * ((2 ^ (-((log2Floor n n : ℤ) - (log2Floor d d : ℤ))).toNat : ℕ) : ℚ) := by
          exact_mod_cast h
        have := mul_le_mul_of_nonneg_left h' hpos.le
        calc (2 : ℚ) ^ ((log2Floor n n : ℤ) - (log2Floor d d : ℤ)) * d
            ≤ (2 : ℚ) ^ ((log2Floor n n : ℤ) - (log2Floor d d : ℤ)) *
              (n * ((2 ^ (-((log2Floor n n : ℤ) - (log2Floor d d : ℤ))).toNat : ℕ) : ℚ)) := this
          _ = n * ((2 : ℚ) ^ ((log2Floor n n : ℤ) - (log2Floor d d : ℤ)) *
              ((2 ^ (-((log2Floor n n : ℤ) - (log2Floor d d : ℤ))).toNat : ℕ) : ℚ)) := by ring
          _ = n := by rw [e, mul_one]
      · intro h
        have := mul_le_mul_of_nonneg_right h hpos'.le
        have h' : (d : ℚ) ≤
            n * ((2 ^ (-((log2Floor n n : ℤ) - (log2Floor d d : ℤ))).toNat : ℕ) : ℚ) := by
          calc (d : ℚ) = (2 : ℚ) ^ ((log2Floor n n : ℤ) - (log2Floor d d : ℤ)) *
                ((2 ^ (-((log2Floor n n : ℤ) - (log2Floor d d : ℤ))).toNat : ℕ) : ℚ) * d := by
                rw [e, one_mul]
            _ = (2 : ℚ) ^ ((log2Floor n n : ℤ) - (log2Floor d d : ℤ)) * d *
                ((2 ^ (-((log2Floor n n : ℤ) - (log2Floor d d : ℤ))).toNat : ℕ) : ℚ) := by ring
            _ ≤ _ := this
        exact_mod_cast h'
  unfold binaryExponent
  simp only []
  by_cases ht : (if (0 : ℤ) ≤ (log2Floor n n : ℤ) - (log2Floor d d : ℤ) then
        d * 2 ^ ((log2Floor n n : ℤ) - (log2Floor d d : ℤ)).toNat ≤ n
      else d ≤ n * 2 ^ (-((log2Floor n n : ℤ) - (log2Floor d d : ℤ))).toNat)
  · rw [if_pos ht]
    exact ⟨htest.1 ht, hhigh⟩
  · rw [if_neg ht]
    refine ⟨hlow, ?_⟩
    have := lt_of_not_le (fun h => ht (htest.2 h))
    simpa using this


/-- Rounding keeps the sign and has relative error at most `2 ^ -53`. -/
theorem Double.round_spec (n : Int) (d : Nat) (x : Int) (hn : 0 < n) (hd : 0 < d) :
    0 < (Double.round n d x).man ∧
    |(Double.round n d x).toRat - (n : ℚ) / d * (2 : ℚ) ^ x| ≤
      (n : ℚ) / d * (2 : ℚ) ^ x * (2 : ℚ) ^ (-53 : ℤ) := by
  have h2 : (0 : ℚ) < 2 := by norm_num
  have h2ne : (2 : ℚ) ≠ 0 := by norm_num
  have hdq : (0 : ℚ) < d := by exact_mod_cast hd
  have hnat : 0 < n.natAbs := Int.natAbs_pos.2 hn.ne'
  have hcast : ((n.natAbs : ℕ) : ℚ) = (n : ℚ) := by
    rw [Nat.cast_natAbs, abs_of_pos hn]
  obtain ⟨hE1, -⟩ := binaryExponent_spec n.natAbs d hnat hd
  rw [hcast] at hE1
  -- the scaled quotient and its rounding
  have hm : ∃ m : ℕ, Double.round n d x = ⟨(m : ℤ), x - (52 - binaryExponent n.natAbs d)⟩ ∧
      |(m : ℚ) - (n : ℚ) / d * (2 : ℚ) ^ (52 - binaryExponent n.natAbs d)| ≤ 1 / 2 := by
    unfold Double.round
    rw [if_neg hn.ne', Int.sign_eq_one_of_pos hn]
    simp only [one_mul]
    by_cases hs : (0 : ℤ) ≤ 52 - binaryExponent n.natAbs d
    · refine ⟨_, by rw [if_pos hs], ?_⟩
      have := roundHalfEven_err (n.natAbs * 2 ^ (52 - binaryExponent n.natAbs d).toNat) d hd
      rw [Nat.cast_mul, two_zpow_toNat _ hs, hcast] at this
      rw [mul_div_right_comm] at this
      exact this
    · refine ⟨_, by rw [if_neg hs], ?_⟩
      have hs' : (0 : ℤ) ≤ -(52 - binaryExponent n.natAbs d) := by omega
      have := roundHalfEven_err n.natAbs (d * 2 ^ (-(52 - binaryExponent n.natAbs d)).toNat)
        (by positivity)
      rw [Nat.cast_mul, two_zpow_toNat _ hs', hcast, zpow_neg, ← div_div, div_inv_eq_mul] at this
      exact this
  obtain ⟨m, hround, herr⟩ := hm
  rw [hround]
  have hscaled : (2 : ℚ) ^ (52 : ℤ) ≤
      (n : ℚ) / d * (2 : ℚ) ^ (52 - binaryExponent n.natAbs d) := by
    have hpos : (0 : ℚ) < (2 : ℚ) ^ (52 - binaryExponent n.natAbs d) := zpow_pos h2 _
    have e : (2 : ℚ) ^ binaryExponent n.natAbs d * (2 : ℚ) ^ (52 - binaryExponent n.natAbs d) =
        (2 : ℚ) ^ (52 : ℤ) := by
      rw [← zpow_add₀ h2ne]; congr 1; ring
    rw [← e]
    exact mul_le_mul_of_nonneg_right hE1 hpos.le
  have h52 : (2 : ℚ) ^ (52 : ℤ) = 4503599627370496 := by norm_num
  have hmlow : (2 : ℚ) ^ (52 : ℤ) - 1 / 2 ≤ (m : ℚ) := by
    have := (abs_le.1 herr).1
    linarith
  constructor
  · have : (0 : ℚ) < (m : ℚ) := by rw [h52] at hmlow; linarith
    show (0 : ℤ) < (m : ℤ)
    exact_mod_cast this
  · have hposx : (0 : ℚ) < (2 : ℚ) ^ (x - (52 - binaryExponent n.natAbs d)) := zpow_pos h2 _
    have e1 : (n : ℚ) / d * (2 : ℚ) ^ x =
        (n : ℚ) / d * (2 : ℚ) ^ (52 - binaryExponent n.natAbs d) *
          (2 : ℚ) ^ (x - (52 - binaryExponent n.natAbs d)) := by
      rw [mul_assoc, ← zpow_add₀ h2ne]; congr 2; ring
    have e2 : (Double.toRat ⟨(m : ℤ), x - (52 - binaryExponent n.natAbs d)⟩) =
        (m : ℚ) * (2 : ℚ) ^ (x - (52 - binaryExponent n.natAbs d)) := by
      simp [Double.toRat]
    rw [e2, e1, ← sub_mul, abs_mul, abs_of_pos hposx]
    have h53 : (2 : ℚ) ^ (-53 : ℤ) = 1 / 9007199254740992 := by norm_num
    rw [h53]
    rw [h52] at hscaled
    have hstep : |(m : ℚ) - (n : ℚ) / d * (2 : ℚ) ^ (52 - binaryExponent n.natAbs d)| ≤
        (n : ℚ) / d * (2 : ℚ) ^ (52 - binaryExponent n.natAbs d) * (1 / 9007199254740992) := by
      have : (1 : ℚ) / 2 ≤
          (n : ℚ) / d * (2 : ℚ) ^ (52 - binaryExponent n.natAbs d) * (1 / 9007199254740992) := by
        linarith
      linarith
    calc |(m : ℚ) - (n : ℚ) / d * (2 : ℚ) ^ (52 - binaryExponent n.natAbs d)| *
          (2 : ℚ) ^ (x - (52 - binaryExponent n.natAbs d))
        ≤ (n : ℚ) / d * (2 : ℚ) ^ (52 - binaryExponent n.natAbs d) * (1 / 9007199254740992) *
          (2 : ℚ) ^ (x - (52 - binaryExponent n.natAbs d)) :=
          mul_le_mul_of_nonneg_right hstep hposx.le
      _ = _ := by ring


/-- Integers below `2 ^ 53` are represented exactly. -/
theorem Double.ofInt_exact (n : Int) (hn : 0 < n) (hlt : n < 2 ^ 53) :
    0 < (Double.ofInt n).man ∧ (Double.ofInt n).toRat = n := by
  have h2 : (0 : ℚ) < 2 := by norm_num
  have h2ne : (2 : ℚ) ≠ 0 := by norm_num
  have hnat : 0 < n.natAbs := Int.natAbs_pos.2 hn.ne'
  have hcast : ((n.natAbs : ℕ) : ℚ) = (n : ℚ) := by
    rw [Nat.cast_natAbs, abs_of_pos hn]
  obtain ⟨hE1, -⟩ := binaryExponent_spec n.natAbs 1 hnat Nat.one_pos
  rw [hcast, Nat.cast_one, div_one] at hE1
  have hs : (0 : ℤ) ≤ 52 - binaryExponent n.natAbs 1 := by
    by_contra hcon
    have h53 : (53 : ℤ) ≤ binaryExponent n.natAbs 1 := by omega
    have := zpow_le_zpow_right₀ (a := (2 : ℚ)) (by norm_num) h53
    have hq : (n : ℚ) < (2 : ℚ) ^ (53 : ℤ) := by
      have : (n : ℚ) < ((2 ^ 53 : ℤ) : ℚ) := by exact_mod_cast hlt
      norm_num at this ⊢
      exact this
    linarith
  have hround : Double.ofInt n =
      ⟨((n.natAbs * 2 ^ (52 - binaryExponent n.natAbs 1).toNat : ℕ) : ℤ),
        0 - (52 - binaryExponent n.natAbs 1)⟩ := by
    unfold Double.ofInt Double.round
    rw [if_neg hn.ne', Int.sign_eq_one_of_pos hn]
    simp only [one_mul, if_pos hs]
    congr 2
    unfold roundHalfEven
    rw [Nat.mod_one, if_pos (by norm_num), Nat.div_one]
  rw [hround]
  constructor
  · show (0 : ℤ) < ((n.natAbs * 2 ^ (52 - binaryExponent n.natAbs 1).toNat : ℕ) : ℤ)
    have : 0 < n.natAbs * 2 ^ (52 - binaryExponent n.natAbs 1).toNat := by positivity
    exact_mod_cast this
  · simp only [Double.toRat]
    rw [Int.cast_natCast, Nat.cast_mul, two_zpow_toNat _ hs, hcast, mul_assoc,
      ← zpow_add₀ h2ne]
    simp

/-- Division of positive doubles has relative error at most `2 ^ -53`. -/
theorem Double.div_spec (a b : Double) (ha : 0 < a.man) (hb : 0 < b.man) :
    0 < (Double.div a b).man ∧
    |(Double.div a b).toRat - a.toRat / b.toRat| ≤
      a.toRat / b.toRat * (2 : ℚ) ^ (-53 : ℤ) := by
  have h2ne : (2 : ℚ) ≠ 0 := by norm_num
  have hbn : 0 < b.man.natAbs := Int.natAbs_pos.2 hb.ne'
  have hcast : ((b.man.natAbs : ℕ) : ℚ) = (b.man : ℚ) := by
    rw [Nat.cast_natAbs, abs_of_pos hb]
  have e : a.toRat / b.toRat =
      ((a.man * b.man.sign : ℤ) : ℚ) / (b.man.natAbs : ℕ) * (2 : ℚ) ^ (a.exp - b.exp) := by
    rw [Int.sign_eq_one_of_pos hb, mul_one, hcast, zpow_sub₀ h2ne]
    simp only [Double.toRat]
    have hbq : (b.man : ℚ) ≠ 0 := by exact_mod_cast hb.ne'
    have hpe : (2 : ℚ) ^ b.exp ≠ 0 := zpow_ne_zero _ h2ne
    field_simp
  rw [e]
  unfold Double.div
  exact Double.round_spec _ _ _ (by rw [Int.sign_eq_one_of_pos hb, mul_one]; exact ha) hbn

/-- Multiplication of positive doubles has relative error at most `2 ^ -53`. -/
theorem Double.mul_spec (a b : Double) (ha : 0 < a.man) (hb : 0 < b.man) :
    0 < (Double.mul a b).man ∧
    |(Double.mul a b).toRat - a.toRat * b.toRat| ≤
      a.toRat * b.toRat * (2 : ℚ) ^ (-53 : ℤ) := by
  have h2ne : (2 : ℚ) ≠ 0 := by norm_num
  have e : a.toRat * b.toRat =
      ((a.man * b.man : ℤ) : ℚ) / ((1 : ℕ) : ℚ) * (2 : ℚ) ^ (a.exp + b.exp) := by
    rw [zpow_add₀ h2ne]
    simp only [Double.toRat]
    push_cast
    ring
  rw [e]
  unfold Double.mul
  exact Double.round_spec _ _ _ (mul_pos ha hb) Nat.one_pos

/-- The function `Double.floor` is the floor of the value. -/
theorem Double.floor_spec (a : Double) : a.floor = ⌊a.toRat⌋ := by
  unfold Double.floor Double.toRat
  by_cases h : 0 ≤ a.exp
  · rw [if_pos h]
    have : (a.man : ℚ) * (2 : ℚ) ^ a.exp = ((a.man * 2 ^ a.exp.toNat : ℤ) : ℚ) := by
      rw [← two_zpow_toNat _ h]
      push_cast
      rfl
    rw [this, Int.floor_intCast]
  · rw [if_neg h]
    have h' : (0 : ℤ) ≤ -a.exp := by omega
    have : (a.man : ℚ) * (2 : ℚ) ^ a.exp = (a.man : ℚ) / ((2 ^ (-a.exp).toNat : ℕ) : ℚ) := by
      rw [two_zpow_toNat _ h', zpow_neg, div_inv_eq_mul]
    rw [this, Rat.floor_intCast_div_natCast]
    push_cast
    rfl


/-- A rational within a thousandth of `K / 1000` has floor `K / 1000` or one less. -/
theorem floor_near (K : Int) (y : ℚ) (h : |y - (K : ℚ) / 1000| < 1 / 1000) :
    K / 1000 - 1 ≤ ⌊y⌋ ∧ ⌊y⌋ ≤ K / 1000 := by
  have hdm := Int.emod_add_ediv K 1000
  have hm0 : 0 ≤ K % 1000 := Int.emod_nonneg K (by norm_num)
  have hm1 : K % 1000 < 1000 := Int.emod_lt_of_pos K (by norm_num)
  have hK : (K : ℚ) = ((K % 1000 : ℤ) : ℚ) + 1000 * ((K / 1000 : ℤ) : ℚ) := by
    exact_mod_cast hdm.symm
  have hm0q : (0 : ℚ) ≤ ((K % 1000 : ℤ) : ℚ) := by exact_mod_cast hm0
  have hm1q : ((K % 1000 : ℤ) : ℚ) ≤ 999 := by
    have : K % 1000 ≤ 999 := by omega
    exact_mod_cast this
  obtain ⟨hl, hr⟩ := abs_lt.1 h
  constructor
  · rw [Int.le_floor]
    push_cast
    linarith
  · rw [Int.floor_le_iff]
    linarith

/-- No time elapsed: every tier computes 0. -/
theorem baseEarnings_zero :
    (baseEarnings 0).floor = 0 ∧
    (Double.mul (baseEarnings 0) (Double.ofInt 3)).floor = 0 ∧
    (Double.mul (baseEarnings 0) (Double.ofInt 6)).floor = 0 := by
  decide

/-- For spans below `2 ^ 46` ms the computed products are within a thousandth
of the exact ones. -/
theorem baseEarnings_near (e : Int) (h0 : 0 < e) (h1 : e < 2 ^ 46) :
    |(baseEarnings e).toRat - ((3 * e : ℤ) : ℚ) / 1000| < 1 / 1000 ∧
    |(Double.mul (baseEarnings e) (Double.ofInt 3)).toRat - ((9 * e : ℤ) : ℚ) / 1000|
      < 1 / 1000 ∧
    |(Double.mul (baseEarnings e) (Double.ofInt 6)).toRat - ((18 * e : ℤ) : ℚ) / 1000|
      < 1 / 1000 := by
  have he : e < 2 ^ 53 := by omega
  obtain ⟨ha, hav⟩ := Double.ofInt_exact e h0 he
  obtain ⟨hb, hbv⟩ := Double.ofInt_exact (1000 * 60 * 60) (by norm_num) (by norm_num)
  obtain ⟨hc, hcv⟩ := Double.ofInt_exact 10800 (by norm_num) (by norm_num)
  obtain ⟨h3, h3v⟩ := Double.ofInt_exact 3 (by norm_num) (by norm_num)
  obtain ⟨h6, h6v⟩ := Double.ofInt_exact 6 (by norm_num) (by norm_num)
  obtain ⟨hx, hxv⟩ := Double.div_spec _ _ ha hb
  obtain ⟨hy, hyv⟩ := Double.mul_spec _ _ hc hx
  obtain ⟨-, hz3⟩ := Double.mul_spec _ _ hy h3
  obtain ⟨-, hz6⟩ := Double.mul_spec _ _ hy h6
  have hu : (2 : ℚ) ^ (-53 : ℤ) = 1 / 9007199254740992 := by norm_num
  rw [hav, hbv, hu] at hxv
  rw [hcv, hu] at hyv
  rw [h3v, hu] at hz3
  rw [h6v, hu] at hz6
  have hbase : baseEarnings e =
      Double.mul (Double.ofInt 10800)
        (Double.div (Double.ofInt e) (Double.ofInt (1000 * 60 * 60))) := rfl
  rw [hbase]
  have heq : (0 : ℚ) < (e : ℚ) := by exact_mod_cast h0
  have hlt : (e : ℚ) < 70368744177664 := by
    have : e < 70368744177664 := by norm_num at h1; exact h1
    exact_mod_cast this
  obtain ⟨hx1, hx2⟩ := abs_le.1 hxv
  obtain ⟨hy1, hy2⟩ := abs_le.1 hyv
  obtain ⟨hz31, hz32⟩ := abs_le.1 hz3
  obtain ⟨hz61, hz62⟩ := abs_le.1 hz6
  push_cast at hx1 hx2 ⊢
  refine ⟨?_, ?_, ?_⟩ <;> rw [abs_lt] <;> constructor <;> linarith

/-- The mantissa chosen by `Double.round`: within one half of the quotient
scaled by `2 ^ (52 - E)`, with `E` the binary exponent of the quotient. -/
theorem Double.round_mantissa (n : Int) (d : Nat) (x : Int) (hn : 0 < n) (hd : 0 < d) :
    ∃ m : ℕ, Double.round n d x = ⟨(m : ℤ), x - (52 - binaryExponent n.natAbs d)⟩ ∧
      |(m : ℚ) - (n : ℚ) / d * (2 : ℚ) ^ (52 - binaryExponent n.natAbs d)| ≤ 1 / 2 := by
  have hcast : ((n.natAbs : ℕ) : ℚ) = (n : ℚ) := by
    rw [Nat.cast_natAbs, abs_of_pos hn]
  unfold Double.round
  rw [if_neg hn.ne', Int.sign_eq_one_of_pos hn]
  simp only [one_mul]
  by_cases hs : (0 : ℤ) ≤ 52 - binaryExponent n.natAbs d
  · refine ⟨_, by rw [if_pos hs], ?_⟩
    have := roundHalfEven_err (n.natAbs * 2 ^ (52 - binaryExponent n.natAbs d).toNat) d hd
    rw [Nat.cast_mul, two_zpow_toNat _ hs, hcast] at this
    rw [mul_div_right_comm] at this
    exact this
  · refine ⟨_, by rw [if_neg hs], ?_⟩
    have hs' : (0 : ℤ) ≤ -(52 - binaryExponent n.natAbs d) := by omega
    have := roundHalfEven_err n.natAbs (d * 2 ^ (-(52 - binaryExponent n.natAbs d)).toNat)
      (by positivity)
    rw [Nat.cast_mul, two_zpow_toNat _ hs', hcast, zpow_neg, ← div_div, div_inv_eq_mul] at this
    exact this

/-- A quotient that is a whole number below `2 ^ 53` is not rounded. -/
theorem Double.round_exact (n : Int) (d : Nat) (x : Int) (hn : 0 < n) (hd : 0 < d) (K : ℕ)
    (hK : K < 2 ^ 53) (h : (n : ℚ) / d * (2 : ℚ) ^ x = K) :
    (Double.round n d x).toRat = K := by
  have h2 : (0 : ℚ) < 2 := by norm_num
  have h2ne : (2 : ℚ) ≠ 0 := by norm_num
  have hdq : (0 : ℚ) < d := by exact_mod_cast hd
  have hnq : (0 : ℚ) < n := by exact_mod_cast hn
  have hnat : 0 < n.natAbs := Int.natAbs_pos.2 hn.ne'
  have hcast : ((n.natAbs : ℕ) : ℚ) = (n : ℚ) := by
    rw [Nat.cast_natAbs, abs_of_pos hn]
  obtain ⟨hE1, -⟩ := binaryExponent_spec n.natAbs d hnat hd
  rw [hcast] at hE1
  obtain ⟨m, hround, herr⟩ := Double.round_mantissa n d x hn hd
  -- the quotient is K * 2 ^ (-x)
  have hq : (n : ℚ) / d = K * (2 : ℚ) ^ (-x) := by
    rw [← h, mul_assoc, ← zpow_add₀ h2ne]
    simp
  have hKq : (K : ℚ) < (2 : ℚ) ^ (53 : ℤ) := by
    have : (K : ℚ) < ((2 ^ 53 : ℕ) : ℚ) := by exact_mod_cast hK
    norm_num at this ⊢
    exact this
  -- hence the scaled quotient is K * 2 ^ j for a natural j
  have hj : (0 : ℤ) ≤ 52 - binaryExponent n.natAbs d - x := by
    by_contra hcon
    have h53 : (53 : ℤ) - x ≤ binaryExponent n.natAbs d := by omega
    have hmono := zpow_le_zpow_right₀ (a := (2 : ℚ)) (by norm_num) h53
    have hlt : (K : ℚ) * (2 : ℚ) ^ (-x) < (2 : ℚ) ^ ((53 : ℤ) - x) := by
      rw [sub_eq_add_neg, zpow_add₀ h2ne]
      exact mul_lt_mul_of_pos_right hKq (zpow_pos h2 _)
    rw [hq] at hE1
    linarith
  have hscaled : (n : ℚ) / d * (2 : ℚ) ^ (52 - binaryExponent n.natAbs d) =
      ((K * 2 ^ (52 - binaryExponent n.natAbs d - x).toNat : ℕ) : ℚ) := by
    rw [Nat.cast_mul, two_zpow_toNat _ hj, hq, mul_assoc, ← zpow_add₀ h2ne]
    congr 2
    ring
  rw [hscaled] at herr
  have hm : m = K * 2 ^ (52 - binaryExponent n.natAbs d - x).toNat := by
    have h1 : |((m : ℤ) : ℚ) -
        (((K * 2 ^ (52 - binaryExponent n.natAbs d - x).toNat : ℕ) : ℤ) : ℚ)| ≤ 1 / 2 := by
      simpa using herr
    rw [← Int.cast_sub, ← Int.cast_abs] at h1
    have h2' : |(m : ℤ) - ((K * 2 ^ (52 - binaryExponent n.natAbs d - x).toNat : ℕ) : ℤ)| < 1 := by
      have : ((|(m : ℤ) - ((K * 2 ^ (52 - binaryExponent n.natAbs d - x).toNat : ℕ) : ℤ)| : ℤ) : ℚ)
          < ((1 : ℤ) : ℚ) := by
        push_cast at h1 ⊢
        linarith
      exact_mod_cast this
    have h3 := Int.abs_lt_one_iff.1 h2'
    have : (m : ℤ) = ((K * 2 ^ (52 - binaryExponent n.natAbs d - x).toNat : ℕ) : ℤ) := by
      omega
    exact_mod_cast this
  rw [hround, hm]
  simp only [Double.toRat]
  rw [Int.cast_natCast, Nat.cast_mul, two_zpow_toNat _ hj, mul_assoc, ← zpow_add₀ h2ne]
  have : 52 - binaryExponent n.natAbs d - x + (x - (52 - binaryExponent n.natAbs d)) = 0 := by
    ring
  rw [this, zpow_zero, mul_one]

/-- C5, amended: `calculateEarnings` returns 0 when the account is not earning
or has no `lastStartTime`, and 0 for a role outside the five tiers; otherwise,
with `base` the double-precision value of `10800 * (e / 3600000)` for
`e = now - lastStartTime` (quotient and product each rounded to the nearest
double), it returns `floor(base)` for MonthlyBooster and LifeTimeBooster,
`floor(base * 3)` for Monthly3xBooster, `floor(base * 6)` for
LifeTime6xBooster and `min(floor(base), 3600)` for User, which never exceeds
3600.  For `0 ≤ e < 2 ^ 46` each floor is the exact
`floor(k * 10800 * e / 3600000)` (`k = 1, 3, 6`) or one less. -/
theorem calculateEarnings_double_floor (u : User) (now : Int) :
    ((u.isEarning = false ∨ u.lastStartTime = none) → u.calculateEarnings now = 0) ∧
    (∀ t, u.isEarning = true → u.lastStartTime = some t →
      ((u.role = "MonthlyBooster" ∨ u.role = "LifeTimeBooster") →
        u.calculateEarnings now = (baseEarnings (now - t)).floor) ∧
      (u.role = "Monthly3xBooster" →
        u.calculateEarnings now =
          (Double.mul (baseEarnings (now - t)) (Double.ofInt 3)).floor) ∧
      (u.role = "LifeTime6xBooster" →
        u.calculateEarnings now =
          (Double.mul (baseEarnings (now - t)) (Double.ofInt 6)).floor) ∧
      (u.role = "User" →
        u.calculateEarnings now = min (baseEarnings (now - t)).floor 3600) ∧
      (u.role ≠ "MonthlyBooster" → u.role ≠ "LifeTimeBooster" →
        u.role ≠ "Monthly3xBooster" → u.role ≠ "LifeTime6xBooster" → u.role ≠ "User" →
        u.calculateEarnings now = 0)) ∧
    (u.role = "User" → u.calculateEarnings now ≤ 3600) ∧
    (∀ e : Int, 0 ≤ e → e < 2 ^ 46 →
      (⌊(10800 * (e : ℚ) / 3600000)⌋ - 1 ≤ (baseEarnings e).floor ∧
        (baseEarnings e).floor ≤ ⌊(10800 * (e : ℚ) / 3600000)⌋) ∧
      (⌊(3 * (10800 * (e : ℚ) / 3600000))⌋ - 1 ≤
          (Double.mul (baseEarnings e) (Double.ofInt 3)).floor ∧
        (Double.mul (baseEarnings e) (Double.ofInt 3)).floor ≤
          ⌊(3 * (10800 * (e : ℚ) / 3600000))⌋) ∧
      (⌊(6 * (10800 * (e : ℚ) / 3600000))⌋ - 1 ≤
          (Double.mul (baseEarnings e) (Double.ofInt 6)).floor ∧
        (Double.mul (baseEarnings e) (Double.ofInt 6)).floor ≤
          ⌊(6 * (10800 * (e : ℚ) / 3600000))⌋)) := by
  refine ⟨?_, ?_, ?_, ?_⟩
  · rintro (h | h)
    · cases hs : u.lastStartTime <;> simp [User.calculateEarnings, h, hs]
    · simp [User.calculateEarnings, h]
  · intro t hE hs
    refine ⟨?_, ?_, ?_, ?_, ?_⟩
    · intro hr
      simp [User.calculateEarnings, hE, hs, hr]
    · intro hr
      simp [User.calculateEarnings, hE, hs, hr]
    · intro hr
      simp [User.calculateEarnings, hE, hs, hr]
    · intro hr
      simp [User.calculateEarnings, hE, hs, hr]
    · intro h1 h2 h3 h4 h5
      simp [User.calculateEarnings, hE, hs, h1, h2, h3, h4, h5]
  · intro hr
    cases hs : u.lastStartTime with
    | none => simp [User.calculateEarnings, hs]
    | some t =>
      cases hE : u.isEarning with
      | false => simp [User.calculateEarnings, hs, hE]
      | true => simp [User.calculateEarnings, hs, hE, hr]
  · intro e h0 h1
    have e1 : (10800 * (e : ℚ) / 3600000) = (((3 * e : ℤ) : ℚ)) / ((1000 : ℕ) : ℚ) := by
      push_cast; ring
    have e3 : (3 * (10800 * (e : ℚ) / 3600000)) = (((9 * e : ℤ) : ℚ)) / ((1000 : ℕ) : ℚ) := by
      push_cast; ring
    have e6 : (6 * (10800 * (e : ℚ) / 3600000)) = (((18 * e : ℤ) : ℚ)) / ((1000 : ℕ) : ℚ) := by
      push_cast; ring
    rw [e3, e6, e1, Rat.floor_intCast_div_natCast, Rat.floor_intCast_div_natCast,
      Rat.floor_intCast_div_natCast]
    rcases h0.eq_or_lt with h | h
    · subst h
      obtain ⟨z1, z3, z6⟩ := baseEarnings_zero
      rw [z1, z3, z6]
      norm_num
    · obtain ⟨n1, n3, n6⟩ := baseEarnings_near e h h1
      rw [Double.floor_spec, Double.floor_spec, Double.floor_spec]
      exact ⟨floor_near _ _ n1, floor_near _ _ n3, floor_near _ _ n6⟩

/-- C5, amended, at concrete inputs: a User two hours into a session is capped
at 3600, and 65 seconds into a session the floor is one below the exact 195. -/
theorem calculateEarnings_double_floor_witness :
    (earner "User").calculateEarnings 7200000 = 3600 ∧
    (earner "User").calculateEarnings 7200000 ≤ 3600 ∧
    ⌊(10800 * ((65000 : ℤ) : ℚ) / 3600000)⌋ - 1 ≤ (baseEarnings 65000).floor := by
  have h := calculateEarnings_double_floor (earner "User") 7200000
  refine ⟨?_, h.2.2.1 rfl, ((h.2.2.2 65000 (by norm_num) (by norm_num)).1).1⟩
  rw [((h.2.1 0 rfl rfl).2.2.2.1) rfl]
  decide

/-- C6: `claim` returns `a = calculateEarnings()`; when `a > 0` it adds `a` to
balance and totalEarnings, sets `lastClaimTime = now`, `isEarning = false` and
`lastStartTime = null` and changes nothing else; when `a ≤ 0` it returns 0 and
leaves the account as it was. -/
theorem claim_spec (u : User) (now : Int) :
    (0 < u.calculateEarnings now →
      (u.claim now).1 = u.calculateEarnings now ∧
      (u.claim now).2 =
        { u with
          balance := u.balance + u.calculateEarnings now,
          totalEarnings := u.totalEarnings + u.calculateEarnings now,
          lastClaimTime := some now,
          isEarning := false,
          lastStartTime := none }) ∧
    (u.calculateEarnings now ≤ 0 → u.claim now = (0, u)) := by
  constructor
  · intro h
    have h' : u.calculateEarnings now > 0 := h
    cases hE : u.isEarning <;>
      simp [User.claim, h', User.addEarnings, User.stopEarning, hE]
  · intro h
    have h' : ¬ u.calculateEarnings now > 0 := by omega
    simp [User.claim, h']

/-- C6 at a concrete input: a MonthlyBooster claims one hour into the session,
and a claim on an account that is not earning. -/
theorem claim_spec_witness :
    0 < (earner "MonthlyBooster").calculateEarnings 3600000 ∧
    ((earner "MonthlyBooster").claim 3600000).1 = 10800 ∧
    alice.calculateEarnings 3600000 ≤ 0 ∧
    alice.claim 3600000 = (0, alice) := by
  have h := claim_spec (earner "MonthlyBooster") 3600000
  have h' := claim_spec alice 3600000
  refine ⟨by decide, ?_, by decide, h'.2 (by decide)⟩
  rw [(h.1 (by decide)).1]
  decide

/-! ### Referral classification (C8, C9) -/

/-- Below 1001 referrals the classification is `User`: the function returns it
with 0 points and the stored role is `User`, nothing else changed. -/
theorem updateUserClassification_below (user : User) (h : user.referrals.length < 1001) :
    updateUserClassification user =
      (Except.ok { newClassification := "User", pointsAwarded := 0 },
       { user with role := "User" }) := by
  have h1 : ¬ user.referrals.length ≥ THRESHOLD_AMBASSADOR := by
    simp only [THRESHOLD_AMBASSADOR]; omega
  have h2 : ¬ user.referrals.length ≥ THRESHOLD_INFLUENCER := by
    simp only [THRESHOLD_INFLUENCER]; omega
  have h3 : ¬ user.referrals.length ≥ THRESHOLD_PROMOTER := by
    simp only [THRESHOLD_PROMOTER]; omega
  unfold updateUserClassification
  simp only [h1, h2, h3, if_false]
  by_cases hr : user.role = "User"
  · have : ¬ "User" ≠ user.role := by simp [hr]
    rw [if_neg this, hr]
    cases user
    simp_all
  · have : "User" ≠ user.role := fun e => hr e.symm
    rw [if_pos this, if_pos (by decide)]
    simp

/-- From 1001 referrals on nothing is ever stored: the classification is not a
value of `roleEnum`, so either the stored role already equals it and the
function returns 0 points, or `save()` throws; a stored role that is in
`roleEnum` always makes it throw. -/
theorem updateUserClassification_above (user : User) (h : 1001 ≤ user.referrals.length) :
    (updateUserClassification user).2 = user ∧
    (user.role ∈ roleEnum → (updateUserClassification user).1 = Except.error "ValidationError") ∧
    (∀ c, (updateUserClassification user).1 = Except.ok c → c.pointsAwarded = 0) := by
  have key : ∀ (cls : String) (pts : Int), cls ∉ roleEnum →
      ((if cls ≠ user.role then
          if cls ∈ roleEnum then
            ((Except.ok { newClassification := cls, pointsAwarded := pts },
              { user with role := cls, balance := user.balance + pts,
                          totalEarnings := user.totalEarnings + pts }) :
              Except String Classification × User)
          else (Except.error "ValidationError", user)
        else (Except.ok { newClassification := user.role, pointsAwarded := 0 }, user)).2 = user) ∧
      (user.role ∈ roleEnum →
        (if cls ≠ user.role then
          if cls ∈ roleEnum then
            ((Except.ok { newClassification := cls, pointsAwarded := pts },
              { user with role := cls, balance := user.balance + pts,
                          totalEarnings := user.totalEarnings + pts }) :
              Except String Classification × User)
          else (Except.error "ValidationError", user)
        else (Except.ok { newClassification := user.role, pointsAwarded := 0 }, user)).1 =
          Except.error "ValidationError") ∧
      (∀ c,
        (if cls ≠ user.role then
          if cls ∈ roleEnum then
            ((Except.ok { newClassification := cls, pointsAwarded := pts },
              { user with role := cls, balance := user.balance + pts,
                          totalEarnings := user.totalEarnings + pts }) :
              Except String Classification × User)
          else (Except.error "ValidationError", user)
        else (Except.ok { newClassification := user.role, pointsAwarded := 0 }, user)).1 =
          Except.ok c → c.pointsAwarded = 0) := by
    intro cls pts hcls
    by_cases hr : cls ≠ user.role
    · rw [if_pos hr, if_neg hcls]
      exact ⟨rfl, fun _ => rfl, fun c hc => by cases hc⟩
    · rw [if_neg hr]
      refine ⟨rfl, ?_, ?_⟩
      · intro hmem
        have : cls = user.role := not_not.1 hr
        rw [this] at hcls
        exact absurd hmem hcls
      · intro c hc
        cases hc
        rfl
  unfold updateUserClassification
  simp only [THRESHOLD_AMBASSADOR, THRESHOLD_INFLUENCER, THRESHOLD_PROMOTER]
  by_cases h1 : user.referrals.length ≥ 10001
  · simp only [h1, if_true]
    exact key _ _ (by decide)
  · by_cases h2 : user.referrals.length ≥ 5001
    · simp only [h1, h2, if_true, if_false]
      exact key _ _ (by decide)
    · have h3 : user.referrals.length ≥ 1001 := h
      simp only [h1, h2, h3, if_true, if_false]
      exact key _ _ (by decide)

/-- C8: an account with role `User` and 1001 referrals never receives the
Promoter award: the first `updateUserClassification` throws at `save()` and
stores nothing, and so does the second, applied to the account as stored. -/
theorem updateUserClassification_twice_never_awards :
    promoterCandidate.role = "User" ∧ promoterCandidate.referrals.length = 1001 ∧
    (updateUserClassification promoterCandidate).1 = Except.error "ValidationError" ∧
    (updateUserClassification promoterCandidate).2 = promoterCandidate ∧
    (updateUserClassification (updateUserClassification promoterCandidate).2).1 =
      Except.error "ValidationError" ∧
    (updateUserClassification (updateUserClassification promoterCandidate).2).2 =
      promoterCandidate ∧
    (updateUserClassification promoterCandidate).2.balance = 30000 := by
  have hlen : promoterCandidate.referrals.length = 1001 := List.length_replicate _ _
  have hrole : promoterCandidate.role ∈ roleEnum := by
    rw [show promoterCandidate.role = "User" from rfl]; decide
  have h := updateUserClassification_above promoterCandidate (by rw [hlen])
  have h2 : (updateUserClassification promoterCandidate).2 = promoterCandidate := h.1
  have h1 : (updateUserClassification promoterCandidate).1 = Except.error "ValidationError" :=
    h.2.1 hrole
  have hagain : updateUserClassification (updateUserClassification promoterCandidate).2 =
      updateUserClassification promoterCandidate := congrArg updateUserClassification h2
  have h3 : (updateUserClassification (updateUserClassification promoterCandidate).2).1 =
      Except.error "ValidationError" := (congrArg Prod.fst hagain).trans h1
  have h4 : (updateUserClassification (updateUserClassification promoterCandidate).2).2 =
      promoterCandidate := (congrArg Prod.snd hagain).trans h2
  have h5 : (updateUserClassification promoterCandidate).2.balance = 30000 :=
    (congrArg User.balance h2).trans rfl
  exact ⟨rfl, hlen, h1, h2, h3, h4, h5⟩

/-- C9: on an account with role `User` that has crossed a threshold (1001, 5001
or 10001 referrals) `updateUserClassification` throws at `save()`: no
classification is returned and role, balance and totalEarnings are stored as
they were, without the award of 159000, 500000 or 1200000. -/
theorem updateUserClassification_award_not_stored :
    ((updateUserClassification promoterCandidate).1 = Except.error "ValidationError" ∧
      (updateUserClassification promoterCandidate).2.role = "User" ∧
      (updateUserClassification promoterCandidate).2.balance = 30000 ∧
      (updateUserClassification promoterCandidate).2.totalEarnings = 30000) ∧
    ((updateUserClassification influencerCandidate).1 = Except.error "ValidationError" ∧
      (updateUserClassification influencerCandidate).2.role = "User" ∧
      (updateUserClassification influencerCandidate).2.balance = 30000 ∧
      (updateUserClassification influencerCandidate).2.totalEarnings = 30000) ∧
    ((updateUserClassification ambassadorCandidate).1 = Except.error "ValidationError" ∧
      (updateUserClassification ambassadorCandidate).2.role = "User" ∧
      (updateUserClassification ambassadorCandidate).2.balance = 30000 ∧
      (updateUserClassification ambassadorCandidate).2.totalEarnings = 30000) := by
  have hu : "User" ∈ roleEnum := by decide
  have hpl : promoterCandidate.referrals.length = 1001 := List.length_replicate _ _
  have hil : influencerCandidate.referrals.length = 5001 := List.length_replicate _ _
  have hal : ambassadorCandidate.referrals.length = 10001 := List.length_replicate _ _
  have hp := updateUserClassification_above promoterCandidate (by rw [hpl])
  have hi := updateUserClassification_above influencerCandidate (by rw [hil]; decide)
  have ha := updateUserClassification_above ambassadorCandidate (by rw [hal]; decide)
  have hp2 : (updateUserClassification promoterCandidate).2 = promoterCandidate := hp.1
  have hi2 : (updateUserClassification influencerCandidate).2 = influencerCandidate := hi.1
  have ha2 : (updateUserClassification ambassadorCandidate).2 = ambassadorCandidate := ha.1
  have hp1 : (updateUserClassification promoterCandidate).1 = Except.error "ValidationError" :=
    hp.2.1 hu
  have hi1 : (updateUserClassification influencerCandidate).1 = Except.error "ValidationError" :=
    hi.2.1 hu
  have ha1 : (updateUserClassification ambassadorCandidate).1 = Except.error "ValidationError" :=
    ha.2.1 hu
  have hpr : (updateUserClassification promoterCandidate).2.role = "User" :=
    (congrArg User.role hp2).trans rfl
  have hpb : (updateUserClassification promoterCandidate).2.balance = 30000 :=
    (congrArg User.balance hp2).trans rfl
  have hpt : (updateUserClassification promoterCandidate).2.totalEarnings = 30000 :=
    (congrArg User.totalEarnings hp2).trans rfl
  have hir : (updateUserClassification influencerCandidate).2.role = "User" :=
    (congrArg User.role hi2).trans rfl
  have hib : (updateUserClassification influencerCandidate).2.balance = 30000 :=
    (congrArg User.balance hi2).trans rfl
  have hit : (updateUserClassification influencerCandidate).2.totalEarnings = 30000 :=
    (congrArg User.totalEarnings hi2).trans rfl
  have har : (updateUserClassification ambassadorCandidate).2.role = "User" :=
    (congrArg User.role ha2).trans rfl
  have hab : (updateUserClassification ambassadorCandidate).2.balance = 30000 :=
    (congrArg User.balance ha2).trans rfl
  have hat : (updateUserClassification ambassadorCandidate).2.totalEarnings = 30000 :=
    (congrArg User.totalEarnings ha2).trans rfl
  exact ⟨⟨hp1, hpr, hpb, hpt⟩, ⟨hi1, hir, hib, hit⟩, ⟨ha1, har, hab, hat⟩⟩

/-! ### Number arithmetic -/

/-- The value of a rounded quotient scales with the power of two. -/
theorem Double.round_toRat_shift (n : Int) (d : Nat) (x : Int) :
    (Double.round n d x).toRat = (Double.round n d 0).toRat * (2 : ℚ) ^ x := by
  have h2ne : (2 : ℚ) ≠ 0 := by norm_num
  unfold Double.round
  by_cases hn : n = 0
  · simp [hn, Double.toRat]
  · simp only [hn, if_false, Double.toRat]
    rw [mul_assoc, ← zpow_add₀ h2ne]
    congr 2
    ring

/-- The Number nearest to 0 is 0. -/
theorem toNumber_zero : toNumber 0 = 0 := by
  simp [toNumber, Double.round, Double.toRat]

/-- Rounding a positive rational to a Number keeps it positive and changes it
by at most the fraction `2 ^ -53` of itself. -/
theorem toNumber_pos (q : ℚ) (h : 0 < q) :
    0 < toNumber q ∧ |toNumber q - q| ≤ q * (2 : ℚ) ^ (-53 : ℤ) := by
  have hn : 0 < q.num := Rat.num_pos.2 h
  have hd : 0 < q.den := q.den_pos
  obtain ⟨hman, herr⟩ := Double.round_spec q.num q.den 0 hn hd
  have hq : (q.num : ℚ) / q.den = q := Rat.num_div_den q
  rw [hq, zpow_zero, mul_one] at herr
  refine ⟨?_, herr⟩
  unfold toNumber Double.toRat
  have : (0 : ℚ) < ((Double.round q.num q.den 0).man : ℚ) := by exact_mod_cast hman
  positivity

/-- Rounding to a Number keeps a non-negative rational non-negative. -/
theorem toNumber_nonneg (q : ℚ) (h : 0 ≤ q) : 0 ≤ toNumber q := by
  rcases h.eq_or_lt with h0 | hpos
  · rw [← h0, toNumber_zero]
  · exact (toNumber_pos q hpos).1.le

/-- A rational `K * 2 ^ e` with `K < 2 ^ 53` is a Number: rounding leaves it as
it is. -/
theorem toNumber_repr (K : ℕ) (e : ℤ) (hK : K < 2 ^ 53) :
    toNumber ((K : ℚ) * (2 : ℚ) ^ e) = (K : ℚ) * (2 : ℚ) ^ e := by
  have h2ne : (2 : ℚ) ≠ 0 := by norm_num
  rcases Nat.eq_zero_or_pos K with h0 | hpos
  · subst h0
    simp [toNumber_zero]
  · have hq : (0 : ℚ) < (K : ℚ) * (2 : ℚ) ^ e := by positivity
    have hn : 0 < ((K : ℚ) * (2 : ℚ) ^ e).num := Rat.num_pos.2 hq
    have hd : 0 < ((K : ℚ) * (2 : ℚ) ^ e).den := Rat.den_pos _
    have hval : ((((K : ℚ) * (2 : ℚ) ^ e).num : ℤ) : ℚ) / (((K : ℚ) * (2 : ℚ) ^ e).den : ℕ) *
        (2 : ℚ) ^ (-e) = K := by
      rw [Rat.num_div_den, mul_assoc, ← zpow_add₀ h2ne]
      simp
    have hex := Double.round_exact _ _ (-e) hn hd K hK hval
    rw [Double.round_toRat_shift] at hex
    have hp : (2 : ℚ) ^ (-e) * (2 : ℚ) ^ e = 1 := by
      rw [← zpow_add₀ h2ne]; simp
    unfold toNumber
    calc (Double.round ((K : ℚ) * (2 : ℚ) ^ e).num ((K : ℚ) * (2 : ℚ) ^ e).den 0).toRat
        = (Double.round ((K : ℚ) * (2 : ℚ) ^ e).num ((K : ℚ) * (2 : ℚ) ^ e).den 0).toRat *
            ((2 : ℚ) ^ (-e) * (2 : ℚ) ^ e) := by rw [hp, mul_one]
      _ = (Double.round ((K : ℚ) * (2 : ℚ) ^ e).num ((K : ℚ) * (2 : ℚ) ^ e).den 0).toRat *
            (2 : ℚ) ^ (-e) * (2 : ℚ) ^ e := by ring
      _ = (K : ℚ) * (2 : ℚ) ^ e := by rw [hex]

/-- Whole numbers below `2 ^ 53` are Numbers. -/
theorem toNumber_natCast (n : ℕ) (h : n < 2 ^ 53) : toNumber (n : ℚ) = n := by
  have := toNumber_repr n 0 h
  simpa using this

/-- Evaluation of `toNumber` at a fraction in lowest terms. -/
theorem toNumber_eval (q : ℚ) (n : ℤ) (d : ℕ) (m e : ℤ) (r : ℚ)
    (hq : q = (n : ℚ) / (d : ℚ)) (hd : 0 < d) (hc : Nat.Coprime n.natAbs d)
    (hround : Double.round n d 0 = ⟨m, e⟩) (hr : (m : ℚ) * (2 : ℚ) ^ e = r) :
    toNumber q = r := by
  have hd' : (0 : ℤ) < (d : ℤ) := by exact_mod_cast hd
  have hc' : Nat.Coprime n.natAbs (d : ℤ).natAbs := by simpa using hc
  have hnum : q.num = n := by
    rw [hq]
    have := Rat.num_div_eq_of_coprime hd' hc'
    simpa using this
  have hden : q.den = d := by
    rw [hq]
    have := Rat.den_div_eq_of_coprime hd' hc'
    have h2 : ((((n : ℚ) / ((d : ℤ) : ℚ)).den : ℕ) : ℤ) = (d : ℤ) := this
    have h3 : (((n : ℚ) / (d : ℚ)).den : ℤ) = (d : ℤ) := by simpa using h2
    exact_mod_cast h3
  unfold toNumber
  rw [hnum, hden, hround]
  exact hr

/-- A Number below `2 ^ 53` less a whole number it covers is a Number: the
subtraction is exact. -/
theorem toNumber_sub_natCast (b : ℚ) (a : ℕ) (hb : toNumber b = b) (hab : (a : ℚ) ≤ b)
    (hlt : b < 2 ^ 53) : toNumber (b - a) = b - a := by
  have h2 : (0 : ℚ) < 2 := by norm_num
  have h2ne : (2 : ℚ) ≠ 0 := by norm_num
  have ha0 : (0 : ℚ) ≤ a := Nat.cast_nonneg a
  rcases (le_trans ha0 hab).eq_or_lt with h0 | hpos
  · have : (a : ℚ) = 0 := le_antisymm (by rw [h0]; exact hab) ha0
    rw [← h0, this, sub_zero, toNumber_zero]
  · have hn : 0 < b.num := Rat.num_pos.2 hpos
    have hd : 0 < b.den := b.den_pos
    have hnat : 0 < b.num.natAbs := Int.natAbs_pos.2 hn.ne'
    obtain ⟨m, hround, -⟩ := Double.round_mantissa b.num b.den 0 hn hd
    obtain ⟨hE1, -⟩ := binaryExponent_spec b.num.natAbs b.den hnat hd
    have hcast : ((b.num.natAbs : ℕ) : ℚ) = (b.num : ℚ) := by
      rw [Nat.cast_natAbs, abs_of_pos hn]
    rw [hcast, Rat.num_div_den] at hE1
    -- the exponent of `b` is below 53
    have hs : (0 : ℤ) ≤ 52 - binaryExponent b.num.natAbs b.den := by
      by_contra hcon
      have h53 : (53 : ℤ) ≤ binaryExponent b.num.natAbs b.den := by omega
      have := zpow_le_zpow_right₀ (a := (2 : ℚ)) (by norm_num) h53
      have h53' : (2 : ℚ) ^ (53 : ℤ) = 2 ^ 53 := by norm_num
      linarith
    set s : ℤ := 52 - binaryExponent b.num.natAbs b.den with hsdef
    -- `b` is `m / 2 ^ s`
    have hbm : b = (m : ℚ) * (2 : ℚ) ^ (-s) := by
      have : toNumber b = (m : ℚ) * (2 : ℚ) ^ (0 - s) := by
        unfold toNumber
        rw [hround]
        simp [Double.toRat]
      rw [hb] at this
      rw [this]
      congr 2
      ring
    have hpow : (2 : ℚ) ^ (-s) * (2 : ℚ) ^ s = 1 := by
      rw [← zpow_add₀ h2ne]; simp
    have hmb : (m : ℚ) = b * (2 : ℚ) ^ s := by
      rw [hbm, mul_assoc, hpow, mul_one]
    have hsn : ((2 ^ s.toNat : ℕ) : ℚ) = (2 : ℚ) ^ s := two_zpow_toNat s hs
    -- `a * 2 ^ s ≤ m`
    have hle : a * 2 ^ s.toNat ≤ m := by
      have : ((a * 2 ^ s.toNat : ℕ) : ℚ) ≤ (m : ℚ) := by
        rw [Nat.cast_mul, hsn, hmb]
        exact mul_le_mul_of_nonneg_right hab (zpow_pos h2 _).le
      exact_mod_cast this
    -- `m < 2 ^ 53`
    have hm53 : m < 2 ^ 53 := by
      have hps : (1 : ℚ) ≤ (2 : ℚ) ^ s := one_le_zpow₀ (by norm_num) hs
      have hbE : b < (2 : ℚ) ^ (binaryExponent b.num.natAbs b.den + 1) := by
        obtain ⟨-, hE2⟩ := binaryExponent_spec b.num.natAbs b.den hnat hd
        rw [hcast, Rat.num_div_den] at hE2
        exact hE2
      have : (m : ℚ) < (2 : ℚ) ^ (53 : ℤ) := by
        rw [hmb]
        have h53 : (binaryExponent b.num.natAbs b.den + 1) + s = 53 := by
          rw [hsdef]; ring
        calc b * (2 : ℚ) ^ s
            < (2 : ℚ) ^ (binaryExponent b.num.natAbs b.den + 1) * (2 : ℚ) ^ s :=
              mul_lt_mul_of_pos_right hbE (zpow_pos h2 _)
          _ = (2 : ℚ) ^ (53 : ℤ) := by rw [← zpow_add₀ h2ne, h53]
      have h' : (m : ℚ) < ((2 ^ 53 : ℕ) : ℚ) := by
        norm_num at this ⊢
        exact this
      exact_mod_cast h'
    have hK : m - a * 2 ^ s.toNat < 2 ^ 53 := lt_of_le_of_lt (Nat.sub_le _ _) hm53
    have hrepr := toNumber_repr (m - a * 2 ^ s.toNat) (-s) hK
    have hval : ((m - a * 2 ^ s.toNat : ℕ) : ℚ) * (2 : ℚ) ^ (-s) = b - a := by
      rw [Nat.cast_sub hle, Nat.cast_mul, hsn, sub_mul, ← hbm, mul_assoc,
        mul_comm ((2 : ℚ) ^ s), hpow, mul_one]
    rw [hval] at hrepr
    exact hrepr

/-- The Number `0.1`. -/
theorem toNumber_tenth : toNumber (1 / 10) = 3602879701896397 / 36028797018963968 :=
  toNumber_eval _ 1 10 7205759403792794 (-56) _ (by norm_num) (by norm_num) (by norm_num)
    (by decide) (by norm_num)

/-- The Number `0.03`. -/
theorem toNumber_three_hundredths :
    toNumber (3 / 100) = 1080863910568919 / 36028797018963968 :=
  toNumber_eval _ 3 100 8646911284551352 (-58) _ (by norm_num) (by norm_num) (by norm_num)
    (by decide) (by norm_num)

/-- The Number `0.35`. -/
theorem toNumber_seven_twentieths :
    toNumber (35 / 100) = 3152519739159347 / 9007199254740992 :=
  toNumber_eval _ 7 20 6305039478318694 (-54) _ (by norm_num) (by norm_num) (by norm_num)
    (by decide) (by norm_num)

/-- Interest at a decimal rate `r`: the product of the amount and the Number
nearest to `r`, rounded, is positive and within the fraction `2 ^ -51` of
`a * r`. -/
theorem interest_near (a r : ℚ) (ha : 0 < a) (hr : 0 < r) :
    0 < toNumber (a * toNumber r) ∧
    |toNumber (a * toNumber r) - a * r| ≤ a * r * (2 : ℚ) ^ (-51 : ℤ) := by
  obtain ⟨hrp, hre⟩ := toNumber_pos r hr
  obtain ⟨hip, hie⟩ := toNumber_pos (a * toNumber r) (mul_pos ha hrp)
  refine ⟨hip, ?_⟩
  have hP : 0 < a * r := mul_pos ha hr
  rw [abs_le] at hre hie ⊢
  have e53 : (2 : ℚ) ^ (-53 : ℤ) = 1 / 9007199254740992 := by norm_num
  have e51 : (2 : ℚ) ^ (-51 : ℤ) = 1 / 2251799813685248 := by norm_num
  rw [e53] at hre hie
  rw [e51]
  have hQ1 : a * toNumber r - a * r ≤ a * r * (1 / 9007199254740992) := by
    have := mul_le_mul_of_nonneg_left hre.2 ha.le
    linarith
  have hQ2 : -(a * r * (1 / 9007199254740992)) ≤ a * toNumber r - a * r := by
    have := mul_le_mul_of_nonneg_left hre.1 ha.le
    linarith
  constructor <;> linarith [hie.1, hie.2]

/-- The payout at a decimal rate `r`: principal plus interest, each operation
rounded, is positive and within the fraction `2 ^ -50` of `a + a * r`. -/
theorem payout_near (a r : ℚ) (ha : 0 < a) (hr : 0 < r) :
    0 < toNumber (a + toNumber (a * toNumber r)) ∧
    |toNumber (a + toNumber (a * toNumber r)) - (a + a * r)| ≤
      (a + a * r) * (2 : ℚ) ^ (-50 : ℤ) := by
  obtain ⟨hip, hie⟩ := interest_near a r ha hr
  obtain ⟨htp, hte⟩ := toNumber_pos (a + toNumber (a * toNumber r)) (by linarith)
  refine ⟨htp, ?_⟩
  have hP : 0 < a * r := mul_pos ha hr
  rw [abs_le] at hie hte ⊢
  have e53 : (2 : ℚ) ^ (-53 : ℤ) = 1 / 9007199254740992 := by norm_num
  have e51 : (2 : ℚ) ^ (-51 : ℤ) = 1 / 2251799813685248 := by norm_num
  have e50 : (2 : ℚ) ^ (-50 : ℤ) = 1 / 1125899906842624 := by norm_num
  rw [e53] at hte
  rw [e51] at hie
  rw [e50]
  constructor <;> linarith [hie.1, hie.2, hte.1, hte.2]

/-! ### Claiming a stake (C10) -/

/-- C10 as stated fails: claiming the matured 15-day stake of 3 points returns
the interest 0.30000000000000004, the binary64 product of 3 and the stored rate
0.1, which is neither the exact product with the stored rate, nor 3 * 0.10 =
3/10, nor the Number 0.3. -/
theorem claimStake_interest_not_exact :
    (User.claimStake aliceStaked (some stake3) 9 1296000000).result =
      Except.ok { principal := 3, interest := 1351079888211149 / 4503599627370496,
                  totalAmount := 3715469692580659 / 1125899906842624 } ∧
    (1351079888211149 / 4503599627370496 : ℚ) ≠ stake3.amount * stake3.interestRate ∧
    (1351079888211149 / 4503599627370496 : ℚ) ≠ 3 * (1 / 10) ∧
    (1351079888211149 / 4503599627370496 : ℚ) ≠ toNumber (3 / 10) := by
  have hi : toNumber (3 * (3602879701896397 / 36028797018963968)) =
      1351079888211149 / 4503599627370496 :=
    toNumber_eval _ 10808639105689191 36028797018963968 5404319552844596 (-54) _
      (by norm_num) (by norm_num) (by norm_num) (by decide) (by norm_num)
  have ht : toNumber (3 + 1351079888211149 / 4503599627370496) =
      3715469692580659 / 1125899906842624 :=
    toNumber_eval _ 14861878770322637 4503599627370496 7430939385161318 (-51) _
      (by norm_num) (by norm_num) (by norm_num) (by decide) (by norm_num)
  have h3 : toNumber (3 / 10) = 5404319552844595 / 18014398509481984 :=
    toNumber_eval _ 3 10 5404319552844595 (-54) _
      (by norm_num) (by norm_num) (by norm_num) (by decide) (by norm_num)
  refine ⟨?_, ?_, ?_, ?_⟩
  · simp only [User.claimStake, aliceStaked, stake3, toNumber_tenth, hi, ht]
    simp
  · simp only [stake3, toNumber_tenth]
    norm_num
  · norm_num
  · rw [h3]
    norm_num

/-- C10, amended: `claimStake` throws and leaves account and stake as they were
when the stake is absent, not in the stakes list of the caller, not `active`,
or not yet matured; otherwise it returns `principal = amount` and as
`interest` the binary64 product of `amount` and the stored `interestRate`
(within the fraction `2 ^ -53` of their exact product; for the stored 15-day
rate 0.1 within the fraction `2 ^ -51` of a tenth of the amount), adds the
binary64 sum of principal and interest to balance, marks the stake `claimed`
and removes its id from the stakes list, changing nothing else. -/
theorem claimStake_spec (u : User) (stake : Option Stake) (stakeId : Nat) (now : Int) :
    ((stake = none ∨ stakeId ∉ u.stakes ∨
        ∃ st, stake = some st ∧ (st.status ≠ "active" ∨ now < st.endDate)) →
      (∃ msg, (u.claimStake stake stakeId now).result = Except.error msg) ∧
      (u.claimStake stake stakeId now).user = u ∧
      (u.claimStake stake stakeId now).stake = stake) ∧
    (∀ st, stake = some st → stakeId ∈ u.stakes → st.status = "active" → st.endDate ≤ now →
      (u.claimStake stake stakeId now).result =
        Except.ok { principal := st.amount,
                    interest := toNumber (st.amount * st.interestRate),
                    totalAmount :=
                      toNumber (st.amount + toNumber (st.amount * st.interestRate)) } ∧
      (0 < st.amount → 0 < st.interestRate →
        |toNumber (st.amount * st.interestRate) - st.amount * st.interestRate| ≤
          st.amount * st.interestRate * (2 : ℚ) ^ (-53 : ℤ)) ∧
      (0 < st.amount → st.interestRate = toNumber (1 / 10) →
        |toNumber (st.amount * st.interestRate) - st.amount / 10| ≤
          st.amount / 10 * (2 : ℚ) ^ (-51 : ℤ)) ∧
      (u.claimStake stake stakeId now).user =
        { u with
          balance := toNumber
            (u.balance + toNumber (st.amount + toNumber (st.amount * st.interestRate))),
          stakes := u.stakes.filter (fun id => id ≠ stakeId) } ∧
      stakeId ∉ (u.claimStake stake stakeId now).user.stakes ∧
      (u.claimStake stake stakeId now).stake = some { st with status := "claimed" }) := by
  constructor
  · intro h
    cases stake with
    | none => exact ⟨⟨_, rfl⟩, rfl, rfl⟩
    | some st =>
      unfold User.claimStake
      by_cases hm : stakeId ∈ u.stakes
      · by_cases hs : st.status = "active"
        · by_cases hn : now < st.endDate
          · simp [hm, hs, hn]
          · rcases h with h | h | ⟨st', hst', h | h⟩
            · cases h
            · exact absurd hm h
            · cases hst'; exact absurd hs h
            · cases hst'; exact absurd h hn
        · simp [hm, hs]
      · simp [hm]
  · intro st hst hm hs hn
    subst hst
    have hn' : ¬ now < st.endDate := by omega
    refine ⟨?_, ?_, ?_, ?_, ?_, ?_⟩
    · simp [User.claimStake, hm, hs, hn']
    · intro ha hr
      exact (toNumber_pos _ (mul_pos ha hr)).2
    · intro ha hr
      rw [hr]
      have := (interest_near st.amount (1 / 10) ha (by norm_num)).2
      rw [show st.amount * (1 / 10) = st.amount / 10 by ring] at this
      exact this
    · simp [User.claimStake, hm, hs, hn']
    · simp [User.claimStake, hm, hs, hn']
    · simp [User.claimStake, hm, hs, hn']

/-- C10, amended, at concrete inputs: alice claims her matured 15-day stake of
1000 and receives the interest 100, the binary64 product of 1000 and 0.1, her
balance going from 30000 to 31100; claiming one millisecond early throws. -/
theorem claimStake_spec_witness :
    (9 ∈ aliceStaked.stakes ∧ stake15.status = "active" ∧ stake15.endDate ≤ 1296000000) ∧
    (User.claimStake aliceStaked (some stake15) 9 1296000000).result =
      Except.ok { principal := 1000, interest := 100, totalAmount := 1100 } ∧
    (User.claimStake aliceStaked (some stake15) 9 1296000000).user.balance = 31100 ∧
    (User.claimStake aliceStaked (some stake15) 9 1295999999).user = aliceStaked := by
  have h := claimStake_spec aliceStaked (some stake15) 9 1296000000
  have h' := claimStake_spec aliceStaked (some stake15) 9 1295999999
  have hi : toNumber (1000 * (3602879701896397 / 36028797018963968)) = 100 :=
    toNumber_eval _ 450359962737049625 4503599627370496 7036874417766400 (-46) _
      (by norm_num) (by norm_num) (by norm_num) (by decide) (by norm_num)
  have ht : toNumber (1000 + 100) = 1100 := by
    have := toNumber_natCast 1100 (by norm_num)
    norm_num at this ⊢
    exact this
  have hb : toNumber (30000 + 1100) = 31100 := by
    have := toNumber_natCast 31100 (by norm_num)
    norm_num at this ⊢
    exact this
  have hsucc := h.2 stake15 rfl (by decide) rfl (by decide)
  refine ⟨⟨by decide, rfl, by decide⟩, ?_, ?_, ?_⟩
  · rw [hsucc.1]
    simp only [stake15, toNumber_tenth, hi, ht]
  · rw [hsucc.2.2.2.1]
    simp only [stake15, aliceStaked, alice, toNumber_tenth, hi, ht, hb]
  · exact (h'.1 (Or.inr (Or.inr ⟨stake15, rfl, Or.inr (by decide)⟩))).2.1

/-! ### Registration and the referral cascade (C7) -/

/-- Lookup by id in a collection where the documents with one id were replaced. -/
theorem find?_map_replace (users : List User) (doc : User) (i : Nat) :
    (users.map (fun u => if u.id = doc.id then doc else u)).find? (fun u => u.id = i) =
      if i = doc.id then (if users.any (fun u => u.id = doc.id) then some doc else none)
      else users.find? (fun u => u.id = i) := by
  induction users with
  | nil => simp
  | cons x xs ih =>
    rw [List.map_cons, List.find?_cons, List.find?_cons, List.any_cons, ih]
    by_cases hx : x.id = doc.id
    · by_cases hi : i = doc.id
      · simp [hx, hi]
      · have hxi : ¬ x.id = i := by omega
        have hdi : ¬ doc.id = i := by omega
        simp [hx, hi, hxi, hdi]
    · by_cases hxi : x.id = i
      · have hi : ¬ i = doc.id := by omega
        simp [hx, hi, hxi]
      · simp [hx, hxi]

/-- Lookup after `save()`: the saved document under its own id, the old result
under any other. -/
theorem findById_saveUser (users : List User) (doc : User) (i : Nat) :
    findById (saveUser users doc) (some i) =
      if i = doc.id then some doc else findById users (some i) := by
  unfold saveUser findById
  by_cases hany : users.any (fun u => u.id = doc.id) = true
  · simp only [hany, if_true]
    rw [find?_map_replace]
    simp [hany]
  · simp only [hany]
    simp only [Bool.not_eq_true] at hany
    rw [if_neg (by simp), List.find?_append]
    by_cases hi : i = doc.id
    · subst hi
      have : users.find? (fun u => decide (u.id = doc.id)) = none := by
        rw [List.find?_eq_none]
        intro u hu
        have := List.any_eq_false.1 hany u hu
        simpa using this
      simp [this]
    · have hdi : ¬ doc.id = i := by omega
      cases h : users.find? (fun u => decide (u.id = i)) <;> simp [hi, hdi]


/-- A found document has the id asked for and is stored. -/
theorem findById_some {users : List User} {i : Nat} {u : User}
    (h : findById users (some i) = some u) : u.id = i ∧ u ∈ users := by
  unfold findById at h
  exact ⟨by simpa using List.find?_some h, List.mem_of_find?_eq_some h⟩

/-- With unique ids every stored document is found under its id. -/
theorem findById_of_mem {users : List User} (hids : (users.map User.id).Nodup) {u : User}
    (hu : u ∈ users) : findById users (some u.id) = some u := by
  simp only [findById]
  induction users with
  | nil => cases hu
  | cons x xs ih =>
    rw [List.map_cons, List.nodup_cons] at hids
    rw [List.find?_cons]
    by_cases hx : x.id = u.id
    · rcases List.mem_cons.1 hu with h | h
      · simp [h]
      · exact absurd (hx ▸ List.mem_map_of_mem User.id h) hids.1
    · rcases List.mem_cons.1 hu with h | h
      · exact absurd (by rw [h]) hx
      · simp [hx, ih hids.2 h]

/-- No start, no chain. -/
theorem referralChain_none (users : List User) (n : Nat) : referralChain users n none = [] := by
  cases n <;> rfl

/-- Two collections with the same parent lookups along a chain have the same
chain. -/
theorem referralChain_congr (users users1 : List User) :
    ∀ (n : Nat) (start : Option User),
      (∀ q ∈ referralChain users n start,
        findById users1 q.referredBy = findById users q.referredBy) →
      referralChain users1 n start = referralChain users n start := by
  intro n
  induction n with
  | zero => intro start _; rfl
  | succ n ih =>
    intro start h
    cases start with
    | none => rfl
    | some u =>
      simp only [referralChain] at h ⊢
      rw [h u (List.mem_cons_self _ _)]
      rw [ih _ (fun q hq => h q (List.mem_cons_of_mem _ hq))]

/-- The parent of a chain member is on the chain extended by one. -/
theorem referralChain_next_mem (users : List User) (c : User) (cid : Nat)
    (hc : findById users (some cid) = some c) :
    ∀ (n : Nat) (start : Option User) (q : User),
      q ∈ referralChain users n start → q.referredBy = some cid →
      c ∈ referralChain users (n + 1) start := by
  intro n
  induction n with
  | zero => intro start q hq; simp [referralChain] at hq
  | succ n ih =>
    intro start q hq hr
    cases start with
    | none => simp [referralChain] at hq
    | some u =>
      simp only [referralChain, List.mem_cons] at hq ⊢
      rcases hq with hq | hq
      · subst hq
        right
        rw [hr, hc]
        cases n <;> simp [referralChain]
      · right
        exact ih _ q hq hr

/-- The members of a chain that starts at a lookup are stored documents. -/
theorem referralChain_mem_users (users : List User) :
    ∀ (n : Nat) (x : Option Nat) (q : User),
      q ∈ referralChain users n (findById users x) → q ∈ users := by
  intro n
  induction n with
  | zero => intro x q hq; simp [referralChain] at hq
  | succ n ih =>
    intro x q hq
    cases hx : findById users x with
    | none => rw [hx] at hq; simp [referralChain] at hq
    | some u =>
      rw [hx] at hq
      simp only [referralChain, List.mem_cons] at hq
      rcases hq with hq | hq
      · subst hq
        cases x with
        | none => simp [findById] at hx
        | some i => exact (findById_some hx).2
      · exact ih _ q hq


/-- The loop stops at once when there is no current referrer. -/
theorem referralLoop_none (bs : List Double) (users : List User) :
    referralLoop bs none users = users := by
  cases bs <;> rfl

/-- The bonus loop, by lookups: along an acyclic chain the i-th ancestor is
credited the i-th bonus amount, and every other document is untouched. -/
theorem findById_referralLoop :
    ∀ (bs : List Double) (c : User) (users : List User),
      findById users (some c.id) = some c →
      (∀ n, ((referralChain users n (some c)).map User.id).Nodup) →
      ∀ i, findById (referralLoop bs (some c) users) (some i) =
        match (List.zip (referralChain users bs.length (some c)) (bs.map bonusAmount)).find?
            (fun p => p.1.id = i) with
        | some p => some (p.1.addEarnings p.2)
        | none => findById users (some i) := by
  intro bs
  induction bs with
  | nil => intro c users _ _ i; simp [referralLoop, referralChain]
  | cons b rest ih =>
    intro c users hc hnd i
    have hself : c.referredBy ≠ some c.id := by
      intro h
      have := hnd 2
      simp [referralChain, h, hc] at this
    have hsave : ∀ j, findById (saveUser users (c.addEarnings (bonusAmount b))) (some j) =
        if j = c.id then some (c.addEarnings (bonusAmount b)) else findById users (some j) := by
      intro j
      rw [findById_saveUser]
      rfl
    have hparent : ∀ q : User, q.referredBy ≠ some c.id →
        findById (saveUser users (c.addEarnings (bonusAmount b))) q.referredBy =
          findById users q.referredBy := by
      intro q hq
      cases hr : q.referredBy with
      | none => rfl
      | some pid =>
        have hne : pid ≠ c.id := fun e => hq (by rw [hr, e])
        rw [hsave, if_neg hne]
    have hloop : referralLoop (b :: rest) (some c) users =
        referralLoop rest (findById users c.referredBy)
          (saveUser users (c.addEarnings (bonusAmount b))) := by
      rw [← hparent c hself]
      rfl
    rw [hloop]
    have hchain : referralChain users (b :: rest).length (some c) =
        c :: referralChain users rest.length (findById users c.referredBy) := rfl
    rw [hchain, List.map_cons, List.zip_cons_cons, List.find?_cons]
    have hnotin : ∀ n, c.id ∉ (referralChain users n (findById users c.referredBy)).map User.id := by
      intro n
      have := hnd (n + 1)
      simp only [referralChain, List.map_cons, List.nodup_cons] at this
      exact this.1
    cases hp : findById users c.referredBy with
    | none =>
      rw [referralLoop_none, hsave, referralChain_none]
      by_cases hi : i = c.id
      · subst hi; simp
      · have hi' : ¬ c.id = i := fun e => hi e.symm
        simp [hi, hi']
    | some p =>
      have hpid : findById (saveUser users (c.addEarnings (bonusAmount b))) (some p.id) = some p := by
        have hne : p.id ≠ c.id := by
          intro e
          have := hnotin 1
          rw [hp] at this
          simp [referralChain, e] at this
        rw [hsave, if_neg hne]
        cases hr : c.referredBy with
        | none => rw [hr] at hp; simp [findById] at hp
        | some pid =>
          rw [hr] at hp
          rw [(findById_some hp).1, hp]
      have hcongr : ∀ n, referralChain (saveUser users (c.addEarnings (bonusAmount b))) n (some p) =
          referralChain users n (some p) := by
        intro n
        apply referralChain_congr
        intro q hq
        apply hparent
        intro hqr
        have hmem := referralChain_next_mem users c c.id hc n (some p) q hq hqr
        have := hnotin (n + 1)
        rw [hp] at this
        exact this (List.mem_map_of_mem User.id hmem)
      have hnd' : ∀ n, ((referralChain (saveUser users (c.addEarnings (bonusAmount b))) n
          (some p)).map User.id).Nodup := by
        intro n
        rw [hcongr]
        have := hnd (n + 1)
        simp only [referralChain, List.map_cons, List.nodup_cons] at this
        rw [hp] at this
        exact this.2
      rw [ih p _ hpid hnd' i, hcongr, hsave]
      by_cases hi : i = c.id
      · subst hi
        have hnone : (List.zip (referralChain users rest.length (some p))
            (rest.map bonusAmount)).find? (fun x => decide (x.1.id = c.id)) = none := by
          rw [List.find?_eq_none]
          intro x hx
          have hx1 := (List.of_mem_zip hx).1
          have := hnotin rest.length
          rw [hp] at this
          intro hxe
          simp only [decide_eq_true_eq] at hxe
          exact this (hxe ▸ List.mem_map_of_mem User.id hx1)
        simp [hnone]
      · have hi' : ¬ c.id = i := fun e => hi e.symm
        simp [hi, hi']


/-- In a zip over documents with distinct ids, searching for the id of a member
finds that member. -/
theorem find?_zip_of_mem :
    ∀ (l : List User) (vs : List Int), (l.map User.id).Nodup →
      ∀ p ∈ l.zip vs, (l.zip vs).find? (fun x => x.1.id = p.1.id) = some p := by
  intro l
  induction l with
  | nil => intro vs _ p hp; simp at hp
  | cons a l ih =>
    intro vs hnd p hp
    cases vs with
    | nil => simp at hp
    | cons v vs =>
      rw [List.map_cons, List.nodup_cons] at hnd
      rw [List.zip_cons_cons] at hp ⊢
      rw [List.find?_cons]
      rcases List.mem_cons.1 hp with h | h
      · subst h; simp
      · have hne : ¬ a.id = p.1.id := by
          intro e
          exact hnd.1 (e ▸ List.mem_map_of_mem User.id (List.of_mem_zip h).1)
        simp only [hne, decide_False]
        exact ih vs hnd.2 p h

/-- The values of `Math.floor(30000 * bonus)` for the five bonuses. -/
theorem referralBonuses_amounts :
    referralBonuses.map bonusAmount = [6000, 3000, 1500, 750, 375] := by
  decide

/-- C7: a registration with a valid referral code naming the stored account
`R`, whose ancestors via `referredBy` are distinct, answers 201; the new
account is stored with balance and totalEarnings 30000; `R` gains 15000 + 6000
in both and has the new id appended to `referrals`; the ancestors at levels 2
to 5, as far as the chain reaches, gain 3000, 1500, 750 and 375 in both; every
other stored account, ancestors beyond level 5 included, is unchanged. -/
theorem registerUser_referral_cascade (db : Db) (telegramUserId username referralCode : String)
    (newUserId : Nat) (now today : Int) (R : User)
    (hinput : telegramUserId ≠ "" ∧ username ≠ "" ∧ referralCode ≠ "")
    (hids : (db.users.map User.id).Nodup)
    (hfresh : ∀ u ∈ db.users, u.id ≠ newUserId ∧ u.referredBy ≠ some newUserId ∧
      u.telegramUserId ≠ telegramUserId ∧ u.username ≠ username)
    (hR : findOneByUsername db.users referralCode = some R)
    (hchain : ∀ n, ((referralChain db.users n (some R)).map User.id).Nodup) :
    (registerUser db telegramUserId username referralCode newUserId now today).1.status = 201 ∧
    findById (registerUser db telegramUserId username referralCode newUserId now today).2.users
        (some newUserId) =
      some { id := newUserId, telegramUserId := telegramUserId, username := username,
             referredBy := some R.id, balance := 30000, totalEarnings := 30000,
             lastActive := now } ∧
    findById (registerUser db telegramUserId username referralCode newUserId now today).2.users
        (some R.id) =
      some { R with
        referrals := R.referrals ++ [newUserId],
        balance := R.balance + 21000,
        totalEarnings := R.totalEarnings + 21000 } ∧
    (∀ p ∈ List.zip (referralChain db.users 4 (findById db.users R.referredBy))
        ([3000, 1500, 750, 375] : List Int),
      findById (registerUser db telegramUserId username referralCode newUserId now today).2.users
          (some p.1.id) =
        some { p.1 with
          balance := p.1.balance + p.2, totalEarnings := p.1.totalEarnings + p.2 }) ∧
    (∀ i, i ≠ newUserId → i ∉ (referralChain db.users 5 (some R)).map User.id →
      findById (registerUser db telegramUserId username referralCode newUserId now today).2.users
          (some i) = findById db.users (some i)) := by
  obtain ⟨htg, hname, hcode⟩ := hinput
  have hRmem : R ∈ db.users := List.mem_of_find?_eq_some hR
  have hRid : findById db.users (some R.id) = some R := findById_of_mem hids hRmem
  have hdup : ¬ ∃ x ∈ db.users, x.telegramUserId = telegramUserId ∨ x.username = username := by
    rintro ⟨u, hu, h | h⟩
    · exact (hfresh u hu).2.2.1 h
    · exact (hfresh u hu).2.2.2 h
  have hreg : registerUser db telegramUserId username referralCode newUserId now today =
      ({ status := 201,
         user := some (User.addEarnings
          { id := newUserId, telegramUserId := telegramUserId, username := username,
            referredBy := some R.id, lastActive := now } 30000) },
       { users := saveUser
          (referralLoop referralBonuses
            (some (User.addEarnings { R with referrals := R.referrals ++ [newUserId] } 15000))
            (saveUser
              (saveUser db.users
                { id := newUserId, telegramUserId := telegramUserId, username := username,
                  referredBy := some R.id, lastActive := now })
              (User.addEarnings { R with referrals := R.referrals ++ [newUserId] } 15000)))
          (User.addEarnings
            { id := newUserId, telegramUserId := telegramUserId, username := username,
              referredBy := some R.id, lastActive := now } 30000),
         dailyPoints := addReferral db.dailyPoints R.id today ++
          [DailyPoint.create newUserId now] }) := by
    simp [registerUser, htg, hname, hcode, hR, hdup, processReferral]
    rfl
  rw [hreg]
  clear hreg
  generalize hu0 :
    ({ id := newUserId, telegramUserId := telegramUserId, username := username,
       referredBy := some R.id, lastActive := now } : User) = user0
  generalize hr1 :
    User.addEarnings ({ R with referrals := R.referrals ++ [newUserId] } : User) 15000 = r1
  have hu0id : user0.id = newUserId := by rw [← hu0]
  have hr1id : r1.id = R.id := by rw [← hr1]; rfl
  have hr1ref : r1.referredBy = R.referredBy := by rw [← hr1]; rfl
  have hRnew : R.id ≠ newUserId := (hfresh R hRmem).1
  -- lookups after the first two saves
  have hA : ∀ j, findById (saveUser (saveUser db.users user0) r1) (some j) =
      if j = R.id then some r1 else if j = newUserId then some user0
      else findById db.users (some j) := by
    intro j
    rw [findById_saveUser, findById_saveUser, hr1id, hu0id]
  have hparentA : ∀ q ∈ db.users, q.referredBy ≠ some R.id →
      findById (saveUser (saveUser db.users user0) r1) q.referredBy =
        findById db.users q.referredBy := by
    intro q hq hne
    cases hr : q.referredBy with
    | none => rfl
    | some pid =>
      have h1 : pid ≠ R.id := fun e => hne (by rw [hr, e])
      have h2 : pid ≠ newUserId := fun e => (hfresh q hq).2.1 (by rw [hr, e])
      rw [hA, if_neg h1, if_neg h2]
  have hRself : R.referredBy ≠ some R.id := by
    intro h
    have := hchain 2
    simp [referralChain, h, hRid] at this
  have hnotinR : ∀ n, R.id ∉
      (referralChain db.users n (findById db.users R.referredBy)).map User.id := by
    intro n
    have := hchain (n + 1)
    simp only [referralChain, List.map_cons, List.nodup_cons] at this
    exact this.1
  have hTnd : ∀ n,
      ((referralChain db.users n (findById db.users R.referredBy)).map User.id).Nodup := by
    intro n
    have := hchain (n + 1)
    simp only [referralChain, List.map_cons, List.nodup_cons] at this
    exact this.2
  have hTcongr : ∀ n,
      referralChain (saveUser (saveUser db.users user0) r1) n (findById db.users R.referredBy) =
        referralChain db.users n (findById db.users R.referredBy) := by
    intro n
    apply referralChain_congr
    intro q hq
    apply hparentA q (referralChain_mem_users db.users n _ q hq)
    intro hqr
    exact hnotinR (n + 1) (List.mem_map_of_mem User.id
      (referralChain_next_mem db.users R R.id hRid n _ q hq hqr))
  have hchainA : ∀ n, referralChain (saveUser (saveUser db.users user0) r1) (n + 1) (some r1) =
      r1 :: referralChain db.users n (findById db.users R.referredBy) := by
    intro n
    simp only [referralChain]
    rw [hr1ref, hparentA R hRmem hRself, hTcongr]
  have hndA : ∀ n,
      ((referralChain (saveUser (saveUser db.users user0) r1) n (some r1)).map User.id).Nodup := by
    intro n
    cases n with
    | zero => simp [referralChain]
    | succ n =>
      rw [hchainA, List.map_cons, List.nodup_cons, hr1id]
      exact ⟨hnotinR n, hTnd n⟩
  have hr1A : findById (saveUser (saveUser db.users user0) r1) (some r1.id) = some r1 := by
    rw [hA, hr1id, if_pos rfl]
  have hB := findById_referralLoop referralBonuses r1 _ hr1A hndA
  rw [referralBonuses_amounts] at hB
  have hlen : referralBonuses.length = 4 + 1 := rfl
  rw [hlen, hchainA] at hB
  simp only [List.zip_cons_cons, List.find?_cons] at hB
  -- lookups in the final collection
  have hC : ∀ j, findById (saveUser (referralLoop referralBonuses (some r1)
        (saveUser (saveUser db.users user0) r1)) (user0.addEarnings 30000)) (some j) =
      if j = newUserId then some (user0.addEarnings 30000)
      else findById (referralLoop referralBonuses (some r1)
        (saveUser (saveUser db.users user0) r1)) (some j) := by
    intro j
    rw [findById_saveUser]
    have : (user0.addEarnings 30000).id = newUserId := hu0id
    rw [this]
  refine ⟨rfl, ?_, ?_, ?_, ?_⟩
  · rw [hC, if_pos rfl, ← hu0]
    simp [User.addEarnings]
  · rw [hC, if_neg hRnew, hB]
    simp only [hr1id, decide_True]
    rw [← hr1]
    simp [User.addEarnings]
    constructor <;> ring
  · intro p hp
    have hpT := (List.of_mem_zip hp).1
    have hpmem : p.1 ∈ db.users := referralChain_mem_users db.users 4 _ p.1 hpT
    have hpnew : p.1.id ≠ newUserId := (hfresh p.1 hpmem).1
    have hpR : ¬ r1.id = p.1.id := by
      rw [hr1id]
      intro e
      exact hnotinR 4 (e ▸ List.mem_map_of_mem User.id hpT)
    rw [hC, if_neg hpnew, hB]
    simp only [hpR, decide_False]
    rw [find?_zip_of_mem _ _ (hTnd 4) p hp]
    simp [User.addEarnings]
  · intro i hi hnot
    have hchain5 : referralChain db.users 5 (some R) =
        R :: referralChain db.users 4 (findById db.users R.referredBy) := rfl
    rw [hchain5, List.map_cons, List.mem_cons, not_or] at hnot
    have hiR : ¬ r1.id = i := by rw [hr1id]; exact fun e => hnot.1 e.symm
    rw [hC, if_neg hi, hB]
    simp only [hiR, decide_False]
    have hnone : (List.zip (referralChain db.users 4 (findById db.users R.referredBy))
        ([3000, 1500, 750, 375] : List Int)).find? (fun p => decide (p.1.id = i)) = none := by
      rw [List.find?_eq_none]
      intro x hx hxe
      simp only [decide_eq_true_eq] at hxe
      exact hnot.2 (hxe ▸ List.mem_map_of_mem User.id (List.of_mem_zip hx).1)
    rw [hnone]
    simp only []
    rw [hA, if_neg hnot.1, if_neg hi]

/-- C7 at the example of the specification: alice (balance 30000, no referrer) refers bob;
alice ends at 51000 and bob at 30000. -/
theorem registerUser_referral_cascade_witness :
    findOneByUsername aliceDb.users "alice" = some alice ∧
    (registerUser aliceDb "1002" "bob" "alice" 2 0 0).1.status = 201 ∧
    (findById (registerUser aliceDb "1002" "bob" "alice" 2 0 0).2.users (some 1)).map
      User.balance = some 51000 ∧
    (findById (registerUser aliceDb "1002" "bob" "alice" 2 0 0).2.users (some 2)).map
      User.balance = some 30000 := by
  have hR : findOneByUsername aliceDb.users "alice" = some alice := by
    simp [findOneByUsername, aliceDb, alice]
  have h := registerUser_referral_cascade aliceDb "1002" "bob" "alice" 2 0 0 alice
    (by decide) (by simp [aliceDb]) (by simp [aliceDb, alice]) hR
    (by
      intro n
      cases n with
      | zero => simp [referralChain]
      | succ n => simp [referralChain, alice, findById, referralChain_none])
  refine ⟨hR, h.1, ?_, ?_⟩
  · have h3 := h.2.2.1
    have : alice.id = 1 := rfl
    rw [this] at h3
    rw [h3]
    simp [alice]
    norm_num
  · rw [h.2.1]
    simp

/-! ### Unstaking and stake creation (C11, C12) -/

/-- C11 as stated fails: unstaking the matured 45-day stake of 180 points
returns the interest 62.99999999999999, the binary64 product of 180 and the
stored rate 0.35, not `amount * interestRate`, which is 63 for the rate 0.35
and a little more than 63 for the stored rate; the sum paid is rounded to
243. -/
theorem unstake_interest_not_exact :
    (User.unstake aliceStaked (some stake180) 9 3888000000).result =
      Except.ok { principal := 180, interest := 8866461766385663 / 140737488355328,
                  totalAmount := 243 } ∧
    (8866461766385663 / 140737488355328 : ℚ) ≠ stake180.amount * stake180.interestRate ∧
    (8866461766385663 / 140737488355328 : ℚ) ≠ 180 * (35 / 100) ∧
    (8866461766385663 / 140737488355328 : ℚ) < 63 := by
  have hi : toNumber (180 * (3152519739159347 / 9007199254740992)) =
      8866461766385663 / 140737488355328 :=
    toNumber_eval _ 141863388262170615 2251799813685248 8866461766385663 (-47) _
      (by norm_num) (by norm_num) (by norm_num) (by decide) (by norm_num)
  have ht : toNumber (180 + 8866461766385663 / 140737488355328) = 243 :=
    toNumber_eval _ 34199209670344703 140737488355328 8549802417586176 (-45) _
      (by norm_num) (by norm_num) (by norm_num) (by decide) (by norm_num)
  refine ⟨?_, ?_, ?_, ?_⟩
  · simp only [User.unstake, aliceStaked, stake180, toNumber_seven_twentieths]
    simp [hi, ht]
  · simp only [stake180, toNumber_seven_twentieths]
    norm_num
  · norm_num
  · norm_num

/-- C11, amended: `unstake` on an active stake in the stakes list of the caller
always succeeds and marks the stake `unstaked`: before `endDate` it returns
interest 0 and adds the principal to balance; from `endDate` on it returns as
interest the binary64 product of `amount` and the stored `interestRate`
(within the fraction `2 ^ -53` of their exact product) and adds the binary64
sum of principal and interest.  It throws, with account and stake as they
were, when the stake is absent, not in the stakes list, or not `active`. -/
theorem unstake_spec (u : User) (stake : Option Stake) (stakeId : Nat) (now : Int) :
    ((stake = none ∨ stakeId ∉ u.stakes ∨ ∃ st, stake = some st ∧ st.status ≠ "active") →
      (∃ msg, (u.unstake stake stakeId now).result = Except.error msg) ∧
      (u.unstake stake stakeId now).user = u ∧
      (u.unstake stake stakeId now).stake = stake) ∧
    (∀ st, stake = some st → stakeId ∈ u.stakes → st.status = "active" →
      (u.unstake stake stakeId now).stake = some { st with status := "unstaked" } ∧
      (now < st.endDate →
        (u.unstake stake stakeId now).result =
          Except.ok { principal := st.amount, interest := 0,
                      totalAmount := toNumber st.amount } ∧
        (u.unstake stake stakeId now).user =
          { u with
            balance := toNumber (u.balance + toNumber st.amount),
            stakes := u.stakes.filter (fun id => id ≠ stakeId) } ∧
        (toNumber st.amount = st.amount →
          (u.unstake stake stakeId now).result =
            Except.ok { principal := st.amount, interest := 0, totalAmount := st.amount } ∧
          (u.unstake stake stakeId now).user.balance = toNumber (u.balance + st.amount))) ∧
      (st.endDate ≤ now →
        (u.unstake stake stakeId now).result =
          Except.ok { principal := st.amount,
                      interest := toNumber (st.amount * st.interestRate),
                      totalAmount :=
                        toNumber (st.amount + toNumber (st.amount * st.interestRate)) } ∧
        (0 < st.amount → 0 < st.interestRate →
          |toNumber (st.amount * st.interestRate) - st.amount * st.interestRate| ≤
            st.amount * st.interestRate * (2 : ℚ) ^ (-53 : ℤ)) ∧
        (u.unstake stake stakeId now).user =
          { u with
            balance := toNumber
              (u.balance + toNumber (st.amount + toNumber (st.amount * st.interestRate))),
            stakes := u.stakes.filter (fun id => id ≠ stakeId) })) := by
  constructor
  · intro h
    cases stake with
    | none => exact ⟨⟨_, rfl⟩, rfl, rfl⟩
    | some st =>
      unfold User.unstake
      by_cases hm : stakeId ∈ u.stakes
      · by_cases hs : st.status = "active"
        · rcases h with h | h | ⟨st', hst', h⟩
          · cases h
          · exact absurd hm h
          · cases hst'; exact absurd hs h
        · simp [hm, hs]
      · simp [hm]
  · intro st hst hm hs
    subst hst
    refine ⟨?_, ?_, ?_⟩
    · simp [User.unstake, hm, hs]
    · intro hn
      have hn' : ¬ now ≥ st.endDate := by omega
      have hres : (u.unstake (some st) stakeId now).result =
          Except.ok { principal := st.amount, interest := 0,
                      totalAmount := toNumber st.amount } := by
        simp [User.unstake, hm, hs, hn']
      have husr : (u.unstake (some st) stakeId now).user =
          { u with
            balance := toNumber (u.balance + toNumber st.amount),
            stakes := u.stakes.filter (fun id => id ≠ stakeId) } := by
        simp [User.unstake, hm, hs, hn']
      refine ⟨hres, husr, ?_⟩
      intro hnum
      rw [hres, husr, hnum]
      exact ⟨rfl, rfl⟩
    · intro hn
      have hn' : now ≥ st.endDate := hn
      refine ⟨?_, ?_, ?_⟩
      · simp [User.unstake, hm, hs, hn']
      · intro ha hr
        exact (toNumber_pos _ (mul_pos ha hr)).2
      · simp [User.unstake, hm, hs, hn']

/-- C11, amended, at concrete inputs: alice unstakes her 15-day stake of 1000
one millisecond early and gets the principal back; at maturity she gets 1100,
the interest being the binary64 product of 1000 and 0.1. -/
theorem unstake_spec_witness :
    (User.unstake aliceStaked (some stake15) 9 1295999999).result =
      Except.ok { principal := 1000, interest := 0, totalAmount := 1000 } ∧
    (User.unstake aliceStaked (some stake15) 9 1295999999).user.balance = 31000 ∧
    (User.unstake aliceStaked (some stake15) 9 1296000000).result =
      Except.ok { principal := 1000, interest := 100, totalAmount := 1100 } ∧
    (User.unstake alice (some stake15) 9 1296000000).user = alice := by
  have h := unstake_spec aliceStaked (some stake15) 9 1295999999
  have h' := unstake_spec aliceStaked (some stake15) 9 1296000000
  have h'' := unstake_spec alice (some stake15) 9 1296000000
  have ha : toNumber stake15.amount = stake15.amount := by
    have := toNumber_natCast 1000 (by norm_num)
    simp only [stake15]
    norm_num at this ⊢
    exact this
  have hi : toNumber (1000 * (3602879701896397 / 36028797018963968)) = 100 :=
    toNumber_eval _ 450359962737049625 4503599627370496 7036874417766400 (-46) _
      (by norm_num) (by norm_num) (by norm_num) (by decide) (by norm_num)
  have ht : toNumber (1000 + 100) = 1100 := by
    have := toNumber_natCast 1100 (by norm_num)
    norm_num at this ⊢
    exact this
  have hb : toNumber (30000 + 1000) = 31000 := by
    have := toNumber_natCast 31000 (by norm_num)
    norm_num at this ⊢
    exact this
  have hearly := ((h.2 stake15 rfl (by decide) rfl).2.1 (by decide)).2.2 ha
  refine ⟨?_, ?_, ?_, (h''.1 (Or.inr (Or.inl (by decide)))).2.1⟩
  · rw [hearly.1]
    simp only [stake15]
  · rw [hearly.2]
    simp only [stake15, aliceStaked, alice, hb]
  · rw [((h'.2 stake15 rfl (by decide) rfl).2.2 (by decide)).1]
    simp only [stake15, toNumber_tenth, hi, ht]

/-- C12: `stake` throws `Insufficient balance for staking` when `balance <
amount` and, the balance check coming first, `Invalid staking period` when the
balance suffices and the period is not 3, 15 or 45; either way the account is
as it was and no Stake is created.  Otherwise it creates an `active` Stake
with the rate 0.03, 0.10 or 0.35 (the Number the literal denotes) and
`endDate = startDate + period * 24 h`, appends its id to the stakes list and
lowers balance by `amount`: the balance afterwards is the binary64 difference
`balance - amount`, which is never negative and is the exact difference for
whole numbers below `2 ^ 53`. -/
theorem stake_spec (u : User) (amount : ℚ) (period : Int) (newStakeId : Nat) (now : Int) :
    (u.balance < amount →
      (u.stake amount period newStakeId now).result =
        Except.error "Insufficient balance for staking" ∧
      (u.stake amount period newStakeId now).user = u ∧
      (u.stake amount period newStakeId now).created = none) ∧
    (¬ u.balance < amount → period ≠ 3 → period ≠ 15 → period ≠ 45 →
      (u.stake amount period newStakeId now).result = Except.error "Invalid staking period" ∧
      (u.stake amount period newStakeId now).user = u ∧
      (u.stake amount period newStakeId now).created = none) ∧
    ((u.balance < amount ∨ (period ≠ 3 ∧ period ≠ 15 ∧ period ≠ 45)) →
      (∃ msg, (u.stake amount period newStakeId now).result = Except.error msg) ∧
      (u.stake amount period newStakeId now).user = u ∧
      (u.stake amount period newStakeId now).created = none) ∧
    (¬ u.balance < amount → (period = 3 ∨ period = 15 ∨ period = 45) →
      (u.stake amount period newStakeId now).result = Except.ok
        { id := newStakeId, user := u.id, amount := amount, period := period,
          interestRate :=
            if period = 3 then toNumber (3 / 100)
            else if period = 15 then toNumber (10 / 100) else toNumber (35 / 100),
          startDate := now, endDate := now + period * 24 * 60 * 60 * 1000,
          status := "active" } ∧
      (u.stake amount period newStakeId now).created = some
        { id := newStakeId, user := u.id, amount := amount, period := period,
          interestRate :=
            if period = 3 then toNumber (3 / 100)
            else if period = 15 then toNumber (10 / 100) else toNumber (35 / 100),
          startDate := now, endDate := now + period * 24 * 60 * 60 * 1000,
          status := "active" } ∧
      (u.stake amount period newStakeId now).user =
        { u with
          stakes := u.stakes ++ [newStakeId], balance := toNumber (u.balance - amount) } ∧
      0 ≤ (u.stake amount period newStakeId now).user.balance ∧
      (∀ b a : ℕ, u.balance = b → amount = a → b < 2 ^ 53 →
        (u.stake amount period newStakeId now).user.balance = u.balance - amount)) := by
  have hfail : ¬ u.balance < amount → period ≠ 3 → period ≠ 15 → period ≠ 45 →
      (u.stake amount period newStakeId now).result = Except.error "Invalid staking period" ∧
      (u.stake amount period newStakeId now).user = u ∧
      (u.stake amount period newStakeId now).created = none := by
    intro hb h3 h15 h45
    simp [User.stake, hb, h3, h15, h45]
  have hlow : u.balance < amount →
      (u.stake amount period newStakeId now).result =
        Except.error "Insufficient balance for staking" ∧
      (u.stake amount period newStakeId now).user = u ∧
      (u.stake amount period newStakeId now).created = none := by
    intro hb
    simp [User.stake, hb]
  refine ⟨hlow, hfail, ?_, ?_⟩
  · intro h
    by_cases hb : u.balance < amount
    · exact ⟨⟨_, (hlow hb).1⟩, (hlow hb).2⟩
    · rcases h with h | ⟨h3, h15, h45⟩
      · exact absurd h hb
      · exact ⟨⟨_, (hfail hb h3 h15 h45).1⟩, (hfail hb h3 h15 h45).2⟩
  · intro hb hp
    have hnn : 0 ≤ toNumber (u.balance - amount) :=
      toNumber_nonneg _ (by linarith [not_lt.1 hb])
    have hwhole : ∀ b a : ℕ, u.balance = b → amount = a → b < 2 ^ 53 →
        toNumber (u.balance - amount) = u.balance - amount := by
      intro b a hbal hamt hlt
      rw [hbal, hamt]
      have hle : (a : ℚ) ≤ (b : ℚ) := by
        rw [← hbal, ← hamt]; exact not_lt.1 hb
      have hlt' : (b : ℚ) < 2 ^ 53 := by exact_mod_cast hlt
      exact toNumber_sub_natCast b a (toNumber_natCast b hlt) hle hlt'
    have husr : (u.stake amount period newStakeId now).user =
        { u with
          stakes := u.stakes ++ [newStakeId],
          balance := toNumber (u.balance - amount) } := by
      rcases hp with hp | hp | hp <;> subst hp <;> simp [User.stake, hb]
    refine ⟨?_, ?_, husr, ?_, ?_⟩
    · rcases hp with hp | hp | hp <;> subst hp <;> simp [User.stake, hb]
    · rcases hp with hp | hp | hp <;> subst hp <;> simp [User.stake, hb]
    · rw [husr]; exact hnn
    · intro b a hbal hamt hlt
      rw [husr]
      exact hwhole b a hbal hamt hlt

/-- C12 at concrete inputs: alice stakes 1000 for 15 days; she cannot stake
40000, and 7 days is no staking period. -/
theorem stake_spec_witness :
    ((alice.stake 1000 15 9 0).created.map Stake.endDate = some 1296000000 ∧
      (alice.stake 1000 15 9 0).user.balance = 29000) ∧
    (alice.stake 40000 15 9 0).user = alice ∧
    (alice.stake 1000 7 9 0).result = Except.error "Invalid staking period" := by
  have h := stake_spec alice 1000 15 9 0
  have h' := stake_spec alice 40000 15 9 0
  have h'' := stake_spec alice 1000 7 9 0
  have hb : ¬ alice.balance < 1000 := by norm_num [alice]
  refine ⟨⟨?_, ?_⟩, (h'.1 (by norm_num [alice])).2.1,
    (h''.2.1 hb (by decide) (by decide) (by decide)).1⟩
  · rw [(h.2.2.2 hb (Or.inr (Or.inl rfl))).2.1]
    simp
  · rw [(h.2.2.2 hb (Or.inr (Or.inl rfl))).2.2.2.2 30000 1000 (by norm_num [alice])
      (by norm_num) (by norm_num)]
    norm_num [alice]

/-! ### Role expiry and the earning session (C15, C18) -/

/-- C15: when `roleExpiryDate` is set and not later than `now`,
`checkAndUpdateRole` leaves `role = User`, `roleExpiryDate = null` and
`isEarning = false` and changes no other field, balance and totalEarnings
included; when `roleExpiryDate` is absent or later than `now` it changes
nothing. -/
theorem checkAndUpdateRole_spec (u : User) (now : Int) :
    (∀ t, u.roleExpiryDate = some t → t ≤ now →
      u.checkAndUpdateRole now =
        { u with role := "User", roleExpiryDate := none, isEarning := false }) ∧
    ((u.roleExpiryDate = none ∨ ∃ t, u.roleExpiryDate = some t ∧ now < t) →
      u.checkAndUpdateRole now = u) := by
  constructor
  · intro t ht hle
    cases hE : u.isEarning <;> simp [User.checkAndUpdateRole, ht, hle, User.stopEarning, hE]
  · rintro (h | ⟨t, ht, hlt⟩)
    · simp [User.checkAndUpdateRole, h]
    · have : ¬ t ≤ now := by omega
      simp [User.checkAndUpdateRole, ht, this]

/-- C15 at concrete inputs: a MonthlyBooster in a session whose role expired at
time 1000 is checked at time 2000, and one whose role expires at 3000. -/
theorem checkAndUpdateRole_spec_witness :
    User.checkAndUpdateRole { earner "MonthlyBooster" with roleExpiryDate := some 1000 } 2000 =
      { earner "MonthlyBooster" with
        role := "User", roleExpiryDate := none, isEarning := false } ∧
    User.checkAndUpdateRole { earner "MonthlyBooster" with roleExpiryDate := some 3000 } 2000 =
      { earner "MonthlyBooster" with roleExpiryDate := some 3000 } :=
  ⟨(checkAndUpdateRole_spec
      { earner "MonthlyBooster" with roleExpiryDate := some 1000 } 2000).1 1000 rfl
      (by decide),
   (checkAndUpdateRole_spec
      { earner "MonthlyBooster" with roleExpiryDate := some 3000 } 2000).2
      (Or.inr ⟨3000, rfl, by decide⟩)⟩

/-- Every earning-session call keeps `isEarning → lastStartTime set`. -/
theorem EarningCall.run_preserves (now : Int) (call : EarningCall) (u : User)
    (h : u.isEarning = true → u.lastStartTime.isSome = true) :
    (call.run now u).isEarning = true → (call.run now u).lastStartTime.isSome = true := by
  cases call with
  | startEarning =>
    cases hE : u.isEarning <;> simp [EarningCall.run, User.startEarning, hE]
    exact h hE
  | stopEarning =>
    cases hE : u.isEarning <;> simp [EarningCall.run, User.stopEarning, hE]
  | claim =>
    by_cases hpos : u.calculateEarnings now > 0
    · cases hE : u.isEarning <;>
        simp [EarningCall.run, User.claim, hpos, User.stopEarning, User.addEarnings, hE]
    · simp only [EarningCall.run, User.claim, hpos, if_false]
      exact h
  | checkAndUpdateRole =>
    simp only [EarningCall.run, User.checkAndUpdateRole]
    cases hr : u.roleExpiryDate with
    | none => exact h
    | some t =>
      by_cases ht : t ≤ now
      · cases hE : u.isEarning <;> simp [ht, User.stopEarning, hE]
      · simp only [ht, if_false]
        exact h
  | setRole role durationInDays =>
    simp only [EarningCall.run, User.setRole]
    cases durationInDays with
    | some days => exact h
    | none =>
      by_cases hl : "LifeTime".data <:+: role.data
      · simp only [hl, if_true]; exact h
      · simp only [hl, if_false]; exact h

/-- C18: `isEarning = true` implies `lastStartTime` set.  The predicate holds of
a newly created account and is preserved by `startEarning` (which returns
false and changes nothing when already earning, and otherwise sets
`isEarning = true`, `lastStartTime = now` and returns true), `stopEarning`,
`claim`, `checkAndUpdateRole` and `setRole`; hence it holds after every
sequence of these calls on a new account. -/
theorem earning_implies_lastStartTime (u : User) (now : Int) :
    (∀ id telegramUserId username created,
      (newAccount id telegramUserId username created).isEarning = false ∧
      (newAccount id telegramUserId username created).lastStartTime = none) ∧
    (u.isEarning = true → u.startEarning now = (false, u)) ∧
    (u.isEarning = false →
      u.startEarning now = (true, { u with isEarning := true, lastStartTime := some now })) ∧
    (∀ call : EarningCall, (u.isEarning = true → u.lastStartTime.isSome = true) →
      (call.run now u).isEarning = true → (call.run now u).lastStartTime.isSome = true) ∧
    (∀ (calls : List (Int × EarningCall)) id telegramUserId username created,
      (runCalls calls (newAccount id telegramUserId username created)).isEarning = true →
      (runCalls calls (newAccount id telegramUserId username created)).lastStartTime.isSome
        = true) := by
  refine ⟨fun _ _ _ _ => ⟨rfl, rfl⟩, ?_, ?_, ?_, ?_⟩
  · intro h; simp [User.startEarning, h]
  · intro h; simp [User.startEarning, h]
  · intro call h
    exact EarningCall.run_preserves now call u h
  · intro calls id telegramUserId username created
    have key : ∀ (calls : List (Int × EarningCall)) (v : User),
        (v.isEarning = true → v.lastStartTime.isSome = true) →
        (runCalls calls v).isEarning = true → (runCalls calls v).lastStartTime.isSome = true := by
      intro calls
      induction calls with
      | nil => intro v hv; exact hv
      | cons c rest ih =>
        intro v hv
        obtain ⟨t, call⟩ := c
        exact ih _ (EarningCall.run_preserves t call v hv)
    exact key calls _ (by simp [newAccount])

/-- C18 at a concrete trace: a new account starts earning at 1000, has its
role set, and starts again at 2000 (refused); it is earning with
`lastStartTime = 1000`. -/
theorem earning_implies_lastStartTime_witness :
    (runCalls [(1000, .startEarning), (1500, .setRole "LifeTimeBooster" none),
        (2000, .startEarning)] (newAccount 3 "1003" "carol" 0)).isEarning = true ∧
    (runCalls [(1000, .startEarning), (1500, .setRole "LifeTimeBooster" none),
        (2000, .startEarning)] (newAccount 3 "1003" "carol" 0)).lastStartTime.isSome = true ∧
    (earner "User").startEarning 2000 = (false, earner "User") := by
  have h := earning_implies_lastStartTime (earner "User") 2000
  have h1 : (runCalls [(1000, .startEarning), (1500, .setRole "LifeTimeBooster" none),
        (2000, .startEarning)] (newAccount 3 "1003" "carol" 0)).isEarning = true := by
    decide
  exact ⟨h1, h.2.2.2.2 _ 3 "1003" "carol" 0 h1, h.2.1 rfl⟩

/-! ### The two daily-claim variants (C19) -/

/-- C19: the two `claimDailyPoints` handlers are inconsistent.  On a record
with streak 1 claimed the day before and `nextClaimAmount = 1000`, both accept
the claim, the routed handler credits 2000 and stores `nextClaimAmount =
3000`, the `userController` one credits the stored 1000 and stores 2000; so
the handlers are different functions.  In general, on an accepted claim
without reset the `userController` handler credits the previously stored
`nextClaimAmount` times the referral multiplier. -/
theorem claimDailyPoints_variants_differ :
    (∃ (user : User) (dailyPoint : DailyPoint) (now today : Int),
      (dailyPointController.claimDailyPoints (some user) (some dailyPoint) now today
        ).response.status = 200 ∧
      (userController.claimDailyPoints (some user) (some dailyPoint) now today
        ).response.status = 200 ∧
      (dailyPointController.claimDailyPoints (some user) (some dailyPoint) now today
        ).response.claimedAmount = some 2000 ∧
      (userController.claimDailyPoints (some user) (some dailyPoint) now today
        ).response.claimedAmount = some 1000 ∧
      (dailyPointController.claimDailyPoints (some user) (some dailyPoint) now today
        ).dailyPoint.map DailyPoint.nextClaimAmount = some 3000 ∧
      (userController.claimDailyPoints (some user) (some dailyPoint) now today
        ).dailyPoint.map DailyPoint.nextClaimAmount = some 2000) ∧
    dailyPointController.claimDailyPoints ≠ userController.claimDailyPoints ∧
    (∀ (user : User) (d : DailyPoint) (now today t : Int),
      d.lastClaimDate = some t → t ≠ today → today - 86400000 ≤ t →
      (userController.claimDailyPoints (some user) (some d) now today).response.claimedAmount
        = some (d.nextClaimAmount * (if d.dailyReferrals > (2 : Int) then 2 else 1)) ∧
      (userController.claimDailyPoints (some user) (some d) now today).user
        = some (user.addEarnings
            ((d.nextClaimAmount * (if d.dailyReferrals > (2 : Int) then 2 else 1) : Int) : ℚ))) := by
  have hex : (dailyPointController.claimDailyPoints (some alice)
        (some { user := 1, currentStreak := 1, lastClaimDate := some 0, nextClaimAmount := 1000,
                lastReferralReset := 0 }) 86400000 86400000).response.claimedAmount = some 2000 ∧
      (userController.claimDailyPoints (some alice)
        (some { user := 1, currentStreak := 1, lastClaimDate := some 0, nextClaimAmount := 1000,
                lastReferralReset := 0 }) 86400000 86400000).response.claimedAmount = some 1000 := by
    decide
  refine ⟨⟨alice,
      { user := 1, currentStreak := 1, lastClaimDate := some 0, nextClaimAmount := 1000,
        lastReferralReset := 0 },
      86400000, 86400000, by decide, by decide, hex.1, hex.2, by decide, by decide⟩, ?_, ?_⟩
  · intro heq
    have h1 := hex.1
    rw [heq, hex.2] at h1
    exact absurd h1 (by decide)
  · intro user d now today t hd ht hge
    have hr : ¬ t < today - 86400000 := by omega
    constructor <;> simp [userController.claimDailyPoints, hd, ht, hr]

/-- C19 at a concrete input: the `userController` handler pays the stored 5000
of a record claimed the day before. -/
theorem claimDailyPoints_variants_differ_witness :
    (userController.claimDailyPoints (some alice)
      (some { user := 1, currentStreak := 2, lastClaimDate := some 0, nextClaimAmount := 5000,
              lastReferralReset := 0 }) 86400000 86400000).response.claimedAmount
      = some 5000 := by
  have h := (claimDailyPoints_variants_differ.2.2 alice
    { user := 1, currentStreak := 2, lastClaimDate := some 0, nextClaimAmount := 5000,
      lastReferralReset := 0 } 86400000 86400000 0 rfl (by decide) (by decide)).1
  rw [h]
  decide

/-! ### Callers of `claim` (C20) -/

/-- A session started this instant has earned nothing, whatever the role. -/
theorem calculateEarnings_just_started (u : User) (now : Int) :
    User.calculateEarnings { u with isEarning := true, lastStartTime := some now } now = 0 := by
  obtain ⟨z1, z3, z6⟩ := baseEarnings_zero
  simp only [User.calculateEarnings, sub_self, Bool.not_true, Bool.false_eq_true, if_false]
  rw [z1, z3, z6]
  split_ifs <;> simp

/-- The handler `claimPoints` treats a returned 0 as a rejection: it answers 400
`No points available to claim` and stores the account as it was. -/
theorem claimPoints_rejects_zero (u : User) (now : Int)
    (h : ((u.checkAndUpdateRole now).claim now).1 = 0) :
    userController.claimPoints (some u) now =
      ({ status := 400, message := "No points available to claim" }, some u) := by
  have h' : ¬ ((u.checkAndUpdateRole now).claim now).1 > 0 := by omega
  simp only [userController.claimPoints]
  rw [if_neg h']

/-- The handler `claimHourlyPoints` reaches `claim()` exactly when the account is
not earning; `claim()` then returns 0, and the handler answers 200 `Points
claimed successfully` and stores the account with `isEarning = true` and
`lastStartTime = now`. -/
theorem claimHourlyPoints_zero_succeeds (u : User) (now : Int) (h : u.isEarning = false) :
    (User.claim (u.startEarning now).2 now).1 = 0 ∧
    (leaderboardController.claimHourlyPoints (some u) now).1.status = 200 ∧
    (leaderboardController.claimHourlyPoints (some u) now).1.message =
      "Points claimed successfully" ∧
    (leaderboardController.claimHourlyPoints (some u) now).1.claimedAmount = some 0 ∧
    (leaderboardController.claimHourlyPoints (some u) now).2 =
      some { u with isEarning := true, lastStartTime := some now } := by
  have hz := calculateEarnings_just_started u now
  have hz' : ¬ User.calculateEarnings { u with isEarning := true, lastStartTime := some now } now
      > 0 := by omega
  have hclaim : User.claim (u.startEarning now).2 now =
      (0, { u with isEarning := true, lastStartTime := some now }) := by
    simp [User.startEarning, h, User.claim, hz']
  refine ⟨by rw [hclaim], ?_, ?_, ?_, ?_⟩ <;>
    simp [leaderboardController.claimHourlyPoints, User.canStartEarning, h, hclaim]

/-- C20, the code at the failing input: alice is not earning and has no
`lastStartTime`; `claimHourlyPoints` at time 5000 calls `claim()`, which
returns 0, and still answers 200 `Points claimed successfully` with
`claimedAmount = 0`, storing `isEarning = true` and `lastStartTime = 5000`. -/
theorem claimHourlyPoints_reports_success_on_zero :
    alice.isEarning = false ∧ alice.lastStartTime = none ∧
    (User.claim (alice.startEarning 5000).2 5000).1 = 0 ∧
    (leaderboardController.claimHourlyPoints (some alice) 5000).1.status = 200 ∧
    (leaderboardController.claimHourlyPoints (some alice) 5000).1.message =
      "Points claimed successfully" ∧
    (leaderboardController.claimHourlyPoints (some alice) 5000).1.claimedAmount = some 0 ∧
    (leaderboardController.claimHourlyPoints (some alice) 5000).2.map User.isEarning =
      some true ∧
    (leaderboardController.claimHourlyPoints (some alice) 5000).2.map User.lastStartTime =
      some (some 5000) := by
  decide

/-! ### Promo codes (C13, C14) -/

/-- A quotient of positive doubles that is a whole number below `2 ^ 53` is
computed exactly. -/
theorem Double.div_exact (a b : Double) (ha : 0 < a.man) (hb : 0 < b.man) (K : ℕ)
    (hK : K < 2 ^ 53) (h : a.toRat / b.toRat = K) : (Double.div a b).toRat = K := by
  have h2ne : (2 : ℚ) ≠ 0 := by norm_num
  have hbn : 0 < b.man.natAbs := Int.natAbs_pos.2 hb.ne'
  have hcast : ((b.man.natAbs : ℕ) : ℚ) = (b.man : ℚ) := by
    rw [Nat.cast_natAbs, abs_of_pos hb]
  have e : a.toRat / b.toRat =
      ((a.man * b.man.sign : ℤ) : ℚ) / (b.man.natAbs : ℕ) * (2 : ℚ) ^ (a.exp - b.exp) := by
    rw [Int.sign_eq_one_of_pos hb, mul_one, hcast, zpow_sub₀ h2ne]
    simp only [Double.toRat]
    have hbq : (b.man : ℚ) ≠ 0 := by exact_mod_cast hb.ne'
    have hpe : (2 : ℚ) ^ b.exp ≠ 0 := zpow_ne_zero _ h2ne
    field_simp
  rw [e] at h
  unfold Double.div
  exact Double.round_exact _ _ _ (by rw [Int.sign_eq_one_of_pos hb, mul_one]; exact ha) hbn K hK h

/-- The function `Double.ceil` is the ceiling of the value. -/
theorem Double.ceil_spec (a : Double) : a.ceil = ⌈a.toRat⌉ := by
  unfold Double.ceil Double.toRat
  by_cases h : 0 ≤ a.exp
  · rw [if_pos h]
    have : (a.man : ℚ) * (2 : ℚ) ^ a.exp = ((a.man * 2 ^ a.exp.toNat : ℤ) : ℚ) := by
      rw [← two_zpow_toNat _ h]
      push_cast
      rfl
    rw [this, Int.ceil_intCast]
  · rw [if_neg h]
    have h' : (0 : ℤ) ≤ -a.exp := by omega
    have : (a.man : ℚ) * (2 : ℚ) ^ a.exp =
        -(((-a.man : ℤ) : ℚ) / ((2 ^ (-a.exp).toNat : ℕ) : ℚ)) := by
      rw [two_zpow_toNat _ h', zpow_neg, div_inv_eq_mul]
      push_cast
      ring
    rw [this, Int.ceil_neg, Rat.floor_intCast_div_natCast]
    push_cast
    rfl

/-- The double-precision `hoursLeft` is the exact ceiling of the remaining time in
hours, for every positive remaining time below `2 ^ 53` ms. -/
theorem hoursLeft_eq_ceil (usedAt now : Int) (h0 : 0 < usedAt + 86400000 - now)
    (h1 : usedAt + 86400000 - now < 2 ^ 53) :
    hoursLeft usedAt now = ⌈((usedAt + 86400000 - now : ℤ) : ℚ) / 3600000⌉ := by
  have hn : usedAt + 24 * 60 * 60 * 1000 - now = usedAt + 86400000 - now := by norm_num
  unfold hoursLeft
  simp only [hn]
  generalize usedAt + 86400000 - now = n at h0 h1
  obtain ⟨ha, hav⟩ := Double.ofInt_exact n h0 h1
  obtain ⟨hb, hbv⟩ := Double.ofInt_exact (1000 * 60 * 60) (by norm_num) (by norm_num)
  rw [Double.ceil_spec]
  have hbv' : (Double.ofInt (1000 * 60 * 60)).toRat = 3600000 := by rw [hbv]; norm_num
  have hnq : (0 : ℚ) < (n : ℚ) := by exact_mod_cast h0
  have hnlt : (n : ℚ) < 9007199254740992 := by
    have : n < 9007199254740992 := by norm_num at h1; exact h1
    exact_mod_cast this
  have hdm := Int.emod_add_ediv n 3600000
  have hm0 : 0 ≤ n % 3600000 := Int.emod_nonneg n (by norm_num)
  have hm1 : n % 3600000 < 3600000 := Int.emod_lt_of_pos n (by norm_num)
  have hk0 : 0 ≤ n / 3600000 := Int.ediv_nonneg h0.le (by norm_num)
  have hnsplit : (n : ℚ) = ((n % 3600000 : ℤ) : ℚ) + 3600000 * ((n / 3600000 : ℤ) : ℚ) := by
    exact_mod_cast hdm.symm
  by_cases hr : n % 3600000 = 0
  · -- a whole number of hours: the division is exact
    have hK : (n / 3600000).toNat < 2 ^ 53 := by
      have : n / 3600000 < 2 ^ 53 := by omega
      omega
    have hquot : (Double.ofInt n).toRat / (Double.ofInt (1000 * 60 * 60)).toRat =
        ((n / 3600000).toNat : ℕ) := by
      rw [hav, hbv']
      have : (((n / 3600000).toNat : ℕ) : ℚ) = ((n / 3600000 : ℤ) : ℚ) := by
        have := Int.toNat_of_nonneg hk0
        exact_mod_cast this
      rw [this, hnsplit, hr]
      field_simp
    rw [Double.div_exact _ _ ha hb _ hK hquot]
    have : ((n : ℤ) : ℚ) / 3600000 = (((n / 3600000).toNat : ℕ) : ℚ) := by
      rw [← hquot, hav, hbv']
    rw [this]
  · -- otherwise the rounding error cannot reach the next whole number
    obtain ⟨-, hxv⟩ := Double.div_spec _ _ ha hb
    have hu : (2 : ℚ) ^ (-53 : ℤ) = 1 / 9007199254740992 := by norm_num
    rw [hav, hbv', hu] at hxv
    obtain ⟨hx1, hx2⟩ := abs_le.1 hxv
    have hr1 : (1 : ℚ) ≤ ((n % 3600000 : ℤ) : ℚ) := by
      have : 1 ≤ n % 3600000 := by omega
      exact_mod_cast this
    have hr2 : ((n % 3600000 : ℤ) : ℚ) ≤ 3599999 := by
      have : n % 3600000 ≤ 3599999 := by omega
      exact_mod_cast this
    have hq : (n : ℚ) / 3600000 =
        ((n / 3600000 : ℤ) : ℚ) + ((n % 3600000 : ℤ) : ℚ) / 3600000 := by
      rw [hnsplit]
      field_simp
      ring
    have hceil : ∀ y : ℚ, ((n / 3600000 : ℤ) : ℚ) < y → y ≤ ((n / 3600000 : ℤ) : ℚ) + 1 →
        ⌈y⌉ = n / 3600000 + 1 := by
      intro y hy1 hy2
      rw [Int.ceil_eq_iff]
      push_cast
      constructor <;> linarith
    have herrsmall : (n : ℚ) / 3600000 * (1 / 9007199254740992) < 1 / 3600000 := by
      rw [div_mul_eq_mul_div, div_lt_div_iff₀ (by norm_num) (by norm_num)]
      linarith
    have hf1 : (1 : ℚ) / 3600000 ≤ ((n % 3600000 : ℤ) : ℚ) / 3600000 :=
      div_le_div_of_nonneg_right hr1 (by norm_num)
    have hf2 : ((n % 3600000 : ℤ) : ℚ) / 3600000 ≤ 3599999 / 3600000 :=
      div_le_div_of_nonneg_right hr2 (by norm_num)
    rw [hceil _ (by linarith) (by linarith), hceil _ (by linarith) (by linarith)]
/-- The first recent use of a code whose latest use dates from `u`, every
earlier use lying at least 24 hours before `u`: found, and dated `u`, from `u`
until `u + 24 h`; none from then on. -/
theorem recentUse_latest (user : User) (promoCodeId : Nat) (u now : Int)
    (hused : ∃ use ∈ user.usedPromoCodes, use.promoCode = promoCodeId ∧ use.usedAt = u)
    (hold : ∀ use ∈ user.usedPromoCodes, use.promoCode = promoCodeId →
      use.usedAt = u ∨ use.usedAt + 86400000 ≤ u) :
    (u ≤ now → now < u + 86400000 →
      ∃ use, recentUse user promoCodeId now = some use ∧ use.usedAt = u) ∧
    (u + 86400000 ≤ now → recentUse user promoCodeId now = none) := by
  constructor
  · intro hge hlt
    cases hfind : recentUse user promoCodeId now with
    | none =>
      exfalso
      obtain ⟨use, hmem, hcode, hu⟩ := hused
      unfold recentUse at hfind
      have := List.find?_eq_none.1 hfind use hmem
      simp [hcode, hu] at this
      omega
    | some use =>
      refine ⟨use, rfl, ?_⟩
      unfold recentUse at hfind
      have hmem := List.mem_of_find?_eq_some hfind
      have hp := List.find?_some hfind
      simp at hp
      rcases hold use hmem hp.1 with h | h
      · exact h
      · omega
  · intro hge
    unfold recentUse
    rw [List.find?_eq_none]
    intro use hmem
    simp only [decide_eq_true_eq, not_and]
    intro hcode
    rcases hold use hmem hcode with h | h <;> omega

/-- C13 as stated fails: twenty-four hours minus a millisecond are reported as
24 hours, the same as the full twenty-four, so the reported hours do not
strictly decrease from time 0 to time 1; both attempts are rejected. -/
theorem hoursLeft_not_strictly_decreasing :
    hoursLeft 0 0 = 24 ∧ hoursLeft 0 1 = 24 ∧ (0 : Int) < 1 ∧ ¬ hoursLeft 0 0 > hoursLeft 0 1 ∧
    (userController.applyPromoCode "1003" "WELCOME" (some carol) (some welcome) 0).1.status
      = 400 ∧
    (userController.applyPromoCode "1003" "WELCOME" (some carol) (some welcome) 1).1.status
      = 400 := by
  decide

/-- C13, amended: for an account whose latest use of an active, unexpired code
dates from `u`, every earlier use of it lying at least 24 hours before `u`,
every attempt at a time `t` with `u ≤ t < u + 24 h` is rejected, by the
handler and by the account method alike, leaving the account as it was, with
the reported hours `h(t) = ceil((u + 24 h - t) / 1 h)`, a whole number from 1
to 24; `h` never increases as `t` advances (`t1 ≤ t2` implies
`h(t1) ≥ h(t2)`) and drops by at least one over every full hour
(`t1 + 1 h ≤ t2` implies `h(t1) > h(t2)`); an attempt at any `t ≥ u + 24 h` is
accepted again. -/
theorem promo_cooldown_hours (user : User) (p : PromoCode) (telegramUserId promoCode : String)
    (activeTasks : Nat) (u : Int)
    (hin : telegramUserId ≠ "" ∧ promoCode ≠ "")
    (htasks : activeTasks ≤ user.tasksCompleted.length)
    (hactive : p.isActive = true)
    (hused : ∃ use ∈ user.usedPromoCodes, use.promoCode = p.id ∧ use.usedAt = u)
    (hold : ∀ use ∈ user.usedPromoCodes, use.promoCode = p.id →
      use.usedAt = u ∨ use.usedAt + 86400000 ≤ u) :
    (∀ t, u ≤ t → t < u + 86400000 → (∀ e, p.expirationDate = some e → t ≤ e) →
      userController.applyPromoCode telegramUserId promoCode (some user) (some p) t =
        ({ status := 400,
           message := cooldownMessage ⌈((u + 86400000 - t : ℤ) : ℚ) / 3600000⌉ },
         some user) ∧
      (user.applyPromoCode activeTasks (some p) t).result =
        Except.error (cooldownMessage ⌈((u + 86400000 - t : ℤ) : ℚ) / 3600000⌉) ∧
      (user.applyPromoCode activeTasks (some p) t).user = user ∧
      hoursLeft u t = ⌈((u + 86400000 - t : ℤ) : ℚ) / 3600000⌉ ∧
      1 ≤ hoursLeft u t ∧ hoursLeft u t ≤ 24) ∧
    (∀ t1 t2, u ≤ t1 → t1 ≤ t2 → t2 < u + 86400000 → hoursLeft u t2 ≤ hoursLeft u t1) ∧
    (∀ t1 t2, u ≤ t1 → t1 + 3600000 ≤ t2 → t2 < u + 86400000 →
      hoursLeft u t2 < hoursLeft u t1) ∧
    (∀ t, u + 86400000 ≤ t → (∀ e, p.expirationDate = some e → t ≤ e) →
      (userController.applyPromoCode telegramUserId promoCode (some user) (some p) t).1.status
        = 200 ∧
      (user.applyPromoCode activeTasks (some p) t).result = Except.ok p.pointsBoost) := by
  obtain ⟨htg, hcode⟩ := hin
  have htasks' : ¬ user.tasksCompleted.length < activeTasks := by omega
  have hexp : ∀ t, (∀ e, p.expirationDate = some e → t ≤ e) →
      (match p.expirationDate with
        | some expirationDate => decide (expirationDate < t)
        | none => false) = false := by
    intro t ht
    cases he : p.expirationDate with
    | none => rfl
    | some e =>
      have := ht e he
      simp only [decide_eq_false_iff_not]
      omega
  have hceil : ∀ t, u ≤ t → t < u + 86400000 →
      hoursLeft u t = ⌈((u + 86400000 - t : ℤ) : ℚ) / 3600000⌉ := by
    intro t h1 h2
    exact hoursLeft_eq_ceil u t (by omega) (by norm_num; omega)
  have hmono : ∀ t1 t2 : Int, t1 ≤ t2 →
      ⌈((u + 86400000 - t2 : ℤ) : ℚ) / 3600000⌉ ≤ ⌈((u + 86400000 - t1 : ℤ) : ℚ) / 3600000⌉ := by
    intro t1 t2 h
    apply Int.ceil_le_ceil
    have : ((u + 86400000 - t2 : ℤ) : ℚ) ≤ ((u + 86400000 - t1 : ℤ) : ℚ) := by
      exact_mod_cast (by omega : u + 86400000 - t2 ≤ u + 86400000 - t1)
    exact div_le_div_of_nonneg_right this (by norm_num)
  refine ⟨?_, ?_, ?_, ?_⟩
  · intro t h1 h2 hnotexp
    obtain ⟨use, hfind, huse⟩ := (recentUse_latest user p.id u t hused hold).1 h1 h2
    have hh := hceil t h1 h2
    refine ⟨?_, ?_, ?_, hh, ?_, ?_⟩
    · simp only [userController.applyPromoCode, htg, hcode, or_self, if_false, hactive,
        Bool.not_true, Bool.false_eq_true, hexp t hnotexp, hfind, huse, hh]
    · simp only [User.applyPromoCode, htasks', if_false, Option.filter, hactive, if_true,
        hexp t hnotexp, Bool.false_eq_true, hfind, huse, hh]
    · simp only [User.applyPromoCode, htasks', if_false, Option.filter, hactive, if_true,
        hexp t hnotexp, Bool.false_eq_true, hfind]
    · rw [hh]
      have : (0 : ℚ) < ((u + 86400000 - t : ℤ) : ℚ) / 3600000 := by
        apply div_pos _ (by norm_num)
        exact_mod_cast (by omega : 0 < u + 86400000 - t)
      exact Int.one_le_ceil_iff.2 this
    · rw [hh, Int.ceil_le]
      have : ((u + 86400000 - t : ℤ) : ℚ) ≤ 86400000 := by
        exact_mod_cast (by omega : u + 86400000 - t ≤ 86400000)
      rw [div_le_iff₀ (by norm_num)]
      push_cast at this ⊢
      linarith
  · intro t1 t2 h1 h12 h2
    rw [hceil t1 h1 (by omega), hceil t2 (by omega) h2]
    exact hmono t1 t2 h12
  · intro t1 t2 h1 h12 h2
    rw [hceil t1 h1 (by omega), hceil t2 (by omega) h2]
    have hstep : ⌈((u + 86400000 - t2 : ℤ) : ℚ) / 3600000⌉ ≤
        ⌈((u + 86400000 - t1 : ℤ) : ℚ) / 3600000 - 1⌉ := by
      apply Int.ceil_le_ceil
      have : ((u + 86400000 - t2 : ℤ) : ℚ) ≤ ((u + 86400000 - t1 : ℤ) : ℚ) - 3600000 := by
        exact_mod_cast (by omega : u + 86400000 - t2 ≤ u + 86400000 - t1 - 3600000)
      rw [div_le_iff₀ (by norm_num)]
      linarith [div_mul_cancel₀ (((u + 86400000 - t1 : ℤ) : ℚ)) (by norm_num : (3600000 : ℚ) ≠ 0)]
    rw [Int.ceil_sub_one] at hstep
    omega
  · intro t h hnotexp
    have hfind := (recentUse_latest user p.id u t hused hold).2 h
    constructor
    · simp only [userController.applyPromoCode, htg, hcode, or_self, if_false, hactive,
        Bool.not_true, Bool.false_eq_true, hexp t hnotexp, hfind]
    · simp only [User.applyPromoCode, htasks', if_false, Option.filter, hactive, if_true,
        hexp t hnotexp, Bool.false_eq_true, hfind]

/-- C13, amended, at concrete inputs: carol used `welcome` at time 0 and again,
24 hours later, at time 86400000; 90 minutes after the second use she is
rejected and told 23 hours, and 24 hours after it she may use the code
again. -/
theorem promo_cooldown_hours_witness :
    (userController.applyPromoCode "1003" "WELCOME" (some carolAgain) (some welcome) 91800000
      ).1 = { status := 400, message := "You can use this promo code again in 23 hours" } ∧
    hoursLeft 86400000 91800000 < hoursLeft 86400000 86400000 ∧
    (userController.applyPromoCode "1003" "WELCOME" (some carolAgain) (some welcome) 172800000
      ).1.status = 200 := by
  have h := promo_cooldown_hours carolAgain welcome "1003" "WELCOME" 0 86400000
    (by decide) (by decide) rfl
    ⟨⟨7, 86400000⟩, by simp [carolAgain, carol], rfl, rfl⟩
    (by
      intro use hmem _
      simp [carolAgain, carol] at hmem
      rcases hmem with hmem | hmem <;> rw [hmem] <;> decide)
  have hnotexp : ∀ t : Int, ∀ e, welcome.expirationDate = some e → t ≤ e := by
    intro t e he
    simp [welcome] at he
  refine ⟨?_, h.2.2.1 86400000 91800000 (by decide) (by decide) (by decide), ?_⟩
  · rw [congrArg Prod.fst ((h.1 91800000 (by decide) (by decide) (hnotexp _)).1)]
    have : ⌈(((86400000 : ℤ) + 86400000 - 91800000 : ℤ) : ℚ) / 3600000⌉ = 23 := by
      rw [Int.ceil_eq_iff]
      norm_num
    rw [this]
    decide
  · exact (h.2.2.2 172800000 (by decide) (hnotexp _)).1

/-- C14: the `applyPromoCode` handler answers an unknown code with 404, an
inactive or expired one with 400, and stores the account as it was; for an
active, unexpired code none of whose uses by the account falls in the last 24
hours it answers 200, adds exactly `pointsBoost` to balance and appends the
one usage record `{promoCode, usedAt = now}`, changing nothing else:
totalEarnings and the earlier usage records stay. -/
theorem applyPromoCode_handler_spec (telegramUserId promoCode : String) (user : User)
    (promoCodeDoc : Option PromoCode) (now : Int)
    (hin : telegramUserId ≠ "" ∧ promoCode ≠ "") :
    (promoCodeDoc = none →
      userController.applyPromoCode telegramUserId promoCode (some user) promoCodeDoc now =
        ({ status := 404, message := "Promo code not found" }, some user)) ∧
    (∀ p, promoCodeDoc = some p → p.isActive = false →
      userController.applyPromoCode telegramUserId promoCode (some user) promoCodeDoc now =
        ({ status := 400, message := "Promo code is not active" }, some user)) ∧
    (∀ p e, promoCodeDoc = some p → p.isActive = true → p.expirationDate = some e → e < now →
      userController.applyPromoCode telegramUserId promoCode (some user) promoCodeDoc now =
        ({ status := 400, message := "Promo code has expired" }, some user)) ∧
    (∀ p, promoCodeDoc = some p → p.isActive = true →
      (∀ e, p.expirationDate = some e → now ≤ e) →
      (∀ use ∈ user.usedPromoCodes, use.promoCode = p.id → use.usedAt ≤ now - 86400000) →
      userController.applyPromoCode telegramUserId promoCode (some user) promoCodeDoc now =
        ({ status := 200, message := "Promo code applied successfully",
           pointsAdded := some p.pointsBoost,
           newBalance := some (user.balance + p.pointsBoost) },
         some { user with
           balance := user.balance + p.pointsBoost,
           usedPromoCodes := user.usedPromoCodes ++ [{ promoCode := p.id, usedAt := now }] }))
    := by
  obtain ⟨htg, hcode⟩ := hin
  refine ⟨?_, ?_, ?_, ?_⟩
  · intro h
    subst h
    simp [userController.applyPromoCode, htg, hcode]
  · intro p hp ha
    subst hp
    simp [userController.applyPromoCode, htg, hcode, ha]
  · intro p e hp ha he hlt
    subst hp
    simp [userController.applyPromoCode, htg, hcode, ha, he, hlt]
  · intro p hp ha hexp hno
    subst hp
    have hexp' : (match p.expirationDate with
        | some expirationDate => decide (expirationDate < now)
        | none => false) = false := by
      cases he : p.expirationDate with
      | none => rfl
      | some e =>
        have := hexp e he
        simp only [decide_eq_false_iff_not]
        omega
    have hfind : recentUse user p.id now = none := by
      unfold recentUse
      rw [List.find?_eq_none]
      intro use hmem
      simp only [decide_eq_true_eq, not_and]
      intro hc
      have := hno use hmem hc
      omega
    simp only [userController.applyPromoCode, htg, hcode, or_self, if_false, ha,
      Bool.not_true, Bool.false_eq_true, hexp', hfind]

/-- C14 at concrete inputs: carol applies `welcome` a day after her first use
and gains 500; an unknown code changes nothing. -/
theorem applyPromoCode_handler_spec_witness :
    (userController.applyPromoCode "1003" "WELCOME" (some carol) (some welcome) 86400000).1
      = { status := 200, message := "Promo code applied successfully",
          pointsAdded := some 500, newBalance := some 30500 } ∧
    (userController.applyPromoCode "1003" "NOPE" (some carol) none 86400000).2 = some carol := by
  have h := applyPromoCode_handler_spec "1003" "WELCOME" carol (some welcome) 86400000
    (by decide)
  have h' := applyPromoCode_handler_spec "1003" "NOPE" carol none 86400000 (by decide)
  constructor
  · rw [h.2.2.2 welcome rfl rfl (by intro e he; simp [welcome] at he)
      (by
        intro use hmem _
        simp [carol] at hmem
        rw [hmem]
        decide)]
    norm_num [welcome, carol]
  · rw [h'.1 rfl]

/-! ### Stake payouts are not whole numbers (C17) -/

/-- C17 as stated fails: alice (balance 30000) stakes 1 point for 3 days and
claims at maturity; she is paid 1.03 and ends with 30000.03 (the binary64
values nearest to them), neither of which is an integer. -/
theorem stake_payout_not_integer :
    (alice.stake 1 3 9 0).created.map Stake.endDate = some 259200000 ∧
    (User.claimStake (alice.stake 1 3 9 0).user (alice.stake 1 3 9 0).created 9 259200000
      ).result = Except.ok { principal := 1, interest := 1080863910568919 / 36028797018963968,
                             totalAmount := 4638707616191611 / 4503599627370496 } ∧
    (User.claimStake (alice.stake 1 3 9 0).user (alice.stake 1 3 9 0).created 9 259200000
      ).user.balance = 1030793181832151 / 34359738368 ∧
    (¬ ∃ z : ℤ, (4638707616191611 / 4503599627370496 : ℚ) = z) ∧
    (¬ ∃ z : ℤ, (1030793181832151 / 34359738368 : ℚ) = z) := by
  have hb : ¬ alice.balance < 1 := by norm_num [alice]
  have hnot : ∀ k d : ℤ, 0 < d → k % d ≠ 0 → ¬ ∃ z : ℤ, ((k : ℚ) / d) = z := by
    intro k d hd hk ⟨z, hz⟩
    have hdq : (d : ℚ) ≠ 0 := by exact_mod_cast hd.ne'
    have h1 : (k : ℚ) = ((z * d : ℤ) : ℚ) := by
      push_cast
      rw [div_eq_iff hdq] at hz
      exact hz
    have h2 : k = z * d := by exact_mod_cast h1
    rw [h2, Int.mul_emod_left] at hk
    exact hk rfl
  have hs : toNumber (30000 - 1) = 29999 := by
    have := toNumber_natCast 29999 (by norm_num)
    norm_num at this ⊢
    exact this
  have hi : toNumber (1080863910568919 / 36028797018963968) =
      1080863910568919 / 36028797018963968 :=
    toNumber_eval _ 1080863910568919 36028797018963968 8646911284551352 (-58) _
      (by norm_num) (by norm_num) (by norm_num) (by decide) (by norm_num)
  have ht : toNumber (1 + 1080863910568919 / 36028797018963968) =
      4638707616191611 / 4503599627370496 :=
    toNumber_eval _ 37109660929532887 36028797018963968 4638707616191611 (-52) _
      (by norm_num) (by norm_num) (by norm_num) (by decide) (by norm_num)
  have hbal : toNumber (29999 + 4638707616191611 / 4503599627370496) =
      1030793181832151 / 34359738368 :=
    toNumber_eval _ 135108123929103701115 4503599627370496 8246345454657208 (-38) _
      (by norm_num) (by norm_num) (by norm_num) (by decide) (by norm_num)
  refine ⟨?_, ?_, ?_, ?_, ?_⟩
  · simp [User.stake, hb]
  · simp only [User.stake, hb, if_false, User.claimStake, toNumber_three_hundredths]
    simp [hi, ht]
  · simp only [User.stake, hb, if_false, User.claimStake, toNumber_three_hundredths, alice]
    simp [hi, ht, hs, hbal]
  · have := hnot 4638707616191611 4503599627370496 (by norm_num) (by decide)
    simpa using this
  · have := hnot 1030793181832151 34359738368 (by norm_num) (by decide)
    simpa using this

/-- C17, amended: for an account whose balance covers the amount and a stake
created by `stake(amount, period)` with a positive amount and period 3, 15 or
45 at the decimal rate `r` (0.03, 0.10, 0.35), the amount paid by `claimStake`
or by a matured `unstake` is the binary64 sum of the amount and the binary64
product of the amount and the stored rate: it is positive and within the
fraction `2 ^ -50` of `amount + amount * r`, not an integer in general; the
balance afterwards is the binary64 sum of the balance left by `stake` and the
amount paid, and is not negative. -/
theorem stake_payout_amounts (u : User) (amount : ℚ) (period : Int) (newStakeId : Nat)
    (now later : Int)
    (hamt : 0 < amount)
    (hfund : ¬ u.balance < amount) (hper : period = 3 ∨ period = 15 ∨ period = 45)
    (hmat : now + period * 24 * 60 * 60 * 1000 ≤ later) :
    ∃ r : ℚ, (r = 3 / 100 ∨ r = 10 / 100 ∨ r = 35 / 100) ∧
      (u.stake amount period newStakeId now).created.map Stake.interestRate =
        some (toNumber r) ∧
      (u.stake amount period newStakeId now).user.balance = toNumber (u.balance - amount) ∧
      (User.claimStake (u.stake amount period newStakeId now).user
          (u.stake amount period newStakeId now).created newStakeId later).result =
        Except.ok { principal := amount, interest := toNumber (amount * toNumber r),
                    totalAmount := toNumber (amount + toNumber (amount * toNumber r)) } ∧
      (User.unstake (u.stake amount period newStakeId now).user
          (u.stake amount period newStakeId now).created newStakeId later).result =
        Except.ok { principal := amount, interest := toNumber (amount * toNumber r),
                    totalAmount := toNumber (amount + toNumber (amount * toNumber r)) } ∧
      (User.claimStake (u.stake amount period newStakeId now).user
          (u.stake amount period newStakeId now).created newStakeId later).user.balance =
        toNumber (toNumber (u.balance - amount) +
          toNumber (amount + toNumber (amount * toNumber r))) ∧
      (User.unstake (u.stake amount period newStakeId now).user
          (u.stake amount period newStakeId now).created newStakeId later).user.balance =
        toNumber (toNumber (u.balance - amount) +
          toNumber (amount + toNumber (amount * toNumber r))) ∧
      0 < toNumber (amount + toNumber (amount * toNumber r)) ∧
      |toNumber (amount + toNumber (amount * toNumber r)) - (amount + amount * r)| ≤
        (amount + amount * r) * (2 : ℚ) ^ (-50 : ℤ) ∧
      0 ≤ toNumber (toNumber (u.balance - amount) +
          toNumber (amount + toNumber (amount * toNumber r))) := by
  have hlater : ¬ later < now + period * 24 * 60 * 60 * 1000 := by omega
  have hge : later ≥ now + period * 24 * 60 * 60 * 1000 := hmat
  have main : ∀ r : ℚ, 0 < r →
      (if period = 3 then toNumber (3 / 100)
        else if period = 15 then toNumber (10 / 100) else toNumber (35 / 100)) = toNumber r →
      (u.stake amount period newStakeId now).created.map Stake.interestRate =
        some (toNumber r) ∧
      (u.stake amount period newStakeId now).user.balance = toNumber (u.balance - amount) ∧
      (User.claimStake (u.stake amount period newStakeId now).user
          (u.stake amount period newStakeId now).created newStakeId later).result =
        Except.ok { principal := amount, interest := toNumber (amount * toNumber r),
                    totalAmount := toNumber (amount + toNumber (amount * toNumber r)) } ∧
      (User.unstake (u.stake amount period newStakeId now).user
          (u.stake amount period newStakeId now).created newStakeId later).result =
        Except.ok { principal := amount, interest := toNumber (amount * toNumber r),
                    totalAmount := toNumber (amount + toNumber (amount * toNumber r)) } ∧
      (User.claimStake (u.stake amount period newStakeId now).user
          (u.stake amount period newStakeId now).created newStakeId later).user.balance =
        toNumber (toNumber (u.balance - amount) +
          toNumber (amount + toNumber (amount * toNumber r))) ∧
      (User.unstake (u.stake amount period newStakeId now).user
          (u.stake amount period newStakeId now).created newStakeId later).user.balance =
        toNumber (toNumber (u.balance - amount) +
          toNumber (amount + toNumber (amount * toNumber r))) ∧
      0 < toNumber (amount + toNumber (amount * toNumber r)) ∧
      |toNumber (amount + toNumber (amount * toNumber r)) - (amount + amount * r)| ≤
        (amount + amount * r) * (2 : ℚ) ^ (-50 : ℤ) ∧
      0 ≤ toNumber (toNumber (u.balance - amount) +
          toNumber (amount + toNumber (amount * toNumber r))) := by
    intro r hr hrate
    obtain ⟨hpay, hnear⟩ := payout_near amount r hamt hr
    have hleft : 0 ≤ toNumber (u.balance - amount) :=
      toNumber_nonneg _ (by linarith [not_lt.1 hfund])
    have hstake : u.stake amount period newStakeId now =
        { result := Except.ok
            { id := newStakeId, user := u.id, amount := amount, period := period,
              interestRate := toNumber r, startDate := now,
              endDate := now + period * 24 * 60 * 60 * 1000, status := "active" },
          user := { u with
            stakes := u.stakes ++ [newStakeId], balance := toNumber (u.balance - amount) },
          created := some
            { id := newStakeId, user := u.id, amount := amount, period := period,
              interestRate := toNumber r, startDate := now,
              endDate := now + period * 24 * 60 * 60 * 1000, status := "active" } } := by
      rw [← hrate]
      rcases hper with hp | hp | hp <;> subst hp <;> simp [User.stake, hfund]
    rw [hstake]
    refine ⟨rfl, rfl, ?_, ?_, ?_, ?_, hpay, hnear, toNumber_nonneg _ (by linarith)⟩
    · simp [User.claimStake, hlater]
    · simp [User.unstake, hge]
    · simp [User.claimStake, hlater]
    · simp [User.unstake, hge]
  rcases hper with hp | hp | hp
  · exact ⟨3 / 100, Or.inl rfl, main _ (by norm_num) (by simp [hp])⟩
  · exact ⟨10 / 100, Or.inr (Or.inl rfl), main _ (by norm_num) (by simp [hp])⟩
  · exact ⟨35 / 100, Or.inr (Or.inr rfl), main _ (by norm_num) (by simp [hp])⟩

/-- C17, amended, at a concrete input: alice stakes 1000 for 15 days; what she
is paid at maturity is positive and within the fraction `2 ^ -50` of 1100. -/
theorem stake_payout_amounts_witness :
    ∃ r : ℚ, (alice.stake 1000 15 9 0).created.map Stake.interestRate = some (toNumber r) ∧
      (User.claimStake (alice.stake 1000 15 9 0).user (alice.stake 1000 15 9 0).created 9
          1296000000).result =
        Except.ok { principal := 1000, interest := toNumber (1000 * toNumber r),
                    totalAmount := toNumber (1000 + toNumber (1000 * toNumber r)) } ∧
      0 < toNumber (1000 + toNumber (1000 * toNumber r)) := by
  obtain ⟨r, -, hrate, -, hclaim, -, -, -, hpos, -⟩ :=
    stake_payout_amounts alice 1000 15 9 0 1296000000 (by norm_num)
      (by norm_num [alice]) (Or.inr (Or.inl rfl)) (by decide)
  exact ⟨r, hrate, hclaim, hpos⟩

/-! ### Lifetime earnings (C16) -/

/-- C16 as stated fails: `playGame` accepts any number as score, and a score of
-100 lowers the totalEarnings of alice from 30000 to 29900. -/
theorem playGame_lowers_totalEarnings :
    (userController.playGame "alice" (some (-100)) (some alice) 0).1.status = 200 ∧
    (userController.playGame "alice" (some (-100)) (some alice) 0).2.map User.totalEarnings
      = some 29900 ∧
    alice.totalEarnings = 30000 ∧ (29900 : ℚ) < 30000 := by
  refine ⟨by decide, ?_, rfl, by norm_num⟩
  simp [userController.playGame, alice]
  norm_num

/-- The routed daily claim never lowers totalEarnings on a record with a
non-negative streak. -/
theorem dailyPointController_totalEarnings (user : User) (dailyPoint : Option DailyPoint)
    (now today : Int) (hs : ∀ d, dailyPoint = some d → 0 ≤ d.currentStreak) :
    ∀ u', (dailyPointController.claimDailyPoints (some user) dailyPoint now today).user
      = some u' → user.totalEarnings ≤ u'.totalEarnings := by
  intro u' hu'
  have hamount : ∀ (s r : Int), 0 ≤ s →
      (0 : ℚ) ≤ ((dailyPointController.claimAmount (s + 1) * (if r > (2 : Int) then 2 else 1)
        : Int) : ℚ) := by
    intro s r hs0
    have h1 : 0 ≤ dailyPointController.claimAmount (s + 1) := by
      unfold dailyPointController.claimAmount
      exact le_min (by omega) (by norm_num)
    have h2 : (0 : Int) ≤ (if r > (2 : Int) then 2 else 1) := by split_ifs <;> norm_num
    exact_mod_cast mul_nonneg h1 h2
  by_cases hc : (loadedDailyPoint user dailyPoint now).lastClaimDate = some today
  · simp only [dailyPointController.claimDailyPoints, loadedDailyPoint] at hc hu'
    simp only [hc, if_true, Option.some.injEq] at hu'
    rw [← hu']
  · simp only [dailyPointController.claimDailyPoints, loadedDailyPoint] at hc hu'
    simp only [hc, if_false, Option.some.injEq] at hu'
    rw [← hu']
    simp only [User.addEarnings]
    cases dailyPoint with
    | none =>
      simp only [DailyPoint.create]
      have := hamount 0 0 le_rfl
      linarith
    | some d =>
      have hd := hs d rfl
      cases hl : d.lastClaimDate with
      | none =>
        simp only [hl]
        have := hamount 0 d.dailyReferrals le_rfl
        linarith
      | some t =>
        simp only [hl]
        by_cases hr : t < today - 86400000
        · simp only [hr, if_true]
          have := hamount 0 d.dailyReferrals le_rfl
          linarith
        · simp only [hr, if_false]
          have := hamount d.currentStreak d.dailyReferrals hd
          linarith

/-- The `userController` daily claim never lowers totalEarnings on a record with
a non-negative `nextClaimAmount`. -/
theorem userController_totalEarnings (user : User) (dailyPoint : Option DailyPoint)
    (now today : Int) (hs : ∀ d, dailyPoint = some d → 0 ≤ d.nextClaimAmount) :
    ∀ u', (userController.claimDailyPoints (some user) dailyPoint now today).user
      = some u' → user.totalEarnings ≤ u'.totalEarnings := by
  intro u' hu'
  have hamount : ∀ (a r : Int), 0 ≤ a →
      (0 : ℚ) ≤ ((a * (if r > (2 : Int) then 2 else 1) : Int) : ℚ) := by
    intro a r ha
    have h2 : (0 : Int) ≤ (if r > (2 : Int) then 2 else 1) := by split_ifs <;> norm_num
    exact_mod_cast mul_nonneg ha h2
  by_cases hc : (loadedDailyPoint user dailyPoint now).lastClaimDate = some today
  · simp only [userController.claimDailyPoints, loadedDailyPoint] at hc hu'
    simp only [hc, if_true, Option.some.injEq] at hu'
    rw [← hu']
  · simp only [userController.claimDailyPoints, loadedDailyPoint] at hc hu'
    simp only [hc, if_false, Option.some.injEq] at hu'
    rw [← hu']
    simp only [User.addEarnings]
    cases dailyPoint with
    | none =>
      simp only [DailyPoint.create]
      have := hamount 1000 0 (by norm_num)
      linarith
    | some d =>
      have hd := hs d rfl
      cases hl : d.lastClaimDate with
      | none =>
        simp only [hl]
        have := hamount 1000 d.dailyReferrals (by norm_num)
        linarith
      | some t =>
        simp only [hl]
        by_cases hr : t < today - 86400000
        · simp only [hr, if_true]
          have := hamount 1000 d.dailyReferrals (by norm_num)
          linarith
        · simp only [hr, if_false]
          have := hamount d.nextClaimAmount d.dailyReferrals hd
          linarith
/-- The bonus loop never lowers the totalEarnings stored under any id, for
non-negative bonus amounts. -/
theorem referralLoop_totalEarnings :
    ∀ (bs : List Double) (c : User) (users : List User),
      (∀ b ∈ bs, 0 ≤ bonusAmount b) →
      findById users (some c.id) = some c →
      ∀ i u, findById users (some i) = some u →
        ∃ u', findById (referralLoop bs (some c) users) (some i) = some u' ∧
          u.totalEarnings ≤ u'.totalEarnings := by
  intro bs
  induction bs with
  | nil => intro c users _ _ i u hu; exact ⟨u, hu, le_rfl⟩
  | cons b rest ih =>
    intro c users hbs hc i u hu
    have hb : (0 : ℚ) ≤ ((bonusAmount b : Int) : ℚ) := by
      exact_mod_cast hbs b (List.mem_cons_self _ _)
    have hsave : ∀ j, findById (saveUser users (c.addEarnings (bonusAmount b))) (some j) =
        if j = c.id then some (c.addEarnings (bonusAmount b)) else findById users (some j) := by
      intro j
      rw [findById_saveUser]
      rfl
    have hstep : ∃ u1, findById (saveUser users (c.addEarnings (bonusAmount b))) (some i)
        = some u1 ∧ u.totalEarnings ≤ u1.totalEarnings := by
      rw [hsave]
      by_cases hi : i = c.id
      · rw [if_pos hi]
        refine ⟨_, rfl, ?_⟩
        rw [hi, hc] at hu
        cases hu
        simp only [User.addEarnings]
        linarith
      · rw [if_neg hi]
        exact ⟨u, hu, le_rfl⟩
    have hloop : referralLoop (b :: rest) (some c) users =
        referralLoop rest
          (findById (saveUser users (c.addEarnings (bonusAmount b))) c.referredBy)
          (saveUser users (c.addEarnings (bonusAmount b))) := rfl
    rw [hloop]
    obtain ⟨u1, hu1, hle1⟩ := hstep
    cases hnext : findById (saveUser users (c.addEarnings (bonusAmount b))) c.referredBy with
    | none =>
      rw [referralLoop_none]
      exact ⟨u1, hu1, hle1⟩
    | some p =>
      have hp : findById (saveUser users (c.addEarnings (bonusAmount b))) (some p.id)
          = some p := by
        cases hr : c.referredBy with
        | none => rw [hr] at hnext; simp [findById] at hnext
        | some pid =>
          rw [hr] at hnext
          rw [(findById_some hnext).1, hnext]
      obtain ⟨u2, hu2, hle2⟩ := ih p _ (fun b' hb' => hbs b' (List.mem_cons_of_mem _ hb')) hp
        i u1 hu1
      exact ⟨u2, hu2, le_trans hle1 hle2⟩

/-- The five referral bonuses are non-negative amounts. -/
theorem referralBonuses_nonneg : ∀ b ∈ referralBonuses, 0 ≤ bonusAmount b := by
  decide

/-- A registration never lowers the totalEarnings of a stored account, in a
collection with unique ids and with a fresh id for the new account. -/
theorem registerUser_totalEarnings (db : Db) (telegramUserId username referralCode : String)
    (newUserId : Nat) (now today : Int)
    (hids : (db.users.map User.id).Nodup)
    (hfresh : ∀ u ∈ db.users, u.id ≠ newUserId) :
    ∀ i u, findById db.users (some i) = some u →
      ∃ u', findById
          (registerUser db telegramUserId username referralCode newUserId now today).2.users
          (some i) = some u' ∧ u.totalEarnings ≤ u'.totalEarnings := by
  intro i u hu
  have hi : i ≠ newUserId := by
    have := findById_some hu
    rw [← this.1]
    exact hfresh u this.2
  unfold registerUser
  by_cases h1 : telegramUserId = "" ∨ username = ""
  · rw [if_pos h1]
    exact ⟨u, hu, le_rfl⟩
  · rw [if_neg h1]
    simp only []
    by_cases h2 : referralCode ≠ "" ∧
        (if referralCode ≠ "" then findOneByUsername db.users referralCode else none) = none
    · rw [if_pos h2]
      exact ⟨u, hu, le_rfl⟩
    · rw [if_neg h2]
      by_cases h3 : db.users.any
          (fun u => decide (u.telegramUserId = telegramUserId ∨ u.username = username)) = true
      · rw [if_pos h3]
        exact ⟨u, hu, le_rfl⟩
      · rw [if_neg h3]
        cases hR : (if referralCode ≠ "" then findOneByUsername db.users referralCode else none)
          with
        | none =>
          simp only [Option.map_none']
          rw [findById_saveUser, findById_saveUser]
          have e1 : (User.addEarnings
              { id := newUserId, telegramUserId := telegramUserId, username := username,
                referredBy := none, lastActive := now } 30000).id = newUserId := rfl
          rw [e1, if_neg hi]
          simp only []
          rw [if_neg hi]
          exact ⟨u, hu, le_rfl⟩
        | some R =>
          have hRmem : R ∈ db.users := by
            by_cases hc : referralCode ≠ ""
            · rw [if_pos hc] at hR
              exact List.mem_of_find?_eq_some hR
            · rw [if_neg hc] at hR
              cases hR
          have hRid : findById db.users (some R.id) = some R := findById_of_mem hids hRmem
          simp only [Option.map_some', processReferral]
          rw [findById_saveUser]
          have e1 : (User.addEarnings
              { id := newUserId, telegramUserId := telegramUserId, username := username,
                referredBy := some R.id, lastActive := now } 30000).id = newUserId := rfl
          rw [e1, if_neg hi]
          -- the referrer after the flat bonus, and the collection it is saved in
          have hbase : ∃ u1, findById
              (saveUser
                (saveUser db.users
                  { id := newUserId, telegramUserId := telegramUserId, username := username,
                    referredBy := some R.id, lastActive := now })
                (User.addEarnings
                  ({ R with referrals := R.referrals ++ [newUserId] } : User) 15000))
              (some i) = some u1 ∧ u.totalEarnings ≤ u1.totalEarnings := by
            rw [findById_saveUser, findById_saveUser]
            have e2 : (User.addEarnings
                ({ R with referrals := R.referrals ++ [newUserId] } : User) 15000).id = R.id :=
              rfl
            rw [e2]
            by_cases hiR : i = R.id
            · rw [if_pos hiR]
              refine ⟨_, rfl, ?_⟩
              rw [hiR, hRid] at hu
              cases hu
              simp only [User.addEarnings]
              linarith
            · rw [if_neg hiR]
              simp only []
              rw [if_neg hi]
              exact ⟨u, hu, le_rfl⟩
          obtain ⟨u1, hu1, hle1⟩ := hbase
          have hc : findById
              (saveUser
                (saveUser db.users
                  { id := newUserId, telegramUserId := telegramUserId, username := username,
                    referredBy := some R.id, lastActive := now })
                (User.addEarnings
                  ({ R with referrals := R.referrals ++ [newUserId] } : User) 15000))
              (some (User.addEarnings
                  ({ R with referrals := R.referrals ++ [newUserId] } : User) 15000).id) =
              some (User.addEarnings
                  ({ R with referrals := R.referrals ++ [newUserId] } : User) 15000) := by
            rw [findById_saveUser, if_pos rfl]
          obtain ⟨u2, hu2, hle2⟩ := referralLoop_totalEarnings referralBonuses _ _
            referralBonuses_nonneg hc i u1 hu1
          exact ⟨u2, hu2, le_trans hle1 hle2⟩
/-- C16, amended: totalEarnings never decreases under an operation that credits
a non-negative amount.  `addEarnings` with `amount ≥ 0`, `completeTask` with
`points ≥ 0`, `playGame` with `score ≥ 0`, the daily claims on a record with a
non-negative streak (routed handler) or `nextClaimAmount` (`userController`),
`claim`, `updateUserClassification` and `registerUser` (unique ids, fresh new
id; for every stored account) leave it equal or greater; `stake`,
`claimStake`, `unstake` and both `applyPromoCode` leave it equal. -/
theorem totalEarnings_never_decreases (u : User) (now today : Int) :
    (∀ amount : ℚ, 0 ≤ amount → u.totalEarnings ≤ (u.addEarnings amount).totalEarnings) ∧
    (∀ username taskId task, (∀ t, task = some t → 0 ≤ t.points) →
      ∀ u', (userController.completeTask username taskId (some u) task).2 = some u' →
        u.totalEarnings ≤ u'.totalEarnings) ∧
    (∀ username score, (∀ s, score = some s → 0 ≤ s) →
      ∀ u', (userController.playGame username score (some u) now).2 = some u' →
        u.totalEarnings ≤ u'.totalEarnings) ∧
    (∀ dailyPoint, (∀ d, dailyPoint = some d → 0 ≤ d.currentStreak) →
      ∀ u', (dailyPointController.claimDailyPoints (some u) dailyPoint now today).user
        = some u' → u.totalEarnings ≤ u'.totalEarnings) ∧
    (∀ dailyPoint, (∀ d, dailyPoint = some d → 0 ≤ d.nextClaimAmount) →
      ∀ u', (userController.claimDailyPoints (some u) dailyPoint now today).user
        = some u' → u.totalEarnings ≤ u'.totalEarnings) ∧
    u.totalEarnings ≤ (u.claim now).2.totalEarnings ∧
    u.totalEarnings ≤ (updateUserClassification u).2.totalEarnings ∧
    (∀ amount period newStakeId,
      (u.stake amount period newStakeId now).user.totalEarnings = u.totalEarnings) ∧
    (∀ stake stakeId,
      (u.claimStake stake stakeId now).user.totalEarnings = u.totalEarnings ∧
      (u.unstake stake stakeId now).user.totalEarnings = u.totalEarnings) ∧
    (∀ telegramUserId promoCode promoCodeDoc activeTasks,
      (∀ u', (userController.applyPromoCode telegramUserId promoCode (some u) promoCodeDoc
          now).2 = some u' → u'.totalEarnings = u.totalEarnings) ∧
      (u.applyPromoCode activeTasks promoCodeDoc now).user.totalEarnings = u.totalEarnings) ∧
    (∀ (db : Db) (telegramUserId username referralCode : String) (newUserId : Nat),
      (db.users.map User.id).Nodup → (∀ v ∈ db.users, v.id ≠ newUserId) →
      ∀ i v, findById db.users (some i) = some v →
        ∃ v', findById
            (registerUser db telegramUserId username referralCode newUserId now today).2.users
            (some i) = some v' ∧ v.totalEarnings ≤ v'.totalEarnings) := by
  refine ⟨?_, ?_, ?_, ?_, ?_, ?_, ?_, ?_, ?_, ?_, ?_⟩
  · intro amount h
    simp only [User.addEarnings]
    linarith
  · intro username taskId task hp u' hu'
    unfold userController.completeTask at hu'
    cases taskId with
    | none => simp at hu'; rw [← hu']
    | some tid =>
      by_cases hn : username = ""
      · simp [hn] at hu'; rw [← hu']
      · cases task with
        | none => simp [hn] at hu'; rw [← hu']
        | some t =>
          have ht := hp t rfl
          by_cases hdone : tid ∈ u.tasksCompleted
          · simp [hn, hdone] at hu'; rw [← hu']
          · simp [hn, hdone] at hu'
            rw [← hu']
            simp only [User.addEarnings]
            linarith
  · intro username score hs u' hu'
    unfold userController.playGame at hu'
    cases score with
    | none => simp at hu'; rw [← hu']
    | some s =>
      have := hs s rfl
      by_cases hn : username = ""
      · simp [hn] at hu'; rw [← hu']
      · simp [hn] at hu'
        rw [← hu']
        simp only []
        linarith
  · intro dailyPoint hs
    exact dailyPointController_totalEarnings u dailyPoint now today hs
  · intro dailyPoint hs
    exact userController_totalEarnings u dailyPoint now today hs
  · by_cases hpos : u.calculateEarnings now > 0
    · have : (0 : ℚ) ≤ ((u.calculateEarnings now : Int) : ℚ) := by exact_mod_cast hpos.le
      cases hE : u.isEarning <;>
        simp [User.claim, hpos, User.addEarnings, User.stopEarning, hE] <;> linarith
    · simp [User.claim, hpos]
  · by_cases hlt : u.referrals.length < 1001
    · rw [updateUserClassification_below u hlt]
    · rw [(updateUserClassification_above u (by omega)).1]
  · intro amount period newStakeId
    unfold User.stake
    split_ifs <;> rfl
  · intro stake stakeId
    constructor
    · unfold User.claimStake
      cases stake with
      | none => rfl
      | some st => simp only []; split_ifs <;> rfl
    · unfold User.unstake
      cases stake with
      | none => rfl
      | some st => simp only []; split_ifs <;> rfl
  · intro telegramUserId promoCode promoCodeDoc activeTasks
    constructor
    · intro u' hu'
      unfold userController.applyPromoCode at hu'
      split_ifs at hu' with h1
      · simp at hu'; rw [← hu']
      · cases promoCodeDoc with
        | none => simp at hu'; rw [← hu']
        | some p =>
          simp only [] at hu'
          split_ifs at hu' with h2 h3
          · simp at hu'; rw [← hu']
          · simp at hu'; rw [← hu']
          · cases hf : recentUse u p.id now with
            | none => rw [hf] at hu'; simp at hu'; rw [← hu']
            | some use => rw [hf] at hu'; simp at hu'; rw [← hu']
    · unfold User.applyPromoCode
      split_ifs with h1
      · rfl
      · cases hp : promoCodeDoc.filter (fun p => p.isActive) with
        | none => rfl
        | some p =>
          simp only []
          split_ifs with h2
          · rfl
          · cases hf : recentUse u p.id now <;> rfl
  · intro db telegramUserId username referralCode newUserId hids hfresh
    exact registerUser_totalEarnings db telegramUserId username referralCode newUserId now today
      hids hfresh

/-- C16, amended, at concrete inputs: a game score of 250 raises the
totalEarnings of alice, and the registration of bob under alice raises hers. -/
theorem totalEarnings_never_decreases_witness :
    (∀ u', (userController.playGame "alice" (some 250) (some alice) 0).2 = some u' →
      alice.totalEarnings ≤ u'.totalEarnings) ∧
    (∃ v', findById (registerUser aliceDb "1002" "bob" "alice" 2 0 0).2.users (some 1)
        = some v' ∧ alice.totalEarnings ≤ v'.totalEarnings) := by
  have h := totalEarnings_never_decreases alice 0 0
  refine ⟨h.2.2.1 "alice" (some 250) (by intro s hs; cases hs; norm_num), ?_⟩
  exact h.2.2.2.2.2.2.2.2.2.2 aliceDb "1002" "bob" "alice" 2 (by simp [aliceDb])
    (by simp [aliceDb, alice]) 1 alice (by simp [findById, aliceDb, alice])

/-! ### The shared role field (C21) -/

/-- With the role `User`, `calculateEarnings` never exceeds 3600, and in a
running session it is `min(floor(base), 3600)`. -/
theorem calculateEarnings_user_role (v : User) (now : Int) (hv : v.role = "User") :
    v.calculateEarnings now ≤ 3600 ∧
    (∀ t, v.isEarning = true → v.lastStartTime = some t →
      v.calculateEarnings now = min (baseEarnings (now - t)).floor 3600) := by
  unfold User.calculateEarnings
  rw [hv]
  constructor
  · cases v.lastStartTime with
    | none => simp
    | some t =>
      cases v.isEarning with
      | false => simp
      | true => simp
  · intro t hE hs
    rw [hs, hE]
    simp

/-- C21 as stated fails from 1001 referrals on: for a `LifeTime6xBooster` with
1001 referrals `updateUserClassification` throws at `save()`, the stored role
is still `LifeTime6xBooster`, not the classification `Promoter`, and one hour
of earning still pays the sixfold 64800, not 0. -/
theorem updateUserClassification_keeps_booster :
    boostedPromoter.role = "LifeTime6xBooster" ∧
    boostedPromoter.referrals.length = 1001 ∧
    (updateUserClassification boostedPromoter).1 = Except.error "ValidationError" ∧
    (updateUserClassification boostedPromoter).2.role = "LifeTime6xBooster" ∧
    (updateUserClassification boostedPromoter).2.role ≠ "Promoter" ∧
    (updateUserClassification boostedPromoter).2.calculateEarnings 3600000 = 64800 ∧
    (updateUserClassification boostedPromoter).2.calculateEarnings 3600000 ≠ 0 := by
  have hlen : boostedPromoter.referrals.length = 1001 := List.length_replicate _ _
  have hrole : boostedPromoter.role ∈ roleEnum := by
    rw [show boostedPromoter.role = "LifeTime6xBooster" from rfl]; decide
  have h := updateUserClassification_above boostedPromoter (by rw [hlen])
  have h2 : (updateUserClassification boostedPromoter).2 = boostedPromoter := h.1
  have h1 : (updateUserClassification boostedPromoter).1 = Except.error "ValidationError" :=
    h.2.1 hrole
  have hr : (updateUserClassification boostedPromoter).2.role = "LifeTime6xBooster" :=
    (congrArg User.role h2).trans rfl
  have hcalc : boostedPromoter.calculateEarnings 3600000 =
      (earner "LifeTime6xBooster").calculateEarnings 3600000 := rfl
  have hval : (earner "LifeTime6xBooster").calculateEarnings 3600000 = 64800 := by decide
  have hc : (updateUserClassification boostedPromoter).2.calculateEarnings 3600000 = 64800 :=
    (congrArg (fun v => User.calculateEarnings v 3600000) h2).trans (hcalc.trans hval)
  have hne : (updateUserClassification boostedPromoter).2.role ≠ "Promoter" := by
    intro hcon
    have : "LifeTime6xBooster" = "Promoter" := hr.symm.trans hcon
    exact absurd this (by decide)
  have hne0 : (updateUserClassification boostedPromoter).2.calculateEarnings 3600000 ≠ 0 := by
    intro hcon
    have : (64800 : Int) = 0 := hc.symm.trans hcon
    exact absurd this (by decide)
  exact ⟨rfl, hlen, h1, hr, hne, hc, hne0⟩

/-- C21, amended: on an account whose stored role is a booster tier and that
has fewer than 1001 referrals, `updateUserClassification` returns the
classification `User` with 0 points and stores the role `User`, the booster
tier overwritten and nothing else changed, `roleExpiryDate` included;
`calculateEarnings` afterwards is the capped `min(floor(base), 3600)` of the
`User` role. -/
theorem updateUserClassification_overwrites_booster (user : User) (now : Int)
    (hrole : user.role = "MonthlyBooster" ∨ user.role = "LifeTimeBooster" ∨
      user.role = "Monthly3xBooster" ∨ user.role = "LifeTime6xBooster")
    (hlt : user.referrals.length < 1001) :
    (updateUserClassification user).1 =
      Except.ok { newClassification := "User", pointsAwarded := 0 } ∧
    (updateUserClassification user).2 = { user with role := "User" } ∧
    (updateUserClassification user).2.role = "User" ∧
    (updateUserClassification user).2.role ≠ user.role ∧
    (updateUserClassification user).2.roleExpiryDate = user.roleExpiryDate ∧
    (updateUserClassification user).2.balance = user.balance ∧
    (updateUserClassification user).2.calculateEarnings now ≤ 3600 ∧
    (∀ t, user.isEarning = true → user.lastStartTime = some t →
      (updateUserClassification user).2.calculateEarnings now =
        min (baseEarnings (now - t)).floor 3600) := by
  have hb := updateUserClassification_below user hlt
  have hu := calculateEarnings_user_role ({ user with role := "User" } : User) now rfl
  rw [hb]
  refine ⟨rfl, rfl, rfl, ?_, rfl, rfl, hu.1, ?_⟩
  · show "User" ≠ user.role
    rcases hrole with h | h | h | h <;> rw [h] <;> decide
  · intro t hE hs
    exact hu.2 t hE hs

/-- C21, amended, at a concrete input: a `LifeTime6xBooster` with 1000 referrals,
one hour into a session, earns 64800; `updateUserClassification` stores the
role `User`, and the same hour then earns the capped 3600. -/
theorem updateUserClassification_overwrites_booster_witness :
    boostedUser.referrals.length = 1000 ∧
    (updateUserClassification boostedUser).2.role = "User" ∧
    (updateUserClassification boostedUser).2.calculateEarnings 3600000 = 3600 := by
  have hlen : boostedUser.referrals.length = 1000 := List.length_replicate _ _
  have h := updateUserClassification_overwrites_booster boostedUser 3600000
    (Or.inr (Or.inr (Or.inr rfl))) (by rw [hlen]; decide)
  have hr : (updateUserClassification boostedUser).2.role = "User" := h.2.2.1
  have hc : (updateUserClassification boostedUser).2.calculateEarnings 3600000 =
      min (baseEarnings (3600000 - 0)).floor 3600 := h.2.2.2.2.2.2.2 0 rfl rfl
  have hv : min (baseEarnings (3600000 - 0)).floor 3600 = 3600 := by decide
  exact ⟨hlen, hr, hc.trans hv⟩

/-! ### A stake is paid out at most once (C22) -/

/-- A payout call either throws and leaves account and stake as they were, or
succeeds on an active stake listed on the account, leaving the stake `claimed`
or `unstaked` and its id off the stakes list. -/
theorem StakeCall.run_cases (stakeId : Nat) (now : Int) (call : StakeCall) (u : User)
    (stake : Option Stake) :
    ((call.run stakeId now u stake).succeeded = false ∧
      (call.run stakeId now u stake).user = u ∧
      (call.run stakeId now u stake).stake = stake) ∨
    ((call.run stakeId now u stake).succeeded = true ∧
      stakeId ∈ u.stakes ∧
      (∃ st, stake = some st ∧ st.status = "active") ∧
      (∃ s, (call.run stakeId now u stake).stake = some s ∧
        (s.status = "claimed" ∨ s.status = "unstaked")) ∧
      stakeId ∉ (call.run stakeId now u stake).user.stakes) := by
  cases stake with
  | none => cases call <;> exact Or.inl ⟨rfl, rfl, rfl⟩
  | some st =>
    by_cases hm : stakeId ∈ u.stakes
    · by_cases hs : st.status = "active"
      · cases call
        · by_cases hn : now < st.endDate
          · left
            simp [StakeCall.run, User.claimStake, StakeOutcome.succeeded, hm, hs, hn]
          · right
            simp [StakeCall.run, User.claimStake, StakeOutcome.succeeded, hm, hs, hn]
        · right
          simp [StakeCall.run, User.unstake, StakeOutcome.succeeded, hm, hs]
      · left
        cases call <;>
          simp [StakeCall.run, User.claimStake, User.unstake, StakeOutcome.succeeded, hm, hs]
    · left
      cases call <;>
        simp [StakeCall.run, User.claimStake, User.unstake, StakeOutcome.succeeded, hm]

/-- A payout call on a stake whose id is not on the stakes list of the account,
or whose status is not `active`, throws and changes nothing. -/
theorem StakeCall.run_fails (stakeId : Nat) (now : Int) (call : StakeCall) (u : User)
    (stake : Option Stake)
    (h : stakeId ∉ u.stakes ∨ ∃ st, stake = some st ∧ st.status ≠ "active") :
    (call.run stakeId now u stake).succeeded = false ∧
    (call.run stakeId now u stake).user = u ∧
    (call.run stakeId now u stake).stake = stake := by
  rcases StakeCall.run_cases stakeId now call u stake with hf | ⟨_, hm, ⟨st, hst, hs⟩, _⟩
  · exact hf
  · rcases h with h | ⟨st', hst', hs'⟩
    · exact absurd hm h
    · rw [hst] at hst'
      cases hst'
      exact absurd hs hs'

/-- Once the id is off the stakes list, every call of a sequence throws and
changes nothing. -/
theorem stakeTrace_all_fail (stakeId : Nat) (calls : List (Int × StakeCall)) (u : User)
    (stake : Option Stake) (h : stakeId ∉ u.stakes) :
    ∀ o ∈ stakeTrace stakeId calls u stake,
      o.succeeded = false ∧ o.user = u ∧ o.stake = stake := by
  induction calls with
  | nil => intro o ho; simp [stakeTrace] at ho
  | cons c rest ih =>
    obtain ⟨now, call⟩ := c
    obtain ⟨hf, hu, hs⟩ := StakeCall.run_fails stakeId now call u stake (Or.inl h)
    intro o ho
    simp only [stakeTrace, List.mem_cons] at ho
    rcases ho with ho | ho
    · subst ho
      exact ⟨hf, hu, hs⟩
    · rw [hu, hs] at ho
      exact ih o ho

/-- In any sequence of payout calls on one stake id at most one call succeeds. -/
theorem stakeTrace_successes (stakeId : Nat) (calls : List (Int × StakeCall)) (u : User)
    (stake : Option Stake) :
    ((stakeTrace stakeId calls u stake).filter StakeOutcome.succeeded).length ≤ 1 := by
  induction calls generalizing u stake with
  | nil => simp [stakeTrace]
  | cons c rest ih =>
    obtain ⟨now, call⟩ := c
    simp only [stakeTrace]
    rcases StakeCall.run_cases stakeId now call u stake with ⟨hf, hu, hs⟩ | ⟨ht, _, _, _, hgone⟩
    · rw [List.filter_cons_of_neg (by simp [hf]), hu, hs]
      exact ih u stake
    · rw [List.filter_cons_of_pos ht]
      have hnil : (stakeTrace stakeId rest (call.run stakeId now u stake).user
          (call.run stakeId now u stake).stake).filter StakeOutcome.succeeded = [] := by
        rw [List.filter_eq_nil_iff]
        intro o ho
        simp [(stakeTrace_all_fail stakeId rest _ _ hgone o ho).1]
      rw [hnil]
      simp

/-- After a successful payout call the stake is `claimed` or `unstaked`, its id
is off the stakes list, and every later call of the sequence throws and leaves
account and stake as the successful call left them. -/
theorem stakeTrace_after_success (stakeId : Nat) (calls : List (Int × StakeCall)) (u : User)
    (stake : Option Stake) (i : Nat) (o : StakeOutcome)
    (hi : (stakeTrace stakeId calls u stake)[i]? = some o) (ho : o.succeeded = true) :
    (∃ s, o.stake = some s ∧ (s.status = "claimed" ∨ s.status = "unstaked")) ∧
    stakeId ∉ o.user.stakes ∧
    ∀ (j : Nat) (o' : StakeOutcome), i < j →
      (stakeTrace stakeId calls u stake)[j]? = some o' →
      o'.succeeded = false ∧ o'.user = o.user ∧ o'.stake = o.stake := by
  induction calls generalizing u stake i with
  | nil => simp [stakeTrace] at hi
  | cons c rest ih =>
    obtain ⟨now, call⟩ := c
    cases i with
    | zero =>
      simp only [stakeTrace, List.getElem?_cons_zero, Option.some.injEq] at hi
      subst hi
      rcases StakeCall.run_cases stakeId now call u stake with ⟨hf, _, _⟩ | ⟨_, _, _, hst, hgone⟩
      · rw [hf] at ho; cases ho
      · refine ⟨hst, hgone, ?_⟩
        intro j o' hj ho'
        cases j with
        | zero => omega
        | succ j =>
          simp only [stakeTrace, List.getElem?_cons_succ] at ho'
          exact stakeTrace_all_fail stakeId rest _ _ hgone o' (List.getElem?_mem ho')
    | succ i =>
      simp only [stakeTrace, List.getElem?_cons_succ] at hi
      obtain ⟨h1, h2, h3⟩ := ih _ _ i hi
      refine ⟨h1, h2, ?_⟩
      intro j o' hj ho'
      cases j with
      | zero => omega
      | succ j =>
        simp only [stakeTrace, List.getElem?_cons_succ] at ho'
        exact h3 j o' (by omega) ho'

/-- C22 as stated fails in its last sentence: an account holding 0.11 points
stakes 0.04 for 3 days and unstakes at once; the call succeeds and leaves the
balance 0.11000000000000001, not the original 0.11, since
`0.11 - 0.04 + 0.04` is not 0.11 in binary64. -/
theorem stake_unstake_not_restoring :
    dime.balance = 7926335344172073 / 72057594037927936 ∧
    (dime.stake (toNumber (4 / 100)) 3 9 0).user.balance =
      1261007895663739 / 18014398509481984 ∧
    (User.unstake (dime.stake (toNumber (4 / 100)) 3 9 0).user
      (dime.stake (toNumber (4 / 100)) 3 9 0).created 9 0).result =
      Except.ok { principal := 5764607523034235 / 144115188075855872, interest := 0,
                  totalAmount := 5764607523034235 / 144115188075855872 } ∧
    (User.unstake (dime.stake (toNumber (4 / 100)) 3 9 0).user
      (dime.stake (toNumber (4 / 100)) 3 9 0).created 9 0).user.balance =
      3963167672086037 / 36028797018963968 ∧
    (User.unstake (dime.stake (toNumber (4 / 100)) 3 9 0).user
      (dime.stake (toNumber (4 / 100)) 3 9 0).created 9 0).user.balance ≠ dime.balance := by
  have hB : toNumber (11 / 100) = 7926335344172073 / 72057594037927936 :=
    toNumber_eval _ 11 100 7926335344172073 (-56) _
      (by norm_num) (by norm_num) (by norm_num) (by decide) (by norm_num)
  have hA : toNumber (4 / 100) = 5764607523034235 / 144115188075855872 :=
    toNumber_eval _ 1 25 5764607523034235 (-57) _
      (by norm_num) (by norm_num) (by norm_num) (by decide) (by norm_num)
  have hC : toNumber (7926335344172073 / 72057594037927936 -
      5764607523034235 / 144115188075855872) = 1261007895663739 / 18014398509481984 :=
    toNumber_eval _ 10088063165309911 144115188075855872 5044031582654956 (-56) _
      (by norm_num) (by norm_num) (by norm_num) (by decide) (by norm_num)
  have hA' : toNumber (5764607523034235 / 144115188075855872) =
      5764607523034235 / 144115188075855872 :=
    toNumber_eval _ 5764607523034235 144115188075855872 5764607523034235 (-57) _
      (by norm_num) (by norm_num) (by norm_num) (by decide) (by norm_num)
  have hD : toNumber (1261007895663739 / 18014398509481984 +
      5764607523034235 / 144115188075855872) = 3963167672086037 / 36028797018963968 :=
    toNumber_eval _ 15852670688344147 144115188075855872 7926335344172074 (-56) _
      (by norm_num) (by norm_num) (by norm_num) (by decide) (by norm_num)
  have hfund : ¬ (7926335344172073 / 72057594037927936 : ℚ) <
      5764607523034235 / 144115188075855872 := by norm_num
  have hbal : dime.balance = 7926335344172073 / 72057594037927936 := by
    simp only [dime, hB]
  have hstake : (dime.stake (toNumber (4 / 100)) 3 9 0).user.balance =
      1261007895663739 / 18014398509481984 := by
    simp only [User.stake, hbal, hA, hfund, if_false, if_true, hC]
  have hres : (User.unstake (dime.stake (toNumber (4 / 100)) 3 9 0).user
      (dime.stake (toNumber (4 / 100)) 3 9 0).created 9 0).result =
      Except.ok { principal := 5764607523034235 / 144115188075855872, interest := 0,
                  totalAmount := 5764607523034235 / 144115188075855872 } := by
    simp only [User.stake, hbal, hA, hfund, if_false, if_true, User.unstake]
    simp [dime, hA']
  have hend : (User.unstake (dime.stake (toNumber (4 / 100)) 3 9 0).user
      (dime.stake (toNumber (4 / 100)) 3 9 0).created 9 0).user.balance =
      3963167672086037 / 36028797018963968 := by
    simp only [User.stake, hbal, hA, hfund, if_false, if_true, User.unstake]
    simp [dime, hA', hC, hD]
  refine ⟨hbal, hstake, hres, hend, ?_⟩
  rw [hend, hbal]
  norm_num

/-- C22, amended: a stake is never paid out twice.  In any sequence of
`claimStake` and `unstake` calls on one stake id, each working on the account
and stake as the call before left them, at most one call succeeds; after a
successful call the stake is `claimed` or `unstaked`, its id is off the stakes
list of the account, and every later call throws and leaves account (so
balance) and stake (so status) unchanged; any call on a stake that is not
`active`, or whose id is not on the stakes list, throws.  For a whole amount
`a` and a balance that is a Number with `a ≤ balance < 2 ^ 53`, a successful
`stake(a, period)` followed by `unstake` before `endDate` succeeds and
restores the original balance, both steps being exact. -/
theorem stake_paid_out_at_most_once (u : User) (stake : Option Stake) (stakeId : Nat)
    (calls : List (Int × StakeCall)) :
    ((stakeTrace stakeId calls u stake).filter StakeOutcome.succeeded).length ≤ 1 ∧
    (∀ (i : Nat) (o : StakeOutcome),
      (stakeTrace stakeId calls u stake)[i]? = some o → o.succeeded = true →
      (∃ s, o.stake = some s ∧ (s.status = "claimed" ∨ s.status = "unstaked")) ∧
      stakeId ∉ o.user.stakes ∧
      ∀ (j : Nat) (o' : StakeOutcome), i < j →
        (stakeTrace stakeId calls u stake)[j]? = some o' →
        o'.succeeded = false ∧ o'.user = o.user ∧ o'.user.balance = o.user.balance ∧
        o'.stake = o.stake) ∧
    (∀ (now : Int) (call : StakeCall), (stakeId ∉ u.stakes ∨ ∃ st, stake = some st ∧ st.status ≠ "active") →
      (StakeCall.run stakeId now call u stake).succeeded = false ∧
      (StakeCall.run stakeId now call u stake).user = u ∧
      (StakeCall.run stakeId now call u stake).stake = stake) ∧
    (∀ (a : ℕ) (period now now' : Int), toNumber u.balance = u.balance →
      (a : ℚ) ≤ u.balance → u.balance < 2 ^ 53 →
      period = 3 ∨ period = 15 ∨ period = 45 →
      now' < now + period * 24 * 60 * 60 * 1000 →
      (∃ st, (u.stake a period stakeId now).result = Except.ok st ∧
        (u.stake a period stakeId now).created = some st ∧
        st.id = stakeId ∧ st.status = "active") ∧
      (u.stake a period stakeId now).user.balance = u.balance - a ∧
      (StakeCall.run stakeId now' StakeCall.unstake (u.stake a period stakeId now).user
        (u.stake a period stakeId now).created).succeeded = true ∧
      (StakeCall.run stakeId now' StakeCall.unstake (u.stake a period stakeId now).user
        (u.stake a period stakeId now).created).user.balance = u.balance) := by
  refine ⟨stakeTrace_successes stakeId calls u stake, ?_, ?_, ?_⟩
  · intro i o hi ho
    obtain ⟨h1, h2, h3⟩ := stakeTrace_after_success stakeId calls u stake i o hi ho
    refine ⟨h1, h2, ?_⟩
    intro j o' hj ho'
    obtain ⟨a, b, c⟩ := h3 j o' hj ho'
    exact ⟨a, b, by rw [b], c⟩
  · intro now call h
    exact StakeCall.run_fails stakeId now call u stake h
  · intro a period now now' hnum hle hlt hp hnow
    have hb : ¬ u.balance < (a : ℚ) := not_lt.mpr hle
    have ha53 : a < 2 ^ 53 := by
      have : (a : ℚ) < ((2 ^ 53 : ℕ) : ℚ) := by
        push_cast
        exact lt_of_le_of_lt hle hlt
      exact_mod_cast this
    have hsub : toNumber (u.balance - a) = u.balance - a :=
      toNumber_sub_natCast u.balance a hnum hle hlt
    have hamt : toNumber (a : ℚ) = a := toNumber_natCast a ha53
    have hback : toNumber (u.balance - a + a) = u.balance := by
      rw [sub_add_cancel]; exact hnum
    rcases hp with hp | hp | hp <;> subst hp
    · have hn : ¬ now + 259200000 ≤ now' := by omega
      simp [User.stake, StakeCall.run, User.unstake, StakeOutcome.succeeded, hb, hn, hsub,
        hamt, hback, hnum]
    · have hn : ¬ now + 1296000000 ≤ now' := by omega
      simp [User.stake, StakeCall.run, User.unstake, StakeOutcome.succeeded, hb, hn, hsub,
        hamt, hback, hnum]
    · have hn : ¬ now + 3888000000 ≤ now' := by omega
      simp [User.stake, StakeCall.run, User.unstake, StakeOutcome.succeeded, hb, hn, hsub,
        hamt, hback, hnum]

/-- C22, amended, at concrete inputs: alice holds the matured stake 9;
`claimStake` at maturity succeeds, so the `unstake` that follows it in the
sequence throws with the balance as `claimStake` left it; and staking 1000 for
15 days at time 0 then unstaking at time 0 restores her balance of 30000. -/
theorem stake_paid_out_at_most_once_witness :
    (StakeCall.run 9 1296000000 StakeCall.claimStake aliceStaked (some stake15)).succeeded
      = true ∧
    (StakeCall.run 9 1296000001 StakeCall.unstake
      (StakeCall.run 9 1296000000 StakeCall.claimStake aliceStaked (some stake15)).user
      (StakeCall.run 9 1296000000 StakeCall.claimStake aliceStaked (some stake15)).stake
      ).succeeded = false ∧
    (StakeCall.run 9 1296000001 StakeCall.unstake
      (StakeCall.run 9 1296000000 StakeCall.claimStake aliceStaked (some stake15)).user
      (StakeCall.run 9 1296000000 StakeCall.claimStake aliceStaked (some stake15)).stake
      ).user.balance =
      (StakeCall.run 9 1296000000 StakeCall.claimStake aliceStaked (some stake15)).user.balance ∧
    (alice.stake ((1000 : ℕ) : ℚ) 15 9 0).user.balance = alice.balance - ((1000 : ℕ) : ℚ) ∧
    (StakeCall.run 9 0 StakeCall.unstake (alice.stake ((1000 : ℕ) : ℚ) 15 9 0).user
      (alice.stake ((1000 : ℕ) : ℚ) 15 9 0).created).user.balance = alice.balance := by
  have h := stake_paid_out_at_most_once aliceStaked (some stake15) 9 payoutCalls
  have h' := stake_paid_out_at_most_once alice none 9 []
  have hs : (StakeCall.run 9 1296000000 StakeCall.claimStake aliceStaked
      (some stake15)).succeeded = true := by
    simp [StakeCall.run, User.claimStake, StakeOutcome.succeeded, stake15, aliceStaked]
  have hnum : toNumber alice.balance = alice.balance := by
    have := toNumber_natCast 30000 (by norm_num)
    simp only [alice]
    norm_num at this ⊢
    exact this
  obtain ⟨hf, _, hb, _⟩ := (h.2.1 0 _ rfl hs).2.2 1 _ (by decide) rfl
  have hrt := h'.2.2.2 1000 15 0 0 hnum (by norm_num [alice]) (by norm_num [alice])
    (Or.inr (Or.inl rfl)) (by decide)
  exact ⟨hs, hf, hb, hrt.2.1, hrt.2.2.2⟩

end Warthug
